import Mathlib

/-!
# Codec construction and dispatch of the Avro runtime

A shallow embedding of `codec.go`, `codec_array.go`, `codec_default.go`,
`codec_dynamic.go` and `codec_ptr.go`, followed by the properties proved about it.

Conventions of the embedding:

* Go `int` / `int64` values are unbounded integers: slice lengths, block counts and
  indices stay far below `2^63`, so the machine wrap never arises on them.
* A byte of a buffer is a natural number below 256.
* `error` values are trees: a sentinel (`io.EOF`), a message, or a message wrapping a cause.
* A `*Reader` is its unread input together with its error channel; a `*Writer` is the bytes
  written so far together with its error channel.
* Memory written through a raw pointer is passed in and returned explicitly.
* Loops that the source does not bound syntactically take a fuel argument and return
  `none` when it runs out.
-/

namespace Avro

/-! ## Errors -/

/-- A byte of a wire buffer. -/
abbrev Byte := Nat

/-- Go `error` values as used by the codecs: the `io.EOF` sentinel, a plain message
(`errors.New`, `fmt.Errorf` without `%w`) and `fmt.Errorf("<pfx>: %w", cause)`. -/
inductive GoError where
  | EOF : GoError
  | leaf (msg : String) : GoError
  | wrap (pfx : String) (cause : GoError) : GoError
  deriving DecidableEq, Repr

/-- Go `errors.Is(err, io.EOF)`: walks the `%w` chain. -/
def GoError.isEOF : GoError → Bool
  | .EOF => true
  | .leaf _ => false
  | .wrap _ cause => cause.isEOF

/-- Go `err.Error()`. -/
def GoError.Error : GoError → String
  | .EOF => "EOF"
  | .leaf msg => msg
  | .wrap pfx cause => pfx ++ ": " ++ cause.Error

/-- The guard `x.Error != nil && !errors.Is(x.Error, io.EOF)` of `codec_array.go`. -/
def hardError : Option GoError → Bool
  | none => false
  | some e => !e.isEOF

/-- Go `fmt.Errorf("%s: %w", name, x.Error)` applied to a non-nil channel. -/
def wrapError (name : String) : Option GoError → Option GoError
  | none => none
  | some e => some (GoError.wrap name e)

/-! ## Writer and reader primitives -/

/-- A `*Writer`: the bytes written so far and the error channel. -/
structure Writer where
  buf : List Byte
  Error : Option GoError
  deriving DecidableEq, Repr

/-- A `*Reader`: the unread input (the position is the start of `buf`) and the error channel. -/
structure Reader where
  buf : List Byte
  Error : Option GoError
  deriving DecidableEq, Repr

/-- Modelled from the spec: the zig-zag sign mapping of the leaf-level long encoding
(§1 names it as a given primitive), `(i << 1) ^ (i >> 63)`. -/
def zigzag (i : Int) : Nat :=
  if 0 ≤ i then 2 * i.toNat else 2 * (-i).toNat - 1

/-- Modelled from the spec: inverse of the zig-zag sign mapping. -/
def unzigzag (n : Nat) : Int :=
  if n % 2 = 0 then ((n / 2 : Nat) : Int) else -((n / 2 : Nat) : Int) - 1

/-- Modelled from the spec: variable-length integer encoding, seven bits a byte, low group
first, the high bit set on every byte but the last.  `fuel` bounds the number of groups. -/
def encodeInt : Nat → Nat → List Byte
  | 0, _ => []
  | fuel + 1, n =>
    if n < 128 then [n] else (n % 128 + 128) :: encodeInt fuel (n / 128)

/-- Modelled from the spec: reads one variable-length integer; `none` when the input ends
inside it. -/
def decodeInt : List Byte → Option (Nat × List Byte)
  | [] => none
  | b :: rest =>
    if b < 128 then some (b, rest)
    else
      match decodeInt rest with
      | some (v, rest') => some (b % 128 + 128 * v, rest')
      | none => none

/-- Modelled from the spec: `Writer.WriteLong`, the primitive write of a long. -/
def Writer.WriteLong (w : Writer) (i : Int) : Writer :=
  { w with buf := w.buf ++ encodeInt (zigzag i + 1) (zigzag i) }

/-- Modelled from the spec: `Reader.ReadLong`, the primitive read of a long.  With an error
already on the channel nothing is read; input that ends inside the value raises the
end-of-input signal. Both cases return 0. -/
def Reader.ReadLong (r : Reader) : Int × Reader :=
  match r.Error with
  | some _ => (0, r)
  | none =>
    match decodeInt r.buf with
    | some (n, rest) => (unzigzag n, { r with buf := rest })
    | none => (0, { buf := [], Error := some GoError.EOF })

/-- Modelled from the spec: `Reader.ReadBlockHeader` (§4.2, §6).  A negative count means the
item count is its absolute value and a byte length follows. Returns (count, byte length). -/
def Reader.ReadBlockHeader (r : Reader) : (Int × Int) × Reader :=
  let (length, r1) := r.ReadLong
  if length < 0 then
    let (size, r2) := r1.ReadLong
    ((-length, size), r2)
  else ((length, 0), r1)

/-- Modelled from the spec: `Writer.WriteBlockHeader(l, s)` (§6: the writer always uses the
positive form, so the byte length `s` is not written). -/
def Writer.WriteBlockHeader (w : Writer) (l : Int) (_s : Int) : Writer :=
  w.WriteLong l

/-- Modelled from the spec: `Writer.WriteBlockCB` (§4.2).  Runs the callback, then writes the
block header with the count the callback returned in front of the bytes the callback wrote.
`γ` carries whatever else the callback closure produces besides its count. -/
def Writer.WriteBlockCB {γ : Type} (w : Writer) (callback : Writer → (Int × γ) × Writer) :
    (Int × γ) × Writer :=
  let headerStart := w.buf.length
  let (res, w1) := callback w
  let captured := w1.buf.drop headerStart
  let w2 := ({ w1 with buf := w1.buf.take headerStart }).WriteBlockHeader res.1 captured.length
  (res, { w2 with buf := w2.buf ++ captured })

/-! ## Slices (`reflect2.UnsafeSliceType`) -/

/-- A Go slice header over its backing array: `Data` is the whole backing array (its length
is `Cap`) and `Len` the number of visible elements. -/
structure Slice (α : Type) where
  Data : List α
  Len : Nat
  deriving DecidableEq, Repr

/-- The visible elements of a slice. -/
def Slice.toList {α : Type} (s : Slice α) : List α := s.Data.take s.Len

/-- The slice header of a freshly built sequence. -/
def Slice.ofList {α : Type} (l : List α) : Slice α := { Data := l, Len := l.length }

/-- The header invariant `Len ≤ Cap`. -/
def Slice.WF {α : Type} (s : Slice α) : Prop := s.Len ≤ s.Data.length

/-- Go `UnsafeSliceType.UnsafeLengthOf`. -/
def Slice.UnsafeLengthOf {α : Type} (s : Slice α) : Int := (s.Len : Int)

/-- Go `UnsafeSliceType.UnsafeGetIndex`: the element slot at index `i` (no bounds check). -/
def Slice.UnsafeGetIndex {α : Type} [Inhabited α] (s : Slice α) (i : Int) : α :=
  s.Data.getD i.toNat default

/-- Writing through the pointer returned by `UnsafeGetIndex`. -/
def Slice.setIndex {α : Type} (s : Slice α) (i : Int) (x : α) : Slice α :=
  { s with Data := s.Data.set i.toNat x }

/-- The loop `for cap < expectedCap { cap *= 2 }` of `reflect2`. -/
def calcNewCapLoop (expectedCap : Nat) : Nat → Nat → Nat
  | 0, cap => cap
  | fuel + 1, cap => if cap < expectedCap then calcNewCapLoop expectedCap fuel (cap * 2) else cap

/-- The capacity `reflect2` picks when a slice must be reallocated. -/
def calcNewCap (cap expectedCap : Nat) : Nat :=
  if cap = 0 then expectedCap else calcNewCapLoop expectedCap expectedCap cap

/-- Go `UnsafeSliceType.UnsafeGrow(ptr, newLength)`: within capacity only the length
changes; otherwise a zeroed array of the new capacity receives the old visible elements. -/
def Slice.UnsafeGrow {α : Type} [Inhabited α] (s : Slice α) (newLength : Nat) : Slice α :=
  if newLength ≤ s.Data.length then { s with Len := newLength }
  else
    let newCap := calcNewCap s.Data.length newLength
    { Data := s.Data.take s.Len ++ List.replicate (newCap - s.Len) default, Len := newLength }

/-! ## Schema model and native type descriptors -/

/-- The schema kind tag, Go `avro.Type` (§3 lists the variants). -/
inductive SchemaType where
  | Record | Ref | Enum | Array | Map | Union | Fixed
  | String | Bytes | Int | Long | Float | Double | Boolean | Null
  | Other (name : String)
  deriving DecidableEq

/-- The text of a kind tag (`avro.Type` is a string type), as `%s` prints it. -/
def schemaTypeName : SchemaType → String
  | .Record => "record" | .Ref => "<ref>" | .Enum => "enum" | .Array => "array"
  | .Map => "map" | .Union => "union" | .Fixed => "fixed" | .String => "string"
  | .Bytes => "bytes" | .Int => "int" | .Long => "long" | .Float => "float"
  | .Double => "double" | .Boolean => "boolean" | .Null => "null"
  | .Other name => name

/-- The kinds a `*PrimitiveSchema` carries. -/
inductive PrimitiveKind where
  | String | Bytes | Int | Long | Float | Double | Boolean
  deriving DecidableEq

/-- A schema node, with the children the files embedded here reach: the item schema of an
array and the definition a reference stands for.  The other nodes are named by what
identifies them; their children are only read by builders defined elsewhere.  `Other` is a
node whose kind tag is none of the fifteen kinds; no valid schema has one. -/
inductive Schema where
  | Primitive (kind : PrimitiveKind)
  | Null
  | Record (name : String)
  | Ref (actual : Schema)
  | Enum (name : String)
  | Array (items : Schema)
  | Map (values : Schema)
  | Union (id : Nat)
  | Fixed (name : String)
  | Other (tag : String)
  deriving DecidableEq

/-- Go `schema.Type()`. -/
def Schema.Type : Schema → SchemaType
  | .Primitive .String => .String
  | .Primitive .Bytes => .Bytes
  | .Primitive .Int => .Int
  | .Primitive .Long => .Long
  | .Primitive .Float => .Float
  | .Primitive .Double => .Double
  | .Primitive .Boolean => .Boolean
  | .Null => .Null
  | .Record _ => .Record
  | .Ref _ => .Ref
  | .Enum _ => .Enum
  | .Array _ => .Array
  | .Map _ => .Map
  | .Union _ => .Union
  | .Fixed _ => .Fixed
  | .Other tag => .Other tag

/-- Nesting depth of the part of a schema the embedded builders walk themselves. -/
def Schema.depth : Schema → Nat
  | .Ref actual => actual.depth + 1
  | .Array items => items.depth + 1
  | _ => 0

/-- Go `reflect.Kind`. -/
inductive Kind where
  | Invalid | Bool | Int | Int8 | Int16 | Int32 | Int64 | Uint | Uint8 | Uint16 | Uint32
  | Uint64 | Uintptr | Float32 | Float64 | Complex64 | Complex128 | Array | Chan | Func
  | Interface | Map | Ptr | Slice | String | Struct | UnsafePointer
  deriving DecidableEq

/-- The kinds of the native types whose structure the embedded code never opens. -/
inductive PlainKind where
  | Invalid | Bool | Int | Int8 | Int16 | Int32 | Int64 | Uint | Uint8 | Uint16 | Uint32
  | Uint64 | Uintptr | Float32 | Float64 | Complex64 | Complex128 | Array | Chan | Func
  | Map | String | Struct | UnsafePointer
  deriving DecidableEq

/-- The `reflect.Kind` a plain kind stands for. -/
def PlainKind.toKind : PlainKind → Kind
  | .Invalid => .Invalid | .Bool => .Bool | .Int => .Int | .Int8 => .Int8 | .Int16 => .Int16
  | .Int32 => .Int32 | .Int64 => .Int64 | .Uint => .Uint | .Uint8 => .Uint8
  | .Uint16 => .Uint16 | .Uint32 => .Uint32 | .Uint64 => .Uint64 | .Uintptr => .Uintptr
  | .Float32 => .Float32 | .Float64 => .Float64 | .Complex64 => .Complex64
  | .Complex128 => .Complex128 | .Array => .Array | .Chan => .Chan | .Func => .Func
  | .Map => .Map | .String => .String | .Struct => .Struct | .UnsafePointer => .UnsafePointer

/-- A native type descriptor, Go `reflect2.Type`: a slice type (`*UnsafeSliceType`), a pointer
type (`*UnsafePtrType`), the empty interface (`*UnsafeEFaceType`), an interface with methods
(`*UnsafeIFaceType`), or any other type.  `str` is what `typ.String()` returns. -/
inductive GoType where
  | slice (str : String) (elem : GoType)
  | ptr (str : String) (elem : GoType)
  | eface
  | iface (str : String)
  | plain (kind : PlainKind) (str : String) (likePtr : Bool)
  deriving DecidableEq

/-- Go `typ.Kind()`. -/
def GoType.Kind : GoType → Kind
  | .slice _ _ => .Slice
  | .ptr _ _ => .Ptr
  | .eface => .Interface
  | .iface _ => .Interface
  | .plain k _ _ => k.toKind

/-- Go `typ.String()`. -/
def GoType.String : GoType → String
  | .slice str _ => str
  | .ptr str _ => str
  | .eface => "interface \x7b\x7d"
  | .iface str => str
  | .plain _ str _ => str

/-- Go `typ.LikePtr()`. -/
def GoType.LikePtr : GoType → Bool
  | .ptr _ _ => true
  | .plain _ _ likePtr => likePtr
  | _ => false

/-- The type assertion `_, ok := typ.(*reflect2.UnsafeIFaceType)`. -/
def GoType.isUnsafeIFaceType : GoType → Bool
  | .iface _ => true
  | _ => false

/-! ## Codec objects and their construction (`codec.go`, `codec_array.go`, `codec_ptr.go`) -/

/-- A built decoder, Go `ValDecoder`: one constructor for each decoder struct of the embedded
files, with its fields, and `foreign` for a decoder whose struct is declared elsewhere,
named by its identity. -/
inductive ValDecoder where
  | errorDecoder (err : GoError)
  | arrayDecoder (typ : GoType) (decoder : ValDecoder)
  | efaceDecoder (schema : Schema) (typ : GoType) (dec : ValDecoder)
  | dereferenceDecoder (typ : GoType) (decoder : ValDecoder)
  | referenceDecoder (decoder : ValDecoder)
  | defaultDecoder (data : List Byte) (decoder : ValDecoder)
  | foreign (id : Nat)
  deriving DecidableEq

/-- A built encoder, Go `ValEncoder`. -/
inductive ValEncoder where
  | errorEncoder (err : GoError)
  | arrayEncoder (blockLength : Int) (typ : GoType) (encoder : ValEncoder)
  | onePtrEncoder (enc : ValEncoder)
  | interfaceEncoder (schema : Schema) (typ : GoType)
  | dereferenceEncoder (typ : GoType) (encoder : ValEncoder)
  | foreign (id : Nat)
  deriving DecidableEq

/-- Go `seenDecoderStructCache`, a map from record name to `*structDecoder` (an address). -/
abbrev seenDecoderStructCache := List (String × Nat)

/-- Go `seenEncoderStructCache`, a map from record name to `*structEncoder` (an address). -/
abbrev seenEncoderStructCache := List (String × Nat)

/-- Go `frozenConfig`, as far as the embedded code reads it. -/
structure frozenConfig where
  BlockLength : Int
  deriving DecidableEq

/-- The functions of the package that the embedded files call and that are declared in other
files.  They are parameters of every definition that calls them.  `genericReceiver` returns a
type and an error; its one caller here, `newEfaceDecoder`, drops the error, so the model
keeps the type alone, `none` being the nil type of a failed call. -/
structure Collaborators where
  createDecoderOfMarshaler : frozenConfig → Schema → GoType → Option ValDecoder
  createDecoderOfNative : Schema → GoType → ValDecoder
  createDecoderOfRecord : frozenConfig → Schema → GoType → seenDecoderStructCache →
    ValDecoder × seenDecoderStructCache
  createDecoderOfEnum : Schema → GoType → ValDecoder
  createDecoderOfMap : frozenConfig → Schema → GoType → seenDecoderStructCache →
    ValDecoder × seenDecoderStructCache
  createDecoderOfUnion : frozenConfig → Schema → GoType → seenDecoderStructCache →
    ValDecoder × seenDecoderStructCache
  createDecoderOfFixed : Schema → GoType → ValDecoder
  genericReceiver : Schema → Option GoType
  createEncoderOfMarshaler : frozenConfig → Schema → GoType → Option ValEncoder
  createEncoderOfNative : Schema → GoType → ValEncoder
  createEncoderOfRecord : frozenConfig → Schema → GoType → seenEncoderStructCache →
    ValEncoder × seenEncoderStructCache
  createEncoderOfEnum : Schema → GoType → ValEncoder
  createEncoderOfMap : frozenConfig → Schema → GoType → seenEncoderStructCache →
    ValEncoder × seenEncoderStructCache
  createEncoderOfUnion : frozenConfig → Schema → GoType → seenEncoderStructCache →
    ValEncoder × seenEncoderStructCache
  createEncoderOfFixed : Schema → GoType → ValEncoder
  getBlockLength : frozenConfig → Int

/-- The result of a decoder builder: the decoder and the build scope as the builder left it;
`none` when the fuel of the recursion ran out, or when the call does not return at all: a
type assertion failed or a nil type was dereferenced. -/
abbrev DecoderBuild := Option (ValDecoder × seenDecoderStructCache)

/-- The result of an encoder builder. -/
abbrev EncoderBuild := Option (ValEncoder × seenEncoderStructCache)

/-- Go `decoderOfArray`.  The recursive call of `decoderOfType` is passed in as `recur`. -/
def decoderOfArray (recur : Schema → GoType → seenDecoderStructCache → DecoderBuild)
    (schema : Schema) (typ : GoType) (seen : seenDecoderStructCache) : DecoderBuild :=
  match schema, typ with
  | .Array items, .slice _ elem =>
    match recur items elem seen with
    | some (decoder, seen1) => some (ValDecoder.arrayDecoder typ decoder, seen1)
    | none => none
  | _, _ => none

/-- Go `createDecoderOfArray`. -/
def createDecoderOfArray (recur : Schema → GoType → seenDecoderStructCache → DecoderBuild)
    (schema : Schema) (typ : GoType) (seen : seenDecoderStructCache) : DecoderBuild :=
  if typ.Kind = Kind.Slice then decoderOfArray recur schema typ seen
  else
    some (ValDecoder.errorDecoder (GoError.leaf
      ("avro: " ++ typ.String ++ " is unsupported for Avro " ++ schemaTypeName schema.Type)), seen)

/-- Go `newEfaceDecoder`.  `typ, _ := genericReceiver(schema)` drops the error and hands the
type to `decoderOfType` as it is; on a nil type that call dereferences nil (its first
statements call methods of `typ`) and nothing is returned. -/
def newEfaceDecoder (C : Collaborators)
    (recur : Schema → GoType → seenDecoderStructCache → DecoderBuild)
    (schema : Schema) (seen : seenDecoderStructCache) : DecoderBuild :=
  match C.genericReceiver schema with
  | none => none
  | some typ =>
    match recur schema typ seen with
    | some (dec, seen1) => some (ValDecoder.efaceDecoder schema typ dec, seen1)
    | none => none

/-- Go `decoderOfType`.  `fuel` bounds the depth of the recursion. -/
def decoderOfType (C : Collaborators) (cfg : frozenConfig) :
    Nat → Schema → GoType → seenDecoderStructCache → DecoderBuild
  | 0, _, _, _ => none
  | fuel + 1, schema, typ, seen =>
    match C.createDecoderOfMarshaler cfg schema typ with
    | some dec => some (dec, seen)
    | none =>
      if typ.Kind = Kind.Interface ∧ schema.Type ≠ SchemaType.Union ∧
          typ.isUnsafeIFaceType = false then
        newEfaceDecoder C (decoderOfType C cfg fuel) schema seen
      else
        match schema.Type with
        | .String | .Bytes | .Int | .Long | .Float | .Double | .Boolean =>
          some (C.createDecoderOfNative schema typ, seen)
        | .Record => some (C.createDecoderOfRecord cfg schema typ seen)
        | .Ref =>
          match schema with
          | .Ref actual => decoderOfType C cfg fuel actual typ seen
          | _ => none
        | .Enum => some (C.createDecoderOfEnum schema typ, seen)
        | .Array => createDecoderOfArray (decoderOfType C cfg fuel) schema typ seen
        | .Map => some (C.createDecoderOfMap cfg schema typ seen)
        | .Union => some (C.createDecoderOfUnion cfg schema typ seen)
        | .Fixed => some (C.createDecoderOfFixed schema typ, seen)
        | _ =>
          some (ValDecoder.errorDecoder (GoError.leaf
            ("avro: schema type " ++ schemaTypeName schema.Type ++ " is unsupported")), seen)

/-- Go `decoderOfPtr`. -/
def decoderOfPtr (recur : Schema → GoType → seenDecoderStructCache → DecoderBuild)
    (schema : Schema) (typ : GoType) (seen : seenDecoderStructCache) : DecoderBuild :=
  match typ with
  | .ptr _ elemType =>
    match recur schema elemType seen with
    | some (decoder, seen1) => some (ValDecoder.dereferenceDecoder elemType decoder, seen1)
    | none => none
  | _ => none

/-- Go `encoderOfArray`.  The recursive call of `encoderOfType` is passed in as `recur`. -/
def encoderOfArray (C : Collaborators) (cfg : frozenConfig)
    (recur : Schema → GoType → seenEncoderStructCache → EncoderBuild)
    (schema : Schema) (typ : GoType) (seen : seenEncoderStructCache) : EncoderBuild :=
  match schema, typ with
  | .Array items, .slice _ elem =>
    match recur items elem seen with
    | some (encoder, seen1) =>
      some (ValEncoder.arrayEncoder (C.getBlockLength cfg) typ encoder, seen1)
    | none => none
  | _, _ => none

/-- Go `createEncoderOfArray`. -/
def createEncoderOfArray (C : Collaborators) (cfg : frozenConfig)
    (recur : Schema → GoType → seenEncoderStructCache → EncoderBuild)
    (schema : Schema) (typ : GoType) (seen : seenEncoderStructCache) : EncoderBuild :=
  if typ.Kind = Kind.Slice then encoderOfArray C cfg recur schema typ seen
  else
    some (ValEncoder.errorEncoder (GoError.leaf
      ("avro: " ++ typ.String ++ " is unsupported for Avro " ++ schemaTypeName schema.Type)), seen)

/-- Go `encoderOfType`.  `fuel` bounds the depth of the recursion. -/
def encoderOfType (C : Collaborators) (cfg : frozenConfig) :
    Nat → Schema → GoType → seenEncoderStructCache → EncoderBuild
  | 0, _, _, _ => none
  | fuel + 1, schema, typ, seen =>
    match C.createEncoderOfMarshaler cfg schema typ with
    | some enc => some (enc, seen)
    | none =>
      if typ.Kind = Kind.Interface then
        some (ValEncoder.interfaceEncoder schema typ, seen)
      else
        match schema.Type with
        | .String | .Bytes | .Int | .Long | .Float | .Double | .Boolean | .Null =>
          some (C.createEncoderOfNative schema typ, seen)
        | .Record => some (C.createEncoderOfRecord cfg schema typ seen)
        | .Ref =>
          match schema with
          | .Ref actual => encoderOfType C cfg fuel actual typ seen
          | _ => none
        | .Enum => some (C.createEncoderOfEnum schema typ, seen)
        | .Array => createEncoderOfArray C cfg (encoderOfType C cfg fuel) schema typ seen
        | .Map => some (C.createEncoderOfMap cfg schema typ seen)
        | .Union => some (C.createEncoderOfUnion cfg schema typ seen)
        | .Fixed => some (C.createEncoderOfFixed schema typ, seen)
        | _ =>
          some (ValEncoder.errorEncoder (GoError.leaf
            ("avro: schema type " ++ schemaTypeName schema.Type ++ " is unsupported")), seen)

/-- Go `encoderOfPtr`. -/
def encoderOfPtr (recur : Schema → GoType → seenEncoderStructCache → EncoderBuild)
    (schema : Schema) (typ : GoType) (seen : seenEncoderStructCache) : EncoderBuild :=
  match typ with
  | .ptr _ elemType =>
    match recur schema elemType seen with
    | some (enc, seen1) => some (ValEncoder.dereferenceEncoder elemType enc, seen1)
    | none => none
  | _ => none

/-! ## Block container codec (`codec_array.go`) -/

/-- The struct `arrayDecoder`, with the item decoder as the function its `Decode` computes:
from the item slot's prior content and the reader to the decoded content and the reader. -/
structure arrayDecoder (α : Type) where
  typ : String
  decoder : α → Reader → α × Reader

/-- Outcome of the item loop of `arrayDecoder.Decode`. -/
structure ItemLoop (α : Type) where
  slice : Slice α
  r : Reader
  calls : List Int
  returned : Bool

/-- The loop `for i := start; i < size; i++` of `arrayDecoder.Decode`, with `n = size - i`
iterations left.  `calls` logs the indices handed to the item decoder; `returned` tells
that the loop left through `return`. -/
def arrayDecoder.items {α : Type} [Inhabited α] (d : arrayDecoder α) :
    Nat → Int → Slice α → Reader → List Int → ItemLoop α
  | 0, _, s, r, calls => { slice := s, r := r, calls := calls, returned := false }
  | n + 1, i, s, r, calls =>
    let (x, r1) := d.decoder (s.UnsafeGetIndex i) r
    let s1 := s.setIndex i x
    if hardError r1.Error then
      { slice := s1, r := { r1 with Error := wrapError d.typ r1.Error },
        calls := calls ++ [i], returned := true }
    else arrayDecoder.items d n (i + 1) s1 r1 (calls ++ [i])

/-- The outer `for` loop of `arrayDecoder.Decode` and the statements after it.  `size` is
the local of that name. -/
def arrayDecoder.blocks {α : Type} [Inhabited α] (d : arrayDecoder α) :
    Nat → Int → Slice α → Reader → List Int → Option (Slice α × Reader × List Int)
  | 0, _, _, _, _ => none
  | fuel + 1, size, s, r, calls =>
    let ((l, _), r1) := r.ReadBlockHeader
    if l = 0 then
      if hardError r1.Error then
        some (s, { r1 with Error := wrapError d.typ r1.Error }, calls)
      else some (s, r1, calls)
    else
      let start := size
      let size1 := size + l
      let s1 := s.UnsafeGrow size1.toNat
      let res := arrayDecoder.items d (size1 - start).toNat start s1 r1 calls
      if res.returned then some (res.slice, res.r, res.calls)
      else arrayDecoder.blocks d fuel size1 res.slice res.r res.calls

/-- Go `arrayDecoder.Decode(ptr, r, seen)`: `ptr` is the slice header it points to.  Returns
the slice, the reader and the log of indices handed to the item decoder. -/
def arrayDecoder.Decode {α : Type} [Inhabited α] (d : arrayDecoder α) (fuel : Nat)
    (ptr : Slice α) (r : Reader) : Option (Slice α × Reader × List Int) :=
  arrayDecoder.blocks d fuel 0 ptr r []

/-- The struct `arrayEncoder`, with the item encoder as the function its `Encode` computes. -/
structure arrayEncoder (α : Type) where
  blockLength : Int
  typ : String
  encoder : α → Writer → Writer

/-- The callback handed to `WriteBlockCB`: the loop
`for j := i; j < i+blockLength && j < length; j++`, entered at `j` with `count` items done.
`n` bounds the iterations left (`length - j` always suffices).  Returns the count, the log
of indices handed to the item encoder, and the writer. -/
def arrayEncoder.callback {α : Type} [Inhabited α] (e : arrayEncoder α) (ptr : Slice α)
    (i length : Int) : Nat → Int → Int → List Int → Writer → (Int × List Int) × Writer
  | 0, _, count, calls, w => ((count, calls), w)
  | n + 1, j, count, calls, w =>
    if j < i + e.blockLength ∧ j < length then
      let w1 := e.encoder (ptr.UnsafeGetIndex j) w
      if hardError w1.Error then
        ((count, calls ++ [j]), { w1 with Error := wrapError e.typ w1.Error })
      else arrayEncoder.callback e ptr i length n (j + 1) (count + 1) (calls ++ [j]) w1
    else ((count, calls), w)

/-- The loop `for i := 0; i < length; i += blockLength` of `arrayEncoder.Encode`.  Returns
the writer, the log of indices handed to the item encoder and the counts the callbacks
returned, one a chunk. -/
def arrayEncoder.chunks {α : Type} [Inhabited α] (e : arrayEncoder α) (ptr : Slice α)
    (length : Int) : Nat → Int → List Int → List Int → Writer →
    Option (Writer × List Int × List Int)
  | 0, _, _, _, _ => none
  | fuel + 1, i, calls, counts, w =>
    if i < length then
      let (res, w1) :=
        w.WriteBlockCB (arrayEncoder.callback e ptr i length (length - i).toNat i 0 calls)
      arrayEncoder.chunks e ptr length fuel (i + e.blockLength) res.2 (counts ++ [res.1]) w1
    else some (w, calls, counts)

/-- Go `arrayEncoder.Encode(ptr, w, seen)`: `ptr` is the slice header it points to. -/
def arrayEncoder.Encode {α : Type} [Inhabited α] (e : arrayEncoder α) (fuel : Nat)
    (ptr : Slice α) (w : Writer) : Option (Writer × List Int × List Int) :=
  let length := ptr.UnsafeLengthOf
  match arrayEncoder.chunks e ptr length fuel 0 [] [] w with
  | none => none
  | some (w1, calls, counts) =>
    let w2 := w1.WriteBlockHeader 0 0
    if hardError w2.Error then
      some ({ w2 with Error := wrapError e.typ w2.Error }, calls, counts)
    else some (w2, calls, counts)

/-! ## Error codecs (`codec.go`) -/

/-- Go `errorDecoder.Decode(_, r, seen)`.  The destination memory `ptr` is passed through. -/
def errorDecoder.Decode {μ : Type} (err : GoError) (ptr : μ) (r : Reader) : μ × Reader :=
  match r.Error with
  | none => (ptr, { r with Error := some err })
  | some _ => (ptr, r)

/-- Go `errorEncoder.Encode(_, w, seen)`.  The source memory `ptr` is passed through. -/
def errorEncoder.Encode {μ : Type} (err : GoError) (ptr : μ) (w : Writer) : μ × Writer :=
  match w.Error with
  | none => (ptr, { w with Error := some err })
  | some _ => (ptr, w)

/-! ## Indirection codec (`codec_ptr.go`) -/

/-- A raw pointer value: nil, or the address of a cell of the heap. -/
abbrev Pointer := Option Nat

/-- The storage pointers refer to: the cell at index `a` is the object at address `a`. -/
abbrev Heap (α : Type) := List α

/-- The struct `dereferenceDecoder`, with the inner decoder as the function its `Decode`
computes on the referenced storage. -/
structure dereferenceDecoder (α : Type) where
  typ : GoType
  decoder : α → Reader → α × Reader

/-- State after a call of an indirection codec: the pointer held by the slot, the heap, and
the log of addresses handed to the inner codec. -/
structure PtrState (α : Type) where
  slot : Pointer
  heap : Heap α
  calls : List Nat
  deriving DecidableEq, Repr

/-- Go `dereferenceDecoder.Decode(ptr, r, seen)`: `slot` is the pointer stored at `ptr`.
`d.typ.UnsafeNew()` yields the address of a fresh zeroed cell. -/
def dereferenceDecoder.Decode {α : Type} [Inhabited α] (d : dereferenceDecoder α)
    (slot : Pointer) (heap : Heap α) (r : Reader) : PtrState α × Reader :=
  match slot with
  | none =>
    let newPtr := heap.length
    let heap1 := heap ++ [default]
    let (x, r1) := d.decoder (heap1.getD newPtr default) r
    ({ slot := some newPtr, heap := heap1.set newPtr x, calls := [newPtr] }, r1)
  | some p =>
    let (x, r1) := d.decoder (heap.getD p default) r
    ({ slot := slot, heap := heap.set p x, calls := [p] }, r1)

/-- The struct `dereferenceEncoder`, with the inner encoder as the function its `Encode`
computes on the referenced storage. -/
structure dereferenceEncoder (α : Type) where
  typ : GoType
  encoder : α → Writer → Writer

/-- Go `dereferenceEncoder.Encode(ptr, w, seen)`: `slot` is the pointer stored at `ptr`.
Returns the writer and the log of addresses handed to the inner encoder. -/
def dereferenceEncoder.Encode {α : Type} [Inhabited α] (d : dereferenceEncoder α)
    (slot : Pointer) (heap : Heap α) (w : Writer) : Writer × List Nat :=
  match slot with
  | none => ({ w with Error := some (GoError.leaf "avro: cannot encode nil pointer") }, [])
  | some p => (d.encoder (heap.getD p default) w, [p])

/-! ## Default value materializer (`codec_default.go`) -/

/-- A Go `any`: nil, or a dynamic type with the data pointer (`reflect2.TypeOf`,
`reflect2.PtrOf`). -/
inductive GoAny where
  | nil
  | val (typ : GoType) (ptr : Nat)
  deriving DecidableEq

/-- Go `reflect2.TypeOf(obj)`: nil for a nil interface. -/
def GoAny.TypeOf : GoAny → Option GoType
  | .nil => none
  | .val typ _ => some typ

/-- Go `reflect2.PtrOf(obj)`. -/
def GoAny.PtrOf : GoAny → Nat
  | .nil => 0
  | .val _ ptr => ptr

/-- Go `reflect2.TypeOf((*null)(nil))`. -/
def nullPtrType : GoType :=
  GoType.ptr "*avro.null" (GoType.plain PlainKind.Struct "avro.null" false)

/-- A record field of the schema model, as far as `createDefaultDecoder` reads it: its
schema, its declared default and the default byte cache (§3). -/
structure Field where
  typ : Schema
  Default : GoAny
  encodedDef : Option (List Byte)
  deriving DecidableEq

/-- Modelled from the spec: `Field.encodeDefault` (§3 default byte cache, §4.3).  The cached
bytes when there are some; otherwise `fn` runs once on the declared default and its bytes
are cached.  `none` only passes on that `fn` ran out of fuel. -/
def Field.encodeDefault (f : Field) (fn : GoAny → Option (Except GoError (List Byte))) :
    Option (Except GoError (List Byte) × Field) :=
  match f.encodedDef with
  | some b => some (Except.ok b, f)
  | none =>
    match fn f.Default with
    | none => none
    | some (Except.ok b) => some (Except.ok b, { f with encodedDef := some b })
    | some (Except.error err) => some (Except.error err, f)

/-- Modelled from the spec: `cfg.borrowWriter()`, a scratch writer (§4.3). -/
def borrowWriter : Writer := { buf := [], Error := none }

/-- Modelled from the spec: `cfg.borrowReader(data)`, a scratch reader over `data` (§4.3). -/
def borrowReader (data : List Byte) : Reader := { buf := data, Error := none }

/-- The local `defaultType` of the closure `fn` of `createDefaultDecoder`: the dynamic type
of the default, or `*null` for a nil default. -/
def createDefaultDecoder.defaultType (dflt : GoAny) : GoType :=
  match dflt.TypeOf with
  | none => nullPtrType
  | some t => t

/-- The closure `fn` of `createDefaultDecoder`.  `run enc p w` is `enc.Encode(p, w, seen)`,
the `Encode` method of a built encoder on the object at the raw pointer `p`. -/
def createDefaultDecoder.fn (C : Collaborators) (cfg : frozenConfig)
    (run : ValEncoder → Nat → Writer → Writer) (fuel : Nat) (field : Field) (dflt : GoAny) :
    Option (Except GoError (List Byte)) :=
  let defaultType := createDefaultDecoder.defaultType dflt
  let seenEnc : seenEncoderStructCache := []
  match encoderOfType C cfg fuel field.typ defaultType seenEnc with
  | none => none
  | some (enc, _) =>
    let defaultEncoder := if defaultType.LikePtr then ValEncoder.onePtrEncoder enc else enc
    let w := run defaultEncoder dflt.PtrOf borrowWriter
    match w.Error with
    | some err => some (Except.error err)
    | none => some (Except.ok w.buf)

/-- Go `createDefaultDecoder`.  Returns the decoder, the build scope and the field with its
default byte cache as the call left it. -/
def createDefaultDecoder (C : Collaborators) (cfg : frozenConfig)
    (run : ValEncoder → Nat → Writer → Writer) (fuel : Nat) (field : Field) (typ : GoType)
    (seen : seenDecoderStructCache) : Option (ValDecoder × seenDecoderStructCache × Field) :=
  match field.encodeDefault (createDefaultDecoder.fn C cfg run fuel field) with
  | none => none
  | some (Except.error err, field1) =>
    some (ValDecoder.errorDecoder (GoError.wrap "decode default" err), seen, field1)
  | some (Except.ok b, field1) =>
    match decoderOfType C cfg fuel field.typ typ seen with
    | some (decoder, seen1) => some (ValDecoder.defaultDecoder b decoder, seen1, field1)
    | none => none

/-- The struct `defaultDecoder`, with the field's ordinary decoder as the function its
`Decode` computes on the destination memory. -/
structure defaultDecoder (μ : Type) where
  data : List Byte
  decoder : μ → Reader → μ × Reader

/-- Go `defaultDecoder.Decode(ptr, r, seen)`: the scratch reader `rr` is borrowed over the
cached bytes, used by the field decoder and given back; `r` is the caller's reader. -/
def defaultDecoder.Decode {μ : Type} (d : defaultDecoder μ) (ptr : μ) (r : Reader) :
    μ × Reader :=
  let rr := borrowReader d.data
  let (ptr1, _) := d.decoder ptr rr
  (ptr1, r)

/-! ## Build scope and codec cache (`codec.go`) -/

/-- Go `seenEncoderStructCache.Add`: the encoder found under `name` (nil is `none`) and the
map after the call. -/
def seenEncoderStructCache.Add (c : seenEncoderStructCache) (name : String) (encoder : Nat) :
    Option Nat × seenEncoderStructCache :=
  match c.lookup name with
  | some encoderFound => (some encoderFound, c)
  | none => (none, (name, encoder) :: c)

/-- Go `seenDecoderStructCache.Add`: the decoder found under `name` (nil is `none`) and the
map after the call. -/
def seenDecoderStructCache.Add (c : seenDecoderStructCache) (name : String) (decoder : Nat) :
    Option Nat × seenDecoderStructCache :=
  match c.lookup name with
  | some decoderFound => (some decoderFound, c)
  | none => (none, (name, decoder) :: c)

/-- The identifiers a schema exposes, `schema.Fingerprint()` and `schema.CacheFingerprint()`;
their computation is declared elsewhere. -/
structure SchemaIdentity where
  Fingerprint : Schema → List Byte
  CacheFingerprint : Schema → List Byte

/-- The two codec caches of a `frozenConfig`, maps from (fingerprint, native type) to a built
codec (§3).  The native type stands for its `RType()`. -/
structure CodecCache where
  decoderCache : List ((List Byte × GoType) × ValDecoder)
  encoderCache : List ((List Byte × GoType) × ValEncoder)
  deriving DecidableEq

/-- Modelled from the spec: `frozenConfig.getDecoderFromCache` (§3 codec cache); nil is
`none`. -/
def CodecCache.getDecoderFromCache (c : CodecCache) (fingerprint : List Byte) (rtype : GoType) :
    Option ValDecoder :=
  c.decoderCache.lookup (fingerprint, rtype)

/-- Modelled from the spec: `frozenConfig.addDecoderToCache` (§3 codec cache). -/
def CodecCache.addDecoderToCache (c : CodecCache) (fingerprint : List Byte) (rtype : GoType)
    (dec : ValDecoder) : CodecCache :=
  { c with decoderCache := ((fingerprint, rtype), dec) :: c.decoderCache }

/-- Modelled from the spec: `frozenConfig.getEncoderFromCache` (§3 codec cache); nil is
`none`. -/
def CodecCache.getEncoderFromCache (c : CodecCache) (fingerprint : List Byte) (rtype : GoType) :
    Option ValEncoder :=
  c.encoderCache.lookup (fingerprint, rtype)

/-- Modelled from the spec: `frozenConfig.addEncoderToCache` (§3 codec cache). -/
def CodecCache.addEncoderToCache (c : CodecCache) (fingerprint : List Byte) (rtype : GoType)
    (enc : ValEncoder) : CodecCache :=
  { c with encoderCache := ((fingerprint, rtype), enc) :: c.encoderCache }

/-- Outcome of `DecoderOf` / `EncoderOf`: the codec returned, the caches and the build scope
after the call, and the number of times the call ran the builder. -/
structure CacheResult (κ σ : Type) where
  codec : κ
  cache : CodecCache
  seen : σ
  builds : Nat
  deriving DecidableEq

/-- Go `frozenConfig.DecoderOf`.  `cache` holds the caches of `c`; `none` when the builder
ran out of fuel or `typ` is not a pointer type. -/
def frozenConfig.DecoderOf (C : Collaborators) (F : SchemaIdentity) (c : frozenConfig)
    (fuel : Nat) (cache : CodecCache) (schema : Schema) (typ : GoType)
    (seen : seenDecoderStructCache) : Option (CacheResult ValDecoder seenDecoderStructCache) :=
  let rtype := typ
  match cache.getDecoderFromCache (F.CacheFingerprint schema) rtype with
  | some decoder => some { codec := decoder, cache := cache, seen := seen, builds := 0 }
  | none =>
    match typ with
    | .ptr _ elem =>
      match decoderOfType C c fuel schema elem seen with
      | some (decoder, seen1) =>
        some { codec := decoder,
               cache := cache.addDecoderToCache (F.CacheFingerprint schema) rtype decoder,
               seen := seen1, builds := 1 }
      | none => none
    | _ => none

/-- Go `frozenConfig.EncoderOf`.  A nil `typ` is `none`. -/
def frozenConfig.EncoderOf (C : Collaborators) (F : SchemaIdentity) (c : frozenConfig)
    (fuel : Nat) (cache : CodecCache) (schema : Schema) (typ : Option GoType)
    (seen : seenEncoderStructCache) : Option (CacheResult ValEncoder seenEncoderStructCache) :=
  let typ :=
    match typ with
    | none => nullPtrType
    | some t => t
  let rtype := typ
  match cache.getEncoderFromCache (F.Fingerprint schema) rtype with
  | some encoder => some { codec := encoder, cache := cache, seen := seen, builds := 0 }
  | none =>
    match encoderOfType C c fuel schema typ seen with
    | some (encoder, seen1) =>
      let encoder := if typ.LikePtr then ValEncoder.onePtrEncoder encoder else encoder
      some { codec := encoder,
             cache := cache.addEncoderToCache (F.Fingerprint schema) rtype encoder,
             seen := seen1, builds := 1 }
    | none => none

/-! ## Dynamic value codec (`codec_dynamic.go`) and `ReadVal` (`codec.go`) -/

/-- Go `reflect2.IsNil(obj)`: a nil interface, or a value whose data pointer is nil (the nil
pointer is the address 0). -/
def GoAny.IsNil : GoAny → Bool
  | .nil => true
  | .val _ ptr => ptr == 0

/-- Go `reflect2.PtrTo(typ)`, the pointer type `*T` of a type `T`. -/
def GoType.PtrTo (t : GoType) : GoType := GoType.ptr ("*" ++ t.String) t

/-- What a decode call works on: the memory reached through raw pointers, the reader, and the
codec caches of the reader's configuration. -/
structure World (μ : Type) where
  mem : μ
  r : Reader
  cache : CodecCache

/-- The operations the dynamic value codec and `ReadVal` call that are declared elsewhere:
`Decode` is the `Decode` method of a built decoder on a raw pointer, `New` allocates a fresh
zero value of a type and returns its address, `genericDecode` and `ReportError` are the
functions of those names. -/
structure Runtime (μ : Type) where
  Decode : ValDecoder → Nat → seenDecoderStructCache → World μ → World μ
  New : GoType → μ → Nat × μ
  genericDecode : GoType → ValDecoder → seenDecoderStructCache → World μ → GoAny × World μ
  ReportError : Reader → String → String → Reader

/-- The statements of `Reader.ReadVal` after the decoder is at hand: the nil check on the
data pointer and the call of the decoder. -/
def Reader.ReadVal.run {μ : Type} (RT : Runtime μ) (decoder : ValDecoder) (obj : GoAny)
    (seen : seenDecoderStructCache) (w : World μ) : World μ :=
  let ptr := obj.PtrOf
  if ptr = 0 then
    { w with r := RT.ReportError w.r "ReadVal" "can not read into nil pointer" }
  else RT.Decode decoder ptr seen w

/-- Go `Reader.ReadVal(schema, obj)`.  `none` when the builder ran out of fuel, or for a nil
`obj`, whose type descriptor is nil. -/
def Reader.ReadVal {μ : Type} (C : Collaborators) (F : SchemaIdentity) (cfg : frozenConfig)
    (RT : Runtime μ) (fuel : Nat) (schema : Schema) (obj : GoAny) (w : World μ) :
    Option (World μ) :=
  match obj.TypeOf with
  | none => none
  | some typ =>
    let seen : seenDecoderStructCache := []
    match w.cache.getDecoderFromCache (F.CacheFingerprint schema) typ with
    | some decoder => some (Reader.ReadVal.run RT decoder obj seen w)
    | none =>
      if typ.Kind ≠ Kind.Ptr then
        some { w with r := RT.ReportError w.r "ReadVal" "can only unmarshal into pointer" }
      else
        match frozenConfig.DecoderOf C F cfg fuel w.cache schema typ seen with
        | some res =>
          some (Reader.ReadVal.run RT res.codec obj res.seen { w with cache := res.cache })
        | none => none

/-- The struct `efaceDecoder`. -/
structure efaceDecoder where
  schema : Schema
  typ : GoType
  dec : ValDecoder
  deriving DecidableEq

/-- Go `efaceDecoder.Decode(ptr, r, seen)`: `pObj` is the value held by the slot at `ptr`.
Returns the value the slot holds afterwards and the world. -/
def efaceDecoder.Decode {μ : Type} (C : Collaborators) (F : SchemaIdentity) (cfg : frozenConfig)
    (RT : Runtime μ) (fuel : Nat) (d : efaceDecoder) (pObj : GoAny)
    (seen : seenDecoderStructCache) (w : World μ) : Option (GoAny × World μ) :=
  match pObj with
  | .nil => some (RT.genericDecode d.typ d.dec seen w)
  | .val typ _ =>
    if typ.Kind ≠ Kind.Ptr then some (RT.genericDecode d.typ d.dec seen w)
    else
      match typ with
      | .ptr _ ptrElemType =>
        if pObj.IsNil then
          let (a, mem1) := RT.New ptrElemType w.mem
          let obj := GoAny.val (GoType.PtrTo ptrElemType) a
          match Reader.ReadVal C F cfg RT fuel d.schema obj { w with mem := mem1 } with
          | some w1 => some (obj, w1)
          | none => none
        else
          match Reader.ReadVal C F cfg RT fuel d.schema pObj w with
          | some w1 => some (pObj, w1)
          | none => none
      | _ => none

/-! ## Notions used to state the properties -/

/-- The bytes `WriteLong` appends for `i`. -/
def longBytes (i : Int) : List Byte := encodeInt (zigzag i + 1) (zigzag i)

/-- The item encoder appends `bytes x` for item `x` and raises no error. -/
def EncodesAs {α : Type} (enc : α → Writer → Writer) (bytes : α → List Byte) : Prop :=
  ∀ x w, w.Error = none → enc x w = { buf := w.buf ++ bytes x, Error := none }

/-- The item decoder reads back `x` from `bytes x`, whatever the slot held before. -/
def DecodesFrom {α : Type} (dec : α → Reader → α × Reader) (bytes : α → List Byte) : Prop :=
  ∀ x prior rest, dec prior { buf := bytes x ++ rest, Error := none }
    = (x, { buf := rest, Error := none })

/-- The bytes of one block: the count header, then the items. -/
def blockBytes {α : Type} (bytes : α → List Byte) (c : List α) : List Byte :=
  longBytes (c.length : Int) ++ c.flatMap bytes

/-- The list `blocks` cuts `l` into consecutive chunks of `b` items, the last one possibly
shorter. -/
def IsChunking {α : Type} (b : Nat) (l : List α) (blocks : List (List α)) : Prop :=
  blocks.flatten = l ∧ blocks.length = (l.length + b - 1) / b ∧
    (∀ c ∈ blocks, 1 ≤ c.length ∧ c.length ≤ b) ∧ (∀ c ∈ blocks.dropLast, c.length = b)

/-- The encoder of a long item, as the native codec of an `int64` slot does it. -/
def longItemEncoder (x : Int) (w : Writer) : Writer := w.WriteLong x

/-- The decoder of a long item, as the native codec of an `int64` slot does it. -/
def longItemDecoder (_prior : Int) (r : Reader) : Int × Reader := r.ReadLong

/-- An array encoder over long items with block length 2. -/
def longArrayEncoder : arrayEncoder Int :=
  { blockLength := 2, typ := "[]int64", encoder := longItemEncoder }

/-- An array decoder over long items. -/
def longArrayDecoder : arrayDecoder Int :=
  { typ := "[]int64", decoder := longItemDecoder }

/-- The writer after the item encoder ran on `items` in order. -/
def encodeItems {α : Type} (enc : α → Writer → Writer) (items : List α) (w : Writer) : Writer :=
  items.foldl (fun w x => enc x w) w

/-- An item encoder for longs that refuses negative values with a hard error. -/
def refusingItemEncoder (x : Int) (w : Writer) : Writer :=
  if x < 0 then { w with Error := some (GoError.leaf "avro: negative item") } else w.WriteLong x

/-- An array encoder over `refusingItemEncoder` with block length 3. -/
def refusingArrayEncoder : arrayEncoder Int :=
  { blockLength := 3, typ := "[]int64", encoder := refusingItemEncoder }

/-- The native type `int64`. -/
def int64Type : GoType := GoType.plain PlainKind.Int64 "int64" false

/-- The native type `[]int64`. -/
def int64SliceType : GoType := GoType.slice "[]int64" int64Type

/-- The schema nodes the embedded builders walk themselves when they build for `schema`: the
node, and below a reference or an array the nodes of its child. -/
def Schema.reached : Schema → List Schema
  | .Ref actual => Schema.Ref actual :: actual.reached
  | .Array items => Schema.Array items :: items.reached
  | s => [s]

/-- Every node the builders reach from `schema` that is not a union has a generic receiver,
and it is not the empty interface itself (a record gets a map, an array a slice, a scalar its
native type). -/
def ReceiverDefined (C : Collaborators) (schema : Schema) : Prop :=
  ∀ s ∈ schema.reached, s.Type ≠ SchemaType.Union →
    ∃ t, C.genericReceiver s = some t ∧ t ≠ GoType.eface

/-- The generic receivers of the worked examples, after §4.4: a scalar gets its native type,
an array a slice of empty interfaces, a record, map or union a string-keyed map, a reference
the receiver of its definition; the null schema and a node of unknown kind have none. -/
def stubReceiver : Schema → Option GoType
  | .Primitive .String => some (GoType.plain PlainKind.String "string" false)
  | .Primitive .Bytes => some (GoType.slice "[]uint8" (GoType.plain PlainKind.Uint8 "uint8" false))
  | .Primitive .Int => some (GoType.plain PlainKind.Int "int" false)
  | .Primitive .Long => some (GoType.plain PlainKind.Int64 "int64" false)
  | .Primitive .Float => some (GoType.plain PlainKind.Float32 "float32" false)
  | .Primitive .Double => some (GoType.plain PlainKind.Float64 "float64" false)
  | .Primitive .Boolean => some (GoType.plain PlainKind.Bool "bool" false)
  | .Null => none
  | .Record _ => some (GoType.plain PlainKind.Map "map[string]interface \x7b\x7d" true)
  | .Ref actual => stubReceiver actual
  | .Enum _ => some (GoType.plain PlainKind.String "string" false)
  | .Array _ => some (GoType.slice "[]interface \x7b\x7d" GoType.eface)
  | .Map _ => some (GoType.plain PlainKind.Map "map[string]interface \x7b\x7d" true)
  | .Union _ => some (GoType.plain PlainKind.Map "map[string]interface \x7b\x7d" true)
  | .Fixed _ => some (GoType.plain PlainKind.Array "[16]uint8" false)
  | .Other _ => none

/-- Collaborators for the worked examples: no type has a custom marshal capability, every
builder declared in another file returns a codec named by a number, the generic receiver is
`stubReceiver`, and the block length is the configured one or 100. -/
def stubCollaborators : Collaborators where
  createDecoderOfMarshaler := fun _ _ _ => none
  createDecoderOfNative := fun _ _ => ValDecoder.foreign 1
  createDecoderOfRecord := fun _ _ _ seen => (ValDecoder.foreign 2, seen)
  createDecoderOfEnum := fun _ _ => ValDecoder.foreign 3
  createDecoderOfMap := fun _ _ _ seen => (ValDecoder.foreign 4, seen)
  createDecoderOfUnion := fun _ _ _ seen => (ValDecoder.foreign 5, seen)
  createDecoderOfFixed := fun _ _ => ValDecoder.foreign 6
  genericReceiver := stubReceiver
  createEncoderOfMarshaler := fun _ _ _ => none
  createEncoderOfNative := fun _ _ => ValEncoder.foreign 1
  createEncoderOfRecord := fun _ _ _ seen => (ValEncoder.foreign 2, seen)
  createEncoderOfEnum := fun _ _ => ValEncoder.foreign 3
  createEncoderOfMap := fun _ _ _ seen => (ValEncoder.foreign 4, seen)
  createEncoderOfUnion := fun _ _ _ seen => (ValEncoder.foreign 5, seen)
  createEncoderOfFixed := fun _ _ => ValEncoder.foreign 6
  getBlockLength := fun cfg => if cfg.BlockLength ≤ 0 then 100 else cfg.BlockLength

/-- The struct type `avro.null`. -/
def nullStructType : GoType := GoType.plain PlainKind.Struct "avro.null" false

/-- The `Encode` method for the worked examples: the codec `foreign 1` writes the long stored
at the pointer (the pointer value itself stands for it); any other codec raises an error. -/
def stubRun (enc : ValEncoder) (p : Nat) (w : Writer) : Writer :=
  if enc = ValEncoder.foreign 1 then w.WriteLong (p : Int)
  else { w with Error := some (GoError.leaf "avro: cannot encode") }

/-- The `Decode` method for the worked examples: the codec `foreign 1` reads a long; any
other codec leaves everything as it is. -/
def stubExec (dec : ValDecoder) (prior : Int) (r : Reader) : Int × Reader :=
  if dec = ValDecoder.foreign 1 then longItemDecoder prior r else (prior, r)

/-- A field of schema long whose declared default is the `int64` value 7, not yet encoded. -/
def longField : Field :=
  { typ := Schema.Primitive PrimitiveKind.Long, Default := GoAny.val int64Type 7,
    encodedDef := none }

/-- A field of schema fixed whose declared default is an `int64`: `stubRun` cannot encode it. -/
def badField : Field :=
  { typ := Schema.Fixed "f", Default := GoAny.val int64Type 7, encodedDef := none }

/-- A field of schema null whose declared default is null, not yet encoded. -/
def nullField : Field :=
  { typ := Schema.Null, Default := GoAny.nil, encodedDef := none }

/-- An `Encode` method that writes nothing and raises no error, as the codec of the null
schema does. -/
def quietRun (_enc : ValEncoder) (_p : Nat) (w : Writer) : Writer := w

/-- The scratch writer after the encoder `enc` built for the default ran on the default, as
in the closure `fn` of `createDefaultDecoder`. -/
def defaultScratch (run : ValEncoder → Nat → Writer → Writer) (enc : ValEncoder)
    (dflt : GoAny) : Writer :=
  run (if (createDefaultDecoder.defaultType dflt).LikePtr then ValEncoder.onePtrEncoder enc
    else enc) dflt.PtrOf borrowWriter

/-- A pointer slot encoder whose inner encoder writes the referenced long. -/
def longPtrEncoder : dereferenceEncoder Int :=
  { typ := int64Type, encoder := longItemEncoder }

/-- An array encoder over `refusingItemEncoder` with block length 1. -/
def refusingArrayEncoder1 : arrayEncoder Int :=
  { blockLength := 1, typ := "[]int64", encoder := refusingItemEncoder }

/-- The error of the error codec built for an unsupported native type. -/
def unsupportedError : GoError := GoError.leaf "avro: int64 is unsupported for Avro array"

/-- The item decoder run on `t` consecutive slots of a slice from index `i` on, each on the
reader the previous one left, with no look at the error channel in between. -/
def decodeRun {α : Type} [Inhabited α] (dec : α → Reader → α × Reader) :
    Nat → Int → Slice α → Reader → Slice α × Reader
  | 0, _, s, r => (s, r)
  | t + 1, i, s, r =>
    decodeRun dec t (i + 1) (s.setIndex i (dec (s.UnsafeGetIndex i) r).1)
      (dec (s.UnsafeGetIndex i) r).2

/-- A decoder of long items that refuses negative values with a hard error. -/
def refusingItemDecoder (_prior : Int) (r : Reader) : Int × Reader :=
  if (r.ReadLong).1 < 0 then
    ((r.ReadLong).1, { (r.ReadLong).2 with Error := some (GoError.leaf "avro: negative item") })
  else r.ReadLong

/-- An array decoder over `refusingItemDecoder`. -/
def refusingArrayDecoder : arrayDecoder Int :=
  { typ := "[]int64", decoder := refusingItemDecoder }

/-- An array encoder over long items with block length 0. -/
def zeroBlockEncoder : arrayEncoder Int :=
  { blockLength := 0, typ := "[]int64", encoder := longItemEncoder }

/-- Schema identifiers for the worked examples: the kind tag of the schema and its nesting
depth stand for the fingerprint, and the cache fingerprint is the fingerprint. -/
def stubIdentity : SchemaIdentity where
  Fingerprint := fun s => [(schemaTypeName s.Type).length, s.depth]
  CacheFingerprint := fun s => [(schemaTypeName s.Type).length, s.depth]

/-- The native type `*int64`. -/
def int64PtrType : GoType := GoType.ptr "*int64" int64Type

/-- The caches of a configuration that has built nothing yet. -/
def emptyCache : CodecCache := { decoderCache := [], encoderCache := [] }

/-- A runtime for the worked examples.  The memory is a list of `int64` cells, the address
`a ≥ 1` naming the cell `a - 1`; the codec `foreign 1` reads a long into the cell it is given
and any other codec does nothing; `New` appends a zero cell; `genericDecode` allocates a
receiver, decodes into it and returns it, or nil after an error; `ReportError` records the
first error. -/
def stubRuntime : Runtime (List Int) where
  Decode := fun dec p _ w =>
    if dec = ValDecoder.foreign 1 then
      { w with mem := w.mem.set (p - 1) (w.r.ReadLong).1, r := (w.r.ReadLong).2 }
    else w
  New := fun _ mem => (mem.length + 1, mem ++ [0])
  genericDecode := fun typ dec _ w =>
    if dec = ValDecoder.foreign 1 then
      if ((w.r.ReadLong).2).Error = none then
        (GoAny.val typ (w.mem.length + 1),
          { w with mem := w.mem ++ [(w.r.ReadLong).1], r := (w.r.ReadLong).2 })
      else (GoAny.nil, { w with mem := w.mem ++ [(w.r.ReadLong).1], r := (w.r.ReadLong).2 })
    else (GoAny.val typ (w.mem.length + 1), { w with mem := w.mem ++ [0] })
  ReportError := fun r op msg =>
    if r.Error = none then { r with Error := some (GoError.leaf ("avro: " ++ op ++ ": " ++ msg)) }
    else r

/-- The dynamic value decoder of a long schema, with `int64` as its generic receiver. -/
def longEfaceDecoder : efaceDecoder :=
  { schema := Schema.Primitive PrimitiveKind.Long, typ := int64Type,
    dec := ValDecoder.foreign 1 }

/-- A defined pointer type, Go `type P *int64` in package `main`. -/
def definedPtrType : GoType := GoType.ptr "main.P" int64Type

/-! ## Primitive reads and writes -/

theorem decodeInt_encodeInt (fuel n : Nat) (h : n < fuel) (rest : List Byte) :
    decodeInt (encodeInt fuel n ++ rest) = some (n, rest) := by
  induction fuel generalizing n with
  | zero => omega
  | succ k ih =>
    unfold encodeInt
    by_cases hn : n < 128
    · simp [hn, decodeInt]
    · have h1 : n / 128 < k := by omega
      have h2 : ¬ (n % 128 + 128 < 128) := by omega
      simp only [hn, if_false, List.cons_append, decodeInt, h2, ih _ h1]
      have h3 : (n % 128 + 128) % 128 + 128 * (n / 128) = n := by omega
      rw [h3]

theorem unzigzag_zigzag (i : Int) : unzigzag (zigzag i) = i := by
  unfold zigzag unzigzag
  split_ifs <;> omega

theorem ReadLong_longBytes (i : Int) (rest : List Byte) :
    Reader.ReadLong { buf := longBytes i ++ rest, Error := none } = (i, { buf := rest, Error := none }) := by
  simp [Reader.ReadLong, longBytes, decodeInt_encodeInt, unzigzag_zigzag]

theorem ReadBlockHeader_longBytes (c : Int) (hc : 0 ≤ c) (rest : List Byte) :
    Reader.ReadBlockHeader { buf := longBytes c ++ rest, Error := none }
      = ((c, 0), { buf := rest, Error := none }) := by
  simp [Reader.ReadBlockHeader, ReadLong_longBytes, hc]

theorem Slice.drop_toList {α : Type} [Inhabited α] (s : Slice α) (hwf : s.WF) (j : Nat)
    (hj : j < s.Len) :
    s.toList.drop j = s.UnsafeGetIndex (j : Int) :: s.toList.drop (j + 1) := by
  unfold Slice.WF at hwf
  have hlen : j < s.toList.length := by simp [Slice.toList]; omega
  rw [List.drop_eq_getElem_cons hlen]
  congr 1
  simp only [Slice.toList, Slice.UnsafeGetIndex, Int.toNat_ofNat, List.getElem_take]
  rw [List.getD_eq_getElem _ _ (by omega)]

theorem callback_ok {α : Type} [Inhabited α] (e : arrayEncoder α) (bytes : α → List Byte)
    (hE : EncodesAs e.encoder bytes) (ptr : Slice α) (hwf : ptr.WF) (i : Int) :
    ∀ (n j : Nat) (count : Int) (calls : List Int) (w : Writer), w.Error = none →
      ptr.Len - j ≤ n →
      arrayEncoder.callback e ptr i (ptr.Len : Int) n (j : Int) count calls w
        = ((count + ((min (i + e.blockLength) ptr.Len - j).toNat : Int),
            calls ++ (List.range' j (min (i + e.blockLength) ptr.Len - j).toNat).map Int.ofNat),
           { buf := w.buf ++ ((ptr.toList.drop j).take
                (min (i + e.blockLength) ptr.Len - j).toNat).flatMap bytes,
             Error := none }) := by
  intro n
  induction n with
  | zero =>
    intro j count calls w hw hn
    have hk : (min (i + e.blockLength) (ptr.Len : Int) - (j : Int)).toNat = 0 := by omega
    rw [hk]
    cases w
    simp_all [arrayEncoder.callback]
  | succ n ih =>
    intro j count calls w hw hn
    unfold arrayEncoder.callback
    by_cases hc : (j : Int) < i + e.blockLength ∧ (j : Int) < (ptr.Len : Int)
    · rw [if_pos hc, hE _ _ hw]
      simp only [hardError, Bool.false_eq_true, if_false]
      have hj : j < ptr.Len := by omega
      have := ih (j + 1) (count + 1) (calls ++ [(j : Int)])
        { buf := w.buf ++ bytes (ptr.UnsafeGetIndex j), Error := none } rfl (by omega)
      rw [Nat.cast_succ] at this
      rw [this]
      obtain ⟨k, hk⟩ : ∃ k, (min (i + e.blockLength) (ptr.Len : Int) - (j : Int)).toNat = k + 1 :=
        ⟨(min (i + e.blockLength) (ptr.Len : Int) - (j : Int)).toNat - 1, by omega⟩
      have hk' : (min (i + e.blockLength) (ptr.Len : Int) - ((j : Int) + 1)).toNat = k := by omega
      rw [hk, hk', Slice.drop_toList ptr hwf j hj]
      simp [List.range'_succ, add_assoc]
      omega
    · rw [if_neg hc]
      have hk : (min (i + e.blockLength) (ptr.Len : Int) - (j : Int)).toNat = 0 := by omega
      rw [hk]
      cases w
      simp_all

theorem IsChunking.nil {α : Type} (b : Nat) (hb : 1 ≤ b) : IsChunking b ([] : List α) [] := by
  refine ⟨rfl, ?_, by simp, by simp⟩
  simp only [List.length_nil, Nat.zero_add]
  exact (Nat.div_eq_of_lt (by omega)).symm

theorem ceil_step (m b : Nat) (hb : 1 ≤ b) (hm : 1 ≤ m) :
    (m + b - 1) / b = (m - b + b - 1) / b + 1 := by
  have h1 : m + b - 1 = (m - 1) + b := by omega
  rw [h1, Nat.add_div_right _ (by omega)]
  congr 1
  by_cases h : b ≤ m
  · congr 1; omega
  · rw [Nat.div_eq_of_lt (by omega), Nat.div_eq_of_lt (by omega)]

theorem IsChunking.cons {α : Type} (b : Nat) (hb : 1 ≤ b) (l : List α) (hl : l ≠ [])
    (bs : List (List α)) (h : IsChunking b (l.drop b) bs) : IsChunking b l (l.take b :: bs) := by
  obtain ⟨hj, hlen, hbd, hdl⟩ := h
  have hm : 1 ≤ l.length := List.length_pos.mpr hl
  refine ⟨?_, ?_, ?_, ?_⟩
  · simp [hj]
  · rw [List.length_cons, hlen, List.length_drop, ceil_step l.length b hb hm]
  · intro c hc
    rcases List.mem_cons.mp hc with rfl | hc
    · rw [List.length_take]; omega
    · exact hbd c hc
  · intro c hc
    cases bs with
    | nil => simp at hc
    | cons b0 bs' =>
      rw [List.dropLast_cons₂] at hc
      rcases List.mem_cons.mp hc with rfl | hc
      · rw [List.length_take]
        have h1 : 1 ≤ (l.length - b + b - 1) / b := by
          rw [List.length_cons, List.length_drop] at hlen; omega
        by_contra hne
        have : l.length - b + b - 1 < b := by omega
        rw [Nat.div_eq_of_lt this] at h1
        omega
      · exact hdl c hc

theorem WriteBlockCB_append {γ : Type} (w : Writer) (callback : Writer → (Int × γ) × Writer)
    (res : Int × γ) (out : List Byte) (err : Option GoError)
    (h : callback w = (res, { buf := w.buf ++ out, Error := err })) :
    w.WriteBlockCB callback = (res, { buf := w.buf ++ longBytes res.1 ++ out, Error := err }) := by
  simp [Writer.WriteBlockCB, h, Writer.WriteBlockHeader, Writer.WriteLong, longBytes]

theorem chunks_ok {α : Type} [Inhabited α] (e : arrayEncoder α) (bytes : α → List Byte)
    (hE : EncodesAs e.encoder bytes) (ptr : Slice α) (hwf : ptr.WF) (b : Nat) (hb : 1 ≤ b)
    (heb : e.blockLength = (b : Int)) :
    ∀ (fuel i : Nat) (calls counts : List Int) (w : Writer), w.Error = none →
      (ptr.Len - i + b - 1) / b < fuel →
      ∃ blocks : List (List α), IsChunking b (ptr.toList.drop i) blocks ∧
        arrayEncoder.chunks e ptr (ptr.Len : Int) fuel (i : Int) calls counts w
          = some ({ buf := w.buf ++ blocks.flatMap (blockBytes bytes), Error := none },
                  calls ++ (List.range' i (ptr.Len - i)).map Int.ofNat,
                  counts ++ blocks.map (fun c => (c.length : Int))) := by
  intro fuel
  induction fuel with
  | zero => intro i calls counts w _ h; exact absurd h (Nat.not_lt_zero _)
  | succ fuel ih =>
    intro i calls counts w hw hfuel
    unfold arrayEncoder.chunks
    unfold Slice.WF at hwf
    by_cases hi : (i : Int) < (ptr.Len : Int)
    · have hi' : i < ptr.Len := by omega
      rw [if_pos hi]
      have hcb := callback_ok e bytes hE ptr hwf i ((ptr.Len : Int) - (i : Int)).toNat i 0 calls w hw
        (by omega)
      have hk : (min ((i : Int) + e.blockLength) (ptr.Len : Int) - (i : Int)).toNat
          = min b (ptr.Len - i) := by rw [heb]; omega
      rw [hk] at hcb
      have hcb' := WriteBlockCB_append w _ _ _ _ hcb
      simp only [hcb']
      have hlen : (ptr.toList.drop i).length = ptr.Len - i := by
        simp [Slice.toList]; omega
      have hne : ptr.toList.drop i ≠ [] := by
        intro h0; rw [h0] at hlen; simp at hlen; omega
      have hfuel' : (ptr.Len - (i + b) + b - 1) / b < fuel := by
        have := ceil_step (ptr.Len - i) b hb (by omega)
        have h2 : ptr.Len - i - b = ptr.Len - (i + b) := by omega
        rw [h2] at this
        omega
      obtain ⟨bs, hbs, hrun⟩ := ih (i + b) (calls ++ (List.range' i (min b (ptr.Len - i))).map Int.ofNat)
        (counts ++ [0 + ((min b (ptr.Len - i) : Nat) : Int)])
        { buf := w.buf ++ longBytes (0 + ((min b (ptr.Len - i) : Nat) : Int)) ++
            ((ptr.toList.drop i).take (min b (ptr.Len - i))).flatMap bytes, Error := none } rfl hfuel'
      refine ⟨(ptr.toList.drop i).take b :: bs, ?_, ?_⟩
      · apply IsChunking.cons b hb _ hne
        rw [List.drop_drop]; exact hbs
      · rw [heb]
        rw [Nat.cast_add] at hrun
        rw [hrun]
        have htake : (ptr.toList.drop i).take (min b (ptr.Len - i)) = (ptr.toList.drop i).take b := by
          rw [List.take_eq_take, hlen]; omega
        have hrange : List.range' i (min b (ptr.Len - i)) ++ List.range' (i + b) (ptr.Len - (i + b))
            = List.range' i (ptr.Len - i) := by
          by_cases hle : b ≤ ptr.Len - i
          · rw [Nat.min_eq_left hle]
            have := List.range'_append i b (ptr.Len - (i + b)) 1
            simp only [Nat.one_mul] at this
            rw [this]; congr 1; omega
          · have h0 : ptr.Len - (i + b) = 0 := by omega
            rw [h0, Nat.min_eq_right (by omega)]; simp
        have hcl : (List.take b (List.drop i ptr.toList)).length = min b (ptr.Len - i) := by
          rw [List.length_take, hlen]
        simp only [htake, blockBytes, List.flatMap_cons, List.map_cons, hcl, zero_add,
          List.append_assoc, List.map_append, ← hrange, List.singleton_append]
    · rw [if_neg hi]
      have h0 : ptr.Len - i = 0 := by omega
      have hd : ptr.toList.drop i = [] := by
        apply List.drop_eq_nil_of_le; simp [Slice.toList]; omega
      refine ⟨[], ?_, ?_⟩
      · rw [hd]; exact IsChunking.nil b hb
      · cases w; simp_all

theorem calcNewCapLoop_ge (expectedCap : Nat) :
    ∀ (fuel cap : Nat), 1 ≤ cap → expectedCap ≤ cap * 2 ^ fuel →
      expectedCap ≤ calcNewCapLoop expectedCap fuel cap := by
  intro fuel
  induction fuel with
  | zero => intro cap _ h; simpa [calcNewCapLoop] using h
  | succ k ih =>
    intro cap hc h
    unfold calcNewCapLoop
    split_ifs with hlt
    · apply ih (cap * 2) (by omega)
      rw [pow_succ] at h
      calc expectedCap ≤ cap * (2 ^ k * 2) := h
        _ = cap * 2 * 2 ^ k := by ring
    · omega

theorem calcNewCap_ge (cap expectedCap : Nat) : expectedCap ≤ calcNewCap cap expectedCap := by
  unfold calcNewCap
  split_ifs with h
  · exact le_refl _
  · apply calcNewCapLoop_ge _ _ _ (by omega)
    have h1 : expectedCap < 2 ^ expectedCap := Nat.lt_two_pow expectedCap
    have h2 : 1 * 2 ^ expectedCap ≤ cap * 2 ^ expectedCap :=
      Nat.mul_le_mul_right _ (by omega)
    omega

theorem Slice.UnsafeGrow_Len {α : Type} [Inhabited α] (s : Slice α) (n : Nat) :
    (s.UnsafeGrow n).Len = n := by
  unfold Slice.UnsafeGrow; split_ifs <;> rfl

theorem Slice.UnsafeGrow_cap {α : Type} [Inhabited α] (s : Slice α) (hwf : s.WF) (n : Nat) :
    n ≤ (s.UnsafeGrow n).Data.length := by
  unfold Slice.WF at hwf
  unfold Slice.UnsafeGrow
  split_ifs with h
  · exact h
  · have := calcNewCap_ge s.Data.length n
    simp only [List.length_append, List.length_take, List.length_replicate]
    omega

theorem Slice.UnsafeGrow_take {α : Type} [Inhabited α] (s : Slice α) (hwf : s.WF) (n k : Nat)
    (hk : k ≤ s.Len) : (s.UnsafeGrow n).Data.take k = s.Data.take k := by
  unfold Slice.WF at hwf
  unfold Slice.UnsafeGrow
  split_ifs with h
  · rfl
  · simp only
    rw [List.take_append_eq_append_take, List.take_take, Nat.min_eq_left hk]
    have h0 : k - (List.take s.Len s.Data).length = 0 := by
      rw [List.length_take]; omega
    rw [h0]; simp

theorem items_ok {α : Type} [Inhabited α] (d : arrayDecoder α) (bytes : α → List Byte)
    (hD : DecodesFrom d.decoder bytes) (rest : List Byte) :
    ∀ (c pre mid post : List α) (len : Nat) (calls : List Int), mid.length = c.length →
      arrayDecoder.items d c.length (pre.length : Int) { Data := pre ++ mid ++ post, Len := len }
          { buf := c.flatMap bytes ++ rest, Error := none } calls
        = { slice := { Data := pre ++ c ++ post, Len := len },
            r := { buf := rest, Error := none },
            calls := calls ++ (List.range' pre.length c.length).map Int.ofNat,
            returned := false } := by
  intro c
  induction c with
  | nil =>
    intro pre mid post len calls hm
    have : mid = [] := List.length_eq_zero.mp hm
    subst this
    simp [arrayDecoder.items]
  | cons x c ih =>
    intro pre mid post len calls hm
    cases mid with
    | nil => simp at hm
    | cons y mid =>
      rw [List.length_cons, arrayDecoder.items, List.flatMap_cons,
        List.append_assoc (bytes x) (c.flatMap bytes) rest, hD]
      simp only [hardError, Bool.false_eq_true, if_false]
      have hset : Slice.setIndex { Data := pre ++ y :: mid ++ post, Len := len } (pre.length : Int) x
          = { Data := (pre ++ [x]) ++ mid ++ post, Len := len } := by
        simp [Slice.setIndex]
      rw [hset]
      have := ih (pre ++ [x]) mid post len (calls ++ [(pre.length : Int)]) (by simpa using hm)
      simp only [List.length_append, List.length_singleton, Nat.cast_add, Nat.cast_one] at this
      rw [this]
      simp [List.range'_succ]

theorem blocks_ok {α : Type} [Inhabited α] (d : arrayDecoder α) (bytes : α → List Byte)
    (hD : DecodesFrom d.decoder bytes) (rest : List Byte) :
    ∀ (blocks : List (List α)), (∀ c ∈ blocks, 1 ≤ c.length) →
      ∀ (fuel size : Nat) (s : Slice α) (calls : List Int), s.WF → size ≤ s.Len →
        blocks.length < fuel →
        ∃ s' : Slice α,
          arrayDecoder.blocks d fuel (size : Int) s
              { buf := blocks.flatMap (blockBytes bytes) ++ (longBytes 0 ++ rest), Error := none }
              calls
            = some (s', { buf := rest, Error := none },
                    calls ++ (List.range' size blocks.flatten.length).map Int.ofNat) ∧
          (blocks = [] → s' = s) ∧
          (blocks ≠ [] → s'.WF ∧ s'.Len = size + blocks.flatten.length ∧
            s'.toList = s.Data.take size ++ blocks.flatten) := by
  intro blocks
  induction blocks with
  | nil =>
    intro _ fuel size s calls _ _ hfuel
    obtain ⟨k, rfl⟩ : ∃ k, fuel = k + 1 := ⟨fuel - 1, by simp at hfuel; omega⟩
    refine ⟨s, ?_, fun _ => rfl, fun h => absurd rfl h⟩
    simp [arrayDecoder.blocks, ReadBlockHeader_longBytes, hardError]
  | cons c bs ih =>
    intro hne fuel size s calls hwf hsize hfuel
    obtain ⟨k, rfl⟩ : ∃ k, fuel = k + 1 := ⟨fuel - 1, by simp at hfuel; omega⟩
    have hc : 1 ≤ c.length := hne c (List.mem_cons_self _ _)
    have hbuf : (c :: bs).flatMap (blockBytes bytes) ++ (longBytes 0 ++ rest)
        = longBytes (c.length : Int) ++ (c.flatMap bytes ++
            (bs.flatMap (blockBytes bytes) ++ (longBytes 0 ++ rest))) := by
      simp [blockBytes, List.flatMap_cons, List.append_assoc]
    have hgrowLen := Slice.UnsafeGrow_Len s (size + c.length)
    have hgrowCap := Slice.UnsafeGrow_cap s hwf (size + c.length)
    have hgrowTake := Slice.UnsafeGrow_take s hwf (size + c.length) size hsize
    generalize hs1 : s.UnsafeGrow (size + c.length) = s1 at hgrowLen hgrowCap hgrowTake
    have hdecomp : s1 = { Data := s1.Data.take size ++ (s1.Data.drop size).take c.length
                            ++ s1.Data.drop (size + c.length),
                          Len := size + c.length } := by
      cases s1 with
      | mk D L =>
        simp only at hgrowLen
        subst hgrowLen
        congr 1
        rw [List.append_assoc, ← List.drop_drop, List.take_append_drop, List.take_append_drop]
    have hprelen : (s1.Data.take size).length = size := by
      rw [List.length_take]; omega
    have hmidlen : ((s1.Data.drop size).take c.length).length = c.length := by
      rw [List.length_take, List.length_drop]; omega
    have hitems := items_ok d bytes hD (bs.flatMap (blockBytes bytes) ++ (longBytes 0 ++ rest))
      c (s1.Data.take size) ((s1.Data.drop size).take c.length) (s1.Data.drop (size + c.length))
      (size + c.length) calls hmidlen
    rw [hprelen, ← hdecomp] at hitems
    have hwf2 : Slice.WF { Data := s1.Data.take size ++ c ++ s1.Data.drop (size + c.length),
                           Len := size + c.length } := by
      simp only [Slice.WF, List.length_append, List.length_take, List.length_drop]
      omega
    obtain ⟨s', hrun, hnil, hcons⟩ := ih (fun c hc => hne c (List.mem_cons_of_mem _ hc)) k
      (size + c.length)
      { Data := s1.Data.take size ++ c ++ s1.Data.drop (size + c.length), Len := size + c.length }
      (calls ++ (List.range' size c.length).map Int.ofNat) hwf2 (le_refl _)
      (by simp at hfuel; omega)
    have hcne : (c.length : Int) ≠ 0 := by omega
    have h1 : ((size : Int) + (c.length : Int)).toNat = size + c.length := by omega
    have h2 : ((size : Int) + (c.length : Int) - (size : Int)).toNat = c.length := by omega
    have htake2 : List.take (size + c.length)
        (s1.Data.take size ++ c ++ s1.Data.drop (size + c.length)) = s.Data.take size ++ c := by
      rw [List.take_append_of_le_length (by simp [hprelen]),
        List.take_of_length_le (by simp [hprelen]), hgrowTake]
    refine ⟨s', ?_, fun h => by simp at h, fun _ => ?_⟩
    · rw [hbuf, arrayDecoder.blocks, ReadBlockHeader_longBytes _ (by omega)]
      simp only [hcne, if_false, h1, h2, hs1, hitems, Bool.false_eq_true]
      rw [Nat.cast_add] at hrun
      rw [hrun]
      simp only [List.flatten_cons, List.length_append, List.append_assoc, ← List.map_append]
      congr 4
      have := List.range'_append size c.length bs.flatten.length 1
      simp only [Nat.one_mul] at this
      rw [this, Nat.add_comm]
    · by_cases hbs : bs = []
      · have := hnil hbs
        subst this
        subst hbs
        refine ⟨hwf2, by simp, ?_⟩
        simp only [Slice.toList, List.flatten_cons, List.flatten_nil, List.append_nil]
        exact htake2
      · obtain ⟨hwf', hlen', hlist'⟩ := hcons hbs
        refine ⟨hwf', by rw [hlen']; simp; omega, ?_⟩
        rw [hlist']
        simp only [List.flatten_cons]
        rw [htake2, List.append_assoc]

theorem longItemEncoder_EncodesAs : EncodesAs longItemEncoder longBytes := by
  intro x w hw
  cases w
  simp_all [longItemEncoder, Writer.WriteLong, longBytes]

theorem longItemDecoder_DecodesFrom : DecodesFrom longItemDecoder longBytes := by
  intro x prior rest
  exact ReadLong_longBytes x rest

theorem Encode_ok {α : Type} [Inhabited α] (e : arrayEncoder α) (bytes : α → List Byte)
    (hE : EncodesAs e.encoder bytes) (b : Nat) (hb : 1 ≤ b) (heb : e.blockLength = (b : Int))
    (ptr : Slice α) (hwf : ptr.WF) (w : Writer) (hw : w.Error = none) (fuel : Nat)
    (hfuel : (ptr.Len + b - 1) / b < fuel) :
    ∃ blocks : List (List α), IsChunking b ptr.toList blocks ∧
      e.Encode fuel ptr w
        = some ({ buf := w.buf ++ blocks.flatMap (blockBytes bytes) ++ longBytes 0, Error := none },
                (List.range ptr.Len).map Int.ofNat,
                blocks.map (fun c => (c.length : Int))) := by
  obtain ⟨blocks, hch, hrun⟩ := chunks_ok e bytes hE ptr hwf b hb heb fuel 0 [] [] w hw
    (by simpa using hfuel)
  refine ⟨blocks, by simpa using hch, ?_⟩
  simp only [Nat.cast_zero] at hrun
  simp [arrayEncoder.Encode, Slice.UnsafeLengthOf, hrun, Writer.WriteBlockHeader,
    Writer.WriteLong, hardError, longBytes, List.range_eq_range']

/-! ## Block container codec: round trip and block protocol -/

/-- Claim C1: for a block length of at least 1, an item codec whose decoder reads back what
its encoder wrote, and no error pending, decoding the bytes written by `arrayEncoder.Encode`
for a sequence into an empty destination yields the same sequence, in order and of the same
length, consumes exactly those bytes and reports no error. -/
theorem array_round_trip {α : Type} [Inhabited α] (e : arrayEncoder α) (d : arrayDecoder α)
    (bytes : α → List Byte) (hE : EncodesAs e.encoder bytes) (hD : DecodesFrom d.decoder bytes)
    (hb : 1 ≤ e.blockLength) (src dst : Slice α) (hsrc : src.WF) (hdst : dst.WF)
    (hempty : dst.Len = 0) (w : Writer) (hw : w.Error = none) (rest : List Byte) (fuel : Nat)
    (hfuel : (src.Len + e.blockLength.toNat - 1) / e.blockLength.toNat < fuel) :
    ∃ (w' : Writer) (counts : List Int) (dst' : Slice α),
      e.Encode fuel src w = some (w', (List.range src.Len).map Int.ofNat, counts) ∧
      w'.Error = none ∧
      d.Decode fuel dst { buf := w'.buf.drop w.buf.length ++ rest, Error := none }
        = some (dst', { buf := rest, Error := none }, (List.range src.Len).map Int.ofNat) ∧
      dst'.toList = src.toList ∧ dst'.Len = src.Len := by
  have hbn : 1 ≤ e.blockLength.toNat := by omega
  have heb : e.blockLength = (e.blockLength.toNat : Int) := by omega
  obtain ⟨blocks, ⟨hflat, hlen, hbd, _⟩, hrun⟩ :=
    Encode_ok e bytes hE e.blockLength.toNat hbn heb src hsrc w hw fuel hfuel
  have hsl : src.toList.length = src.Len := by
    unfold Slice.WF at hsrc; simp [Slice.toList]; omega
  obtain ⟨dst', hdec, hnil, hcons⟩ := blocks_ok d bytes hD rest blocks (fun c hc => (hbd c hc).1)
    fuel 0 dst [] hdst (Nat.zero_le _) (by rw [hlen, hsl]; exact hfuel)
  rw [hflat, hsl] at hdec hcons
  refine ⟨_, _, dst', hrun, rfl, ?_, ?_⟩
  · simp only [List.append_assoc, List.drop_left]
    simpa [arrayDecoder.Decode, List.range_eq_range'] using hdec
  · by_cases hbs : blocks = []
    · have h1 := hnil hbs
      subst h1
      subst hbs
      simp only [List.flatten_nil] at hflat
      have h0 : src.Len = 0 := by rw [← hsl, ← hflat]; rfl
      exact ⟨by rw [← hflat]; simp [Slice.toList, hempty], by omega⟩
    · obtain ⟨_, hl, ht⟩ := hcons hbs
      exact ⟨by simpa using ht, by omega⟩

/-- Witness of C1: the sequence `[1, 2, 3]` of longs with block length 2 (two blocks). -/
theorem array_round_trip_witness :
    ∃ (w' : Writer) (counts : List Int) (dst' : Slice Int),
      longArrayEncoder.Encode 3 (Slice.ofList [1, 2, 3]) { buf := [], Error := none }
        = some (w', (List.range 3).map Int.ofNat, counts) ∧
      w'.Error = none ∧
      longArrayDecoder.Decode 3 { Data := [], Len := 0 }
          { buf := w'.buf.drop 0 ++ [], Error := none }
        = some (dst', { buf := [], Error := none }, (List.range 3).map Int.ofNat) ∧
      dst'.toList = [1, 2, 3] ∧ dst'.Len = 3 :=
  array_round_trip longArrayEncoder longArrayDecoder longBytes longItemEncoder_EncodesAs
    longItemDecoder_DecodesFrom (by decide) (Slice.ofList [1, 2, 3]) { Data := [], Len := 0 }
    (Nat.le_refl 3) (Nat.le_refl 0) rfl { buf := [], Error := none } rfl [] 3 (by decide)

/-- Claim C2: for a sequence of length `n` and block length `b ≥ 1` whose items encode
without error, `arrayEncoder.Encode` writes `ceil(n/b)` blocks that cut the sequence in
source order, each with a declared count between 1 and `b`, every block but the last with
count `b`, the counts summing to `n`, followed by the single header of count 0; an empty
sequence gives the lone terminating header. -/
theorem arrayEncoder_block_protocol {α : Type} [Inhabited α] (e : arrayEncoder α)
    (bytes : α → List Byte) (hE : EncodesAs e.encoder bytes) (b : Nat) (hb : 1 ≤ b)
    (heb : e.blockLength = (b : Int)) (ptr : Slice α) (hwf : ptr.WF) (w : Writer)
    (hw : w.Error = none) (fuel : Nat) (hfuel : (ptr.Len + b - 1) / b < fuel) :
    ∃ blocks : List (List α),
      blocks.flatten = ptr.toList ∧
      blocks.length = (ptr.Len + b - 1) / b ∧
      (∀ c ∈ blocks, 1 ≤ c.length ∧ c.length ≤ b) ∧
      (∀ c ∈ blocks.dropLast, c.length = b) ∧
      (blocks.map List.length).sum = ptr.Len ∧
      (ptr.Len = 0 → blocks = []) ∧
      e.Encode fuel ptr w
        = some ({ buf := w.buf ++ blocks.flatMap (blockBytes bytes) ++ longBytes 0,
                  Error := none },
                (List.range ptr.Len).map Int.ofNat,
                blocks.map (fun c => (c.length : Int))) ∧
      longBytes 0 = [0] := by
  obtain ⟨blocks, ⟨hflat, hlen, hbd, hdl⟩, hrun⟩ :=
    Encode_ok e bytes hE b hb heb ptr hwf w hw fuel hfuel
  have hsl : ptr.toList.length = ptr.Len := by
    unfold Slice.WF at hwf; simp [Slice.toList]; omega
  refine ⟨blocks, hflat, by rw [hlen, hsl], hbd, hdl, ?_, ?_, hrun, by decide⟩
  · rw [← hsl, ← hflat, List.length_flatten]
  · intro h0
    rw [hsl, h0] at hlen
    have : (0 + b - 1) / b = 0 := Nat.div_eq_of_lt (by omega)
    rw [this] at hlen
    exact List.length_eq_zero.mp hlen

/-- Witness of C2: `[1, 2, 3]` with block length 2 gives the blocks `[count=2, 1, 2]`,
`[count=1, 3]` and `[count=0]`; on the wire a long `n ≥ 0` is the byte `2 * n`. -/
theorem arrayEncoder_block_protocol_witness :
    (∃ blocks : List (List Int),
      blocks.flatten = (Slice.ofList [1, 2, 3]).toList ∧
      blocks.length = (3 + 2 - 1) / 2 ∧
      (∀ c ∈ blocks, 1 ≤ c.length ∧ c.length ≤ 2) ∧
      (∀ c ∈ blocks.dropLast, c.length = 2) ∧
      (blocks.map List.length).sum = 3 ∧
      ((3 : Nat) = 0 → blocks = []) ∧
      longArrayEncoder.Encode 3 (Slice.ofList [1, 2, 3]) { buf := [], Error := none }
        = some ({ buf := [] ++ blocks.flatMap (blockBytes longBytes) ++ longBytes 0,
                  Error := none },
                (List.range 3).map Int.ofNat,
                blocks.map (fun c => (c.length : Int))) ∧
      longBytes 0 = [0]) ∧
    longArrayEncoder.Encode 3 (Slice.ofList [1, 2, 3]) { buf := [], Error := none }
      = some ({ buf := [4, 2, 4, 2, 6, 0], Error := none }, [0, 1, 2], [2, 1]) :=
  ⟨arrayEncoder_block_protocol longArrayEncoder longBytes longItemEncoder_EncodesAs 2
    (by decide) rfl (Slice.ofList [1, 2, 3]) (Nat.le_refl 3) { buf := [], Error := none } rfl 3
    (by decide), by decide⟩

/-! ## Block container codec: count of a chunk that fails midway -/

theorem encodeItems_cons {α : Type} (enc : α → Writer → Writer) (x : α) (xs : List α)
    (w : Writer) : encodeItems enc (x :: xs) w = encodeItems enc xs (enc x w) := rfl

theorem callback_first_failure {α : Type} [Inhabited α] (e : arrayEncoder α) (ptr : Slice α)
    (hwf : ptr.WF) (i : Int) :
    ∀ (k n j : Nat) (count : Int) (calls : List Int) (w : Writer),
      ((j + k : Nat) : Int) < i + e.blockLength → j + k < ptr.Len → ptr.Len - j ≤ n →
      (∀ t, t < k →
        hardError (encodeItems e.encoder ((ptr.toList.drop j).take (t + 1)) w).Error = false) →
      hardError (encodeItems e.encoder ((ptr.toList.drop j).take (k + 1)) w).Error = true →
      arrayEncoder.callback e ptr i (ptr.Len : Int) n (j : Int) count calls w
        = ((count + (k : Int), calls ++ (List.range' j (k + 1)).map Int.ofNat),
           { encodeItems e.encoder ((ptr.toList.drop j).take (k + 1)) w with
             Error := wrapError e.typ
               (encodeItems e.encoder ((ptr.toList.drop j).take (k + 1)) w).Error }) := by
  intro k
  induction k with
  | zero =>
    intro n j count calls w hjb hjl hn _ hfail
    obtain ⟨n', rfl⟩ : ∃ n', n = n' + 1 := ⟨n - 1, by omega⟩
    have hc : (j : Int) < i + e.blockLength ∧ (j : Int) < (ptr.Len : Int) := by
      constructor <;> omega
    rw [Slice.drop_toList ptr hwf j (by omega)] at hfail ⊢
    simp only [Nat.zero_add, List.take_succ_cons, List.take_zero, encodeItems_cons] at hfail ⊢
    simp only [encodeItems, List.foldl_nil] at hfail ⊢
    rw [arrayEncoder.callback, if_pos hc]
    simp [hfail]
  | succ k ih =>
    intro n j count calls w hjb hjl hn hok hfail
    obtain ⟨n', rfl⟩ : ∃ n', n = n' + 1 := ⟨n - 1, by omega⟩
    have hc : (j : Int) < i + e.blockLength ∧ (j : Int) < (ptr.Len : Int) := by
      constructor <;> omega
    have h0 := hok 0 (by omega)
    rw [Slice.drop_toList ptr hwf j (by omega)] at h0 hfail hok ⊢
    simp only [Nat.zero_add, List.take_succ_cons, List.take_zero, encodeItems_cons] at h0 hfail hok ⊢
    simp only [encodeItems, List.foldl_nil] at h0
    have := ih n' (j + 1) (count + 1) (calls ++ [(j : Int)]) (e.encoder (ptr.UnsafeGetIndex j) w)
      (by omega) (by omega) (by omega)
      (fun t ht => by simpa [encodeItems_cons] using hok (t + 1) (by omega)) hfail
    rw [arrayEncoder.callback, if_pos hc]
    simp only [h0, Bool.false_eq_true, if_false]
    rw [Nat.cast_succ] at this
    rw [this]
    simp [List.range'_succ, add_assoc]
    try omega

theorem callback_no_failure {α : Type} [Inhabited α] (e : arrayEncoder α) (ptr : Slice α)
    (hwf : ptr.WF) (i : Int) :
    ∀ (m n j : Nat) (count : Int) (calls : List Int) (w : Writer),
      (min (i + e.blockLength) ptr.Len - j).toNat = m → ptr.Len - j ≤ n →
      (∀ t, t < m →
        hardError (encodeItems e.encoder ((ptr.toList.drop j).take (t + 1)) w).Error = false) →
      arrayEncoder.callback e ptr i (ptr.Len : Int) n (j : Int) count calls w
        = ((count + (m : Int), calls ++ (List.range' j m).map Int.ofNat),
           encodeItems e.encoder ((ptr.toList.drop j).take m) w) := by
  intro m
  induction m with
  | zero =>
    intro n j count calls w hm hn _
    cases n with
    | zero => simp [arrayEncoder.callback, encodeItems]
    | succ n' =>
      have hc : ¬ ((j : Int) < i + e.blockLength ∧ (j : Int) < (ptr.Len : Int)) := by omega
      rw [arrayEncoder.callback, if_neg hc]
      simp [encodeItems]
  | succ m ih =>
    intro n j count calls w hm hn hok
    obtain ⟨n', rfl⟩ : ∃ n', n = n' + 1 := ⟨n - 1, by omega⟩
    have hc : (j : Int) < i + e.blockLength ∧ (j : Int) < (ptr.Len : Int) := by
      constructor <;> omega
    have h0 := hok 0 (by omega)
    rw [Slice.drop_toList ptr hwf j (by omega)] at h0 hok ⊢
    simp only [Nat.zero_add, List.take_succ_cons, List.take_zero, encodeItems_cons] at h0 hok ⊢
    simp only [encodeItems, List.foldl_nil] at h0
    have := ih n' (j + 1) (count + 1) (calls ++ [(j : Int)]) (e.encoder (ptr.UnsafeGetIndex j) w)
      (by omega) (by omega)
      (fun t ht => by simpa [encodeItems_cons] using hok (t + 1) (by omega))
    rw [arrayEncoder.callback, if_pos hc]
    simp only [h0, Bool.false_eq_true, if_false]
    rw [Nat.cast_succ] at this
    rw [this]
    simp [List.range'_succ, add_assoc]
    try omega

/-- Claim C3: in the chunk of `arrayEncoder.Encode` that starts at index `i`, if the item at
offset `k` is the first after whose encoding the writer holds a hard error, the callback
returns the count `k` to `WriteBlockCB`, having handed exactly the items `i .. i+k` to the
item encoder (none after the failing one), and leaves the wrapped error; if no item fails,
it returns the chunk size, having handed every item of the chunk to the item encoder. -/
theorem arrayEncoder_chunk_count {α : Type} [Inhabited α] (e : arrayEncoder α) (ptr : Slice α)
    (hwf : ptr.WF) (i : Nat) (hi : i < ptr.Len) (calls : List Int) (w : Writer) :
    (∀ k, k < ((ptr.toList.drop i).take e.blockLength.toNat).length →
      (∀ t, t < k → hardError (encodeItems e.encoder
          (((ptr.toList.drop i).take e.blockLength.toNat).take (t + 1)) w).Error = false) →
      hardError (encodeItems e.encoder
          (((ptr.toList.drop i).take e.blockLength.toNat).take (k + 1)) w).Error = true →
      arrayEncoder.callback e ptr i ptr.Len ((ptr.Len : Int) - i).toNat i 0 calls w
        = (((k : Int), calls ++ (List.range' i (k + 1)).map Int.ofNat),
           { encodeItems e.encoder
               (((ptr.toList.drop i).take e.blockLength.toNat).take (k + 1)) w with
             Error := wrapError e.typ (encodeItems e.encoder
               (((ptr.toList.drop i).take e.blockLength.toNat).take (k + 1)) w).Error }) ∧
      (w.WriteBlockCB
          (arrayEncoder.callback e ptr i ptr.Len ((ptr.Len : Int) - i).toNat i 0 calls)).1
        = ((k : Int), calls ++ (List.range' i (k + 1)).map Int.ofNat)) ∧
    ((∀ t, t < ((ptr.toList.drop i).take e.blockLength.toNat).length →
        hardError (encodeItems e.encoder
          (((ptr.toList.drop i).take e.blockLength.toNat).take (t + 1)) w).Error = false) →
      arrayEncoder.callback e ptr i ptr.Len ((ptr.Len : Int) - i).toNat i 0 calls w
        = ((((((ptr.toList.drop i).take e.blockLength.toNat).length : Nat) : Int),
            calls ++ (List.range' i
              ((ptr.toList.drop i).take e.blockLength.toNat).length).map Int.ofNat),
           encodeItems e.encoder ((ptr.toList.drop i).take e.blockLength.toNat) w)) := by
  have hlen : (ptr.toList.drop i).length = ptr.Len - i := by
    unfold Slice.WF at hwf; simp [Slice.toList]; omega
  have hcl : ((ptr.toList.drop i).take e.blockLength.toNat).length
      = min e.blockLength.toNat (ptr.Len - i) := by
    rw [List.length_take, hlen]
  have htt : ∀ t, t ≤ e.blockLength.toNat →
      ((ptr.toList.drop i).take e.blockLength.toNat).take t = (ptr.toList.drop i).take t := by
    intro t ht
    rw [List.take_take, Nat.min_eq_left ht]
  constructor
  · intro k hk hok hfail
    rw [hcl] at hk
    rw [htt (k + 1) (by omega)] at hfail ⊢
    have hcb := callback_first_failure e ptr hwf i k ((ptr.Len : Int) - i).toNat i 0 calls w
      (by omega) (by omega) (by omega)
      (fun t ht => by rw [← htt (t + 1) (by omega)]; exact hok t ht) hfail
    rw [zero_add] at hcb
    refine ⟨hcb, ?_⟩
    simp only [Writer.WriteBlockCB, hcb]
  · intro hok
    rw [hcl] at hok ⊢
    have hcb := callback_no_failure e ptr hwf i (min e.blockLength.toNat (ptr.Len - i))
      ((ptr.Len : Int) - i).toNat i 0 calls w (by omega) (by omega)
      (fun t ht => by rw [← htt (t + 1) (by omega)]; exact hok t ht)
    rw [zero_add] at hcb
    rw [hcb]
    have htk : List.take (min e.blockLength.toNat (ptr.Len - i)) (List.drop i ptr.toList)
        = List.take e.blockLength.toNat (List.drop i ptr.toList) := by
      rw [List.take_eq_take, hlen]; omega
    rw [htk]

/-- Witness of C3: in the chunk `[1, -1, 3]` the item at offset 1 is the first to fail; the
callback returns the count 1 and the item at offset 2 is never handed to the encoder. -/
theorem arrayEncoder_chunk_count_witness :
    arrayEncoder.callback refusingArrayEncoder (Slice.ofList [1, -1, 3]) 0 3 3 0 0 []
        { buf := [], Error := none }
      = ((1, [0, 1]),
         { buf := [2], Error := some (GoError.wrap "[]int64" (GoError.leaf "avro: negative item")) }) ∧
    (Writer.WriteBlockCB { buf := [], Error := none }
        (arrayEncoder.callback refusingArrayEncoder (Slice.ofList [1, -1, 3]) 0 3 3 0 0 [])).1
      = (1, [0, 1]) :=
  (arrayEncoder_chunk_count refusingArrayEncoder (Slice.ofList [1, -1, 3]) (Nat.le_refl 3) 0
    (by decide) [] { buf := [], Error := none }).1 1 (by decide) (by decide) (by decide)

/-! ## Indirection codec -/

/-- Claim C4: `dereferenceDecoder.Decode` on a slot holding nil allocates one fresh zeroed
cell (its address is not an address of the heap before the call, and the existing cells keep
their content), runs the inner decoder exactly once, on that cell, and stores its address in
the slot; on a slot holding an address it runs the inner decoder exactly once, on the cell at
that address, and the slot still holds the same address. -/
theorem dereferenceDecoder_Decode_slot {α : Type} [Inhabited α] (d : dereferenceDecoder α)
    (heap : Heap α) (r : Reader) :
    (d.Decode none heap r
        = ({ slot := some heap.length, heap := heap ++ [(d.decoder default r).1],
             calls := [heap.length] }, (d.decoder default r).2) ∧
      ¬ heap.length < heap.length) ∧
    (∀ p : Nat, d.Decode (some p) heap r
        = ({ slot := some p, heap := heap.set p (d.decoder (heap.getD p default) r).1,
             calls := [p] }, (d.decoder (heap.getD p default) r).2)) := by
  refine ⟨⟨?_, Nat.lt_irrefl _⟩, fun p => rfl⟩
  simp [dereferenceDecoder.Decode]

/-- Claim C5: `dereferenceEncoder.Encode` on a slot holding nil puts the error
"avro: cannot encode nil pointer" on the writer, writes no byte and never calls the inner
encoder (the outcome is the same whatever the inner encoder is); on a slot holding an address
it is the inner encoder applied once to the cell at that address, with nothing added. -/
theorem dereferenceEncoder_Encode_slot {α : Type} [Inhabited α] (d : dereferenceEncoder α)
    (heap : Heap α) (w : Writer) :
    ((d.Encode none heap w).1.Error = some (GoError.leaf "avro: cannot encode nil pointer") ∧
      (GoError.leaf "avro: cannot encode nil pointer").Error = "avro: cannot encode nil pointer" ∧
      (d.Encode none heap w).1.buf = w.buf ∧
      (d.Encode none heap w).2 = [] ∧
      ∀ d' : dereferenceEncoder α, d'.Encode none heap w = d.Encode none heap w) ∧
    (∀ p : Nat, d.Encode (some p) heap w = (d.encoder (heap.getD p default) w, [p])) :=
  ⟨⟨rfl, rfl, rfl, rfl, fun _ => rfl⟩, fun _ => rfl⟩

/-! ## Codec builder: resolution order -/

theorem GoType.eface_iff (typ : GoType) :
    (typ.Kind = Kind.Interface ∧ typ.isUnsafeIFaceType = false) ↔ typ = GoType.eface := by
  cases typ with
  | plain k s l => cases k <;> simp [GoType.Kind, PlainKind.toKind, GoType.isUnsafeIFaceType]
  | _ => simp [GoType.Kind, GoType.isUnsafeIFaceType]

theorem decoderOfType_succ (C : Collaborators) (cfg : frozenConfig) (fuel : Nat)
    (schema : Schema) (typ : GoType) (seen : seenDecoderStructCache) :
    decoderOfType C cfg (fuel + 1) schema typ seen =
    match C.createDecoderOfMarshaler cfg schema typ with
    | some dec => some (dec, seen)
    | none =>
      if typ.Kind = Kind.Interface ∧ schema.Type ≠ SchemaType.Union ∧
          typ.isUnsafeIFaceType = false then
        newEfaceDecoder C (decoderOfType C cfg fuel) schema seen
      else
        match schema.Type with
        | .String | .Bytes | .Int | .Long | .Float | .Double | .Boolean =>
          some (C.createDecoderOfNative schema typ, seen)
        | .Record => some (C.createDecoderOfRecord cfg schema typ seen)
        | .Ref =>
          match schema with
          | .Ref actual => decoderOfType C cfg fuel actual typ seen
          | _ => none
        | .Enum => some (C.createDecoderOfEnum schema typ, seen)
        | .Array => createDecoderOfArray (decoderOfType C cfg fuel) schema typ seen
        | .Map => some (C.createDecoderOfMap cfg schema typ seen)
        | .Union => some (C.createDecoderOfUnion cfg schema typ seen)
        | .Fixed => some (C.createDecoderOfFixed schema typ, seen)
        | _ =>
          some (ValDecoder.errorDecoder (GoError.leaf
            ("avro: schema type " ++ schemaTypeName schema.Type ++ " is unsupported")), seen) := by
  rfl

theorem decoderOfType_marshaler (C : Collaborators) (cfg : frozenConfig) (fuel : Nat)
    (schema : Schema) (typ : GoType) (seen : seenDecoderStructCache) (dec : ValDecoder)
    (h : C.createDecoderOfMarshaler cfg schema typ = some dec) :
    decoderOfType C cfg (fuel + 1) schema typ seen = some (dec, seen) := by
  rw [decoderOfType_succ]; simp only [h]

theorem decoderOfType_eface (C : Collaborators) (cfg : frozenConfig) (fuel : Nat)
    (schema : Schema) (seen : seenDecoderStructCache)
    (h : C.createDecoderOfMarshaler cfg schema GoType.eface = none)
    (hu : schema.Type ≠ SchemaType.Union) :
    decoderOfType C cfg (fuel + 1) schema GoType.eface seen
      = newEfaceDecoder C (decoderOfType C cfg fuel) schema seen := by
  rw [decoderOfType_succ]; simp [h, hu, GoType.Kind, GoType.isUnsafeIFaceType]

theorem decoderOfType_switch (C : Collaborators) (cfg : frozenConfig) (fuel : Nat)
    (schema : Schema) (typ : GoType) (seen : seenDecoderStructCache)
    (h : C.createDecoderOfMarshaler cfg schema typ = none)
    (hne : typ ≠ GoType.eface ∨ schema.Type = SchemaType.Union) :
    (schema.Type ∈ [SchemaType.String, SchemaType.Bytes, SchemaType.Int, SchemaType.Long,
        SchemaType.Float, SchemaType.Double, SchemaType.Boolean] →
      decoderOfType C cfg (fuel + 1) schema typ seen
        = some (C.createDecoderOfNative schema typ, seen)) ∧
    (schema.Type = SchemaType.Record →
      decoderOfType C cfg (fuel + 1) schema typ seen
        = some (C.createDecoderOfRecord cfg schema typ seen)) ∧
    (∀ actual, schema = Schema.Ref actual →
      decoderOfType C cfg (fuel + 1) schema typ seen = decoderOfType C cfg fuel actual typ seen) ∧
    (schema.Type = SchemaType.Enum →
      decoderOfType C cfg (fuel + 1) schema typ seen
        = some (C.createDecoderOfEnum schema typ, seen)) ∧
    (schema.Type = SchemaType.Array →
      decoderOfType C cfg (fuel + 1) schema typ seen
        = createDecoderOfArray (decoderOfType C cfg fuel) schema typ seen) ∧
    (schema.Type = SchemaType.Map →
      decoderOfType C cfg (fuel + 1) schema typ seen
        = some (C.createDecoderOfMap cfg schema typ seen)) ∧
    (schema.Type = SchemaType.Union →
      decoderOfType C cfg (fuel + 1) schema typ seen
        = some (C.createDecoderOfUnion cfg schema typ seen)) ∧
    (schema.Type = SchemaType.Fixed →
      decoderOfType C cfg (fuel + 1) schema typ seen
        = some (C.createDecoderOfFixed schema typ, seen)) ∧
    ((schema.Type = SchemaType.Null ∨ ∃ tag, schema.Type = SchemaType.Other tag) →
      decoderOfType C cfg (fuel + 1) schema typ seen
        = some (ValDecoder.errorDecoder (GoError.leaf
            ("avro: schema type " ++ schemaTypeName schema.Type ++ " is unsupported")), seen)) := by
  have hcond : ¬ (typ.Kind = Kind.Interface ∧ schema.Type ≠ SchemaType.Union ∧
      typ.isUnsafeIFaceType = false) := by
    rintro ⟨h1, h2, h3⟩
    rcases hne with h4 | h4
    · exact h4 ((GoType.eface_iff typ).mp ⟨h1, h3⟩)
    · exact h2 h4
  rw [decoderOfType_succ]
  simp only [h]
  rw [if_neg hcond]
  refine ⟨?_, ?_, ?_, ?_, ?_, ?_, ?_, ?_, ?_⟩
  · intro hk
    simp only [List.mem_cons, List.mem_singleton, List.not_mem_nil, or_false] at hk
    rcases hk with hk | hk | hk | hk | hk | hk | hk <;> rw [hk]
  · intro hk; rw [hk]
  · intro actual hk; subst hk; rfl
  · intro hk; rw [hk]
  · intro hk; rw [hk]
  · intro hk; rw [hk]
  · intro hk; rw [hk]
  · intro hk; rw [hk]
  · rintro (hk | ⟨tag, hk⟩) <;> rw [hk]

theorem GoType.Kind_Slice (typ : GoType) (h : typ.Kind = Kind.Slice) :
    ∃ str elem, typ = GoType.slice str elem := by
  cases typ with
  | slice str elem => exact ⟨str, elem, rfl⟩
  | plain k s l => cases k <;> simp [GoType.Kind, PlainKind.toKind] at h
  | _ => simp [GoType.Kind] at h

theorem Schema.mem_reached_self (schema : Schema) : schema ∈ schema.reached := by
  cases schema <;> simp [Schema.reached]

theorem ReceiverDefined.of_ref (C : Collaborators) (actual : Schema)
    (h : ReceiverDefined C (Schema.Ref actual)) : ReceiverDefined C actual := by
  intro s hs
  exact h s (by simp [Schema.reached, hs])

theorem ReceiverDefined.of_array (C : Collaborators) (items : Schema)
    (h : ReceiverDefined C (Schema.Array items)) : ReceiverDefined C items := by
  intro s hs
  exact h s (by simp [Schema.reached, hs])

theorem newEfaceDecoder_some (C : Collaborators)
    (recur : Schema → GoType → seenDecoderStructCache → DecoderBuild) (schema : Schema)
    (seen seen1 : seenDecoderStructCache) (t : GoType) (dec : ValDecoder)
    (hg : C.genericReceiver schema = some t) (hres : recur schema t seen = some (dec, seen1)) :
    newEfaceDecoder C recur schema seen = some (ValDecoder.efaceDecoder schema t dec, seen1) := by
  simp only [newEfaceDecoder, hg, hres]

theorem newEfaceDecoder_nil (C : Collaborators)
    (recur : Schema → GoType → seenDecoderStructCache → DecoderBuild) (schema : Schema)
    (seen : seenDecoderStructCache) (hg : C.genericReceiver schema = none) :
    newEfaceDecoder C recur schema seen = none := by
  simp only [newEfaceDecoder, hg]

theorem decoderOfType_no_receiver (C : Collaborators) (cfg : frozenConfig) (schema : Schema)
    (seen : seenDecoderStructCache)
    (hm : C.createDecoderOfMarshaler cfg schema GoType.eface = none)
    (hu : schema.Type ≠ SchemaType.Union) (hg : C.genericReceiver schema = none) :
    ∀ fuel, decoderOfType C cfg fuel schema GoType.eface seen = none := by
  intro fuel
  cases fuel with
  | zero => rfl
  | succ fuel =>
    rw [decoderOfType_eface C cfg fuel schema seen hm hu]
    exact newEfaceDecoder_nil C _ schema seen hg

theorem decoderOfType_returns (C : Collaborators) (cfg : frozenConfig) :
    ∀ (fuel : Nat) (schema : Schema) (typ : GoType) (seen : seenDecoderStructCache),
      ReceiverDefined C schema →
      2 * schema.depth + (if typ = GoType.eface ∧ schema.Type ≠ SchemaType.Union then 1 else 0)
        < fuel →
      ∃ res, decoderOfType C cfg fuel schema typ seen = some res := by
  intro fuel
  induction fuel with
  | zero => intro schema typ seen _ h; omega
  | succ fuel ih =>
    intro schema typ seen hG hfuel
    cases hm : C.createDecoderOfMarshaler cfg schema typ with
    | some dec => exact ⟨_, decoderOfType_marshaler C cfg fuel schema typ seen dec hm⟩
    | none =>
      by_cases he : typ = GoType.eface ∧ schema.Type ≠ SchemaType.Union
      · obtain ⟨rfl, hu⟩ := he
        rw [decoderOfType_eface C cfg fuel schema seen hm hu]
        obtain ⟨t, hg, hne⟩ := hG schema schema.mem_reached_self hu
        obtain ⟨⟨dec, seen1⟩, hres⟩ := ih schema t seen hG (by
          simp only [hne, false_and, if_false]
          simp only [hu, ne_eq, not_false_eq_true, and_self, if_true] at hfuel
          omega)
        exact ⟨_, newEfaceDecoder_some C _ schema seen seen1 t dec hg hres⟩
      · have hne : typ ≠ GoType.eface ∨ schema.Type = SchemaType.Union := by
          by_cases h1 : typ = GoType.eface
          · right; by_contra h2; exact he ⟨h1, h2⟩
          · left; exact h1
        simp only [he, if_false, Nat.add_zero] at hfuel
        obtain ⟨hP, hRec, hRef, hEnum, hArr, hMap, hUn, hFix, hOth⟩ :=
          decoderOfType_switch C cfg fuel schema typ seen hm hne
        cases schema with
        | Primitive k => exact ⟨_, hP (by cases k <;> simp [Schema.Type])⟩
        | Null => exact ⟨_, hOth (Or.inl rfl)⟩
        | Record n => exact ⟨_, hRec rfl⟩
        | Ref actual =>
          rw [hRef actual rfl]
          apply ih _ _ _ (ReceiverDefined.of_ref C actual hG)
          simp only [Schema.depth] at hfuel
          split_ifs <;> omega
        | Enum n => exact ⟨_, hEnum rfl⟩
        | Array items =>
          rw [hArr rfl]
          unfold createDecoderOfArray
          split_ifs with hk
          · obtain ⟨str, elem, rfl⟩ := GoType.Kind_Slice typ hk
            obtain ⟨⟨dec, seen1⟩, hres⟩ := ih items elem seen
              (ReceiverDefined.of_array C items hG) (by
              simp only [Schema.depth] at hfuel
              split_ifs <;> omega)
            exact ⟨(ValDecoder.arrayDecoder (GoType.slice str elem) dec, seen1),
              by simp [decoderOfArray, hres]⟩
          · exact ⟨_, rfl⟩
        | Map v => exact ⟨_, hMap rfl⟩
        | Union i => exact ⟨_, hUn rfl⟩
        | Fixed n => exact ⟨_, hFix rfl⟩
        | Other t => exact ⟨_, hOth (Or.inr ⟨t, rfl⟩)⟩

/-- Claim C6: `decoderOfType` resolves in this order.  (1) A codec returned by
`createDecoderOfMarshaler` is returned as it is, whatever the schema kind and the native
type.  (2) Otherwise, for an empty-interface destination and a schema that is not a union,
the call is that of `newEfaceDecoder`: where the schema has a generic receiver the result is
the `efaceDecoder` around the decoder built for that receiver (it exists once the fuel covers
the schema); where `genericReceiver` fails, `newEfaceDecoder` drops the error, the nil type
is dereferenced and no codec is returned, whatever the fuel.  (3) Otherwise, and so for a
union schema with an empty-interface destination, the schema kind alone selects the
builder. -/
theorem decoderOfType_resolution_order (C : Collaborators) (cfg : frozenConfig) (fuel : Nat)
    (schema : Schema) (typ : GoType) (seen : seenDecoderStructCache) :
    (∀ dec, C.createDecoderOfMarshaler cfg schema typ = some dec →
      decoderOfType C cfg (fuel + 1) schema typ seen = some (dec, seen)) ∧
    (C.createDecoderOfMarshaler cfg schema typ = none → typ = GoType.eface →
      schema.Type ≠ SchemaType.Union →
      decoderOfType C cfg (fuel + 1) schema typ seen
        = newEfaceDecoder C (decoderOfType C cfg fuel) schema seen ∧
      (∀ t dec seen1, C.genericReceiver schema = some t →
        decoderOfType C cfg fuel schema t seen = some (dec, seen1) →
        decoderOfType C cfg (fuel + 1) schema typ seen
          = some (ValDecoder.efaceDecoder schema t dec, seen1)) ∧
      (ReceiverDefined C schema → 2 * schema.depth < fuel →
        ∃ t dec seen1, C.genericReceiver schema = some t ∧
          decoderOfType C cfg (fuel + 1) schema typ seen
            = some (ValDecoder.efaceDecoder schema t dec, seen1)) ∧
      (C.genericReceiver schema = none →
        ∀ fuel2, decoderOfType C cfg fuel2 schema typ seen = none)) ∧
    (C.createDecoderOfMarshaler cfg schema typ = none →
      (typ ≠ GoType.eface ∨ schema.Type = SchemaType.Union) →
      (schema.Type ∈ [SchemaType.String, SchemaType.Bytes, SchemaType.Int, SchemaType.Long,
          SchemaType.Float, SchemaType.Double, SchemaType.Boolean] →
        decoderOfType C cfg (fuel + 1) schema typ seen
          = some (C.createDecoderOfNative schema typ, seen)) ∧
      (schema.Type = SchemaType.Record →
        decoderOfType C cfg (fuel + 1) schema typ seen
          = some (C.createDecoderOfRecord cfg schema typ seen)) ∧
      (∀ actual, schema = Schema.Ref actual →
        decoderOfType C cfg (fuel + 1) schema typ seen
          = decoderOfType C cfg fuel actual typ seen) ∧
      (schema.Type = SchemaType.Enum →
        decoderOfType C cfg (fuel + 1) schema typ seen
          = some (C.createDecoderOfEnum schema typ, seen)) ∧
      (schema.Type = SchemaType.Array →
        decoderOfType C cfg (fuel + 1) schema typ seen
          = createDecoderOfArray (decoderOfType C cfg fuel) schema typ seen) ∧
      (schema.Type = SchemaType.Map →
        decoderOfType C cfg (fuel + 1) schema typ seen
          = some (C.createDecoderOfMap cfg schema typ seen)) ∧
      (schema.Type = SchemaType.Union →
        decoderOfType C cfg (fuel + 1) schema typ seen
          = some (C.createDecoderOfUnion cfg schema typ seen)) ∧
      (schema.Type = SchemaType.Fixed →
        decoderOfType C cfg (fuel + 1) schema typ seen
          = some (C.createDecoderOfFixed schema typ, seen)) ∧
      ((schema.Type = SchemaType.Null ∨ ∃ tag, schema.Type = SchemaType.Other tag) →
        decoderOfType C cfg (fuel + 1) schema typ seen
          = some (ValDecoder.errorDecoder (GoError.leaf
              ("avro: schema type " ++ schemaTypeName schema.Type ++ " is unsupported")),
            seen))) := by
  refine ⟨fun dec h => decoderOfType_marshaler C cfg fuel schema typ seen dec h, ?_,
    fun h hne => decoderOfType_switch C cfg fuel schema typ seen h hne⟩
  intro hm he hu
  subst he
  have hnew := decoderOfType_eface C cfg fuel schema seen hm hu
  refine ⟨hnew, ?_, ?_, ?_⟩
  · intro t dec seen1 hg hres
    rw [hnew]
    exact newEfaceDecoder_some C _ schema seen seen1 t dec hg hres
  · intro hG hfuel
    obtain ⟨t, hg, hne⟩ := hG schema schema.mem_reached_self hu
    obtain ⟨⟨dec, seen1⟩, hres⟩ := decoderOfType_returns C cfg fuel schema t seen hG
      (by simp only [hne, false_and, if_false]; omega)
    exact ⟨t, dec, seen1, hg, by
      rw [hnew]; exact newEfaceDecoder_some C _ schema seen seen1 t dec hg hres⟩
  · intro hg fuel2
    exact decoderOfType_no_receiver C cfg schema seen hm hu hg fuel2

/-- Witness of C6, at the failing input and beside it: for the null schema and an empty-interface
destination no fuel makes `decoderOfType` return, the null schema having no generic
receiver; for the long schema the `efaceDecoder` around the `int64` decoder is returned. -/
theorem decoderOfType_resolution_order_witness :
    (∀ fuel2, decoderOfType stubCollaborators { BlockLength := 0 } fuel2 Schema.Null
      GoType.eface [] = none) ∧
    decoderOfType stubCollaborators { BlockLength := 0 } 2
        (Schema.Primitive PrimitiveKind.Long) GoType.eface []
      = some (ValDecoder.efaceDecoder (Schema.Primitive PrimitiveKind.Long) int64Type
          (ValDecoder.foreign 1), []) :=
  ⟨((decoderOfType_resolution_order stubCollaborators { BlockLength := 0 } 0 Schema.Null
      GoType.eface []).2.1 rfl rfl (by decide)).2.2.2 rfl,
   ((decoderOfType_resolution_order stubCollaborators { BlockLength := 0 } 1
      (Schema.Primitive PrimitiveKind.Long) GoType.eface []).2.1 rfl rfl (by decide)).2.1
      int64Type (ValDecoder.foreign 1) [] rfl rfl⟩

/-! ## Codec builder: scalar dispatch -/

theorem encoderOfType_succ (C : Collaborators) (cfg : frozenConfig) (fuel : Nat)
    (schema : Schema) (typ : GoType) (seen : seenEncoderStructCache) :
    encoderOfType C cfg (fuel + 1) schema typ seen =
    match C.createEncoderOfMarshaler cfg schema typ with
    | some enc => some (enc, seen)
    | none =>
      if typ.Kind = Kind.Interface then
        some (ValEncoder.interfaceEncoder schema typ, seen)
      else
        match schema.Type with
        | .String | .Bytes | .Int | .Long | .Float | .Double | .Boolean | .Null =>
          some (C.createEncoderOfNative schema typ, seen)
        | .Record => some (C.createEncoderOfRecord cfg schema typ seen)
        | .Ref =>
          match schema with
          | .Ref actual => encoderOfType C cfg fuel actual typ seen
          | _ => none
        | .Enum => some (C.createEncoderOfEnum schema typ, seen)
        | .Array => createEncoderOfArray C cfg (encoderOfType C cfg fuel) schema typ seen
        | .Map => some (C.createEncoderOfMap cfg schema typ seen)
        | .Union => some (C.createEncoderOfUnion cfg schema typ seen)
        | .Fixed => some (C.createEncoderOfFixed schema typ, seen)
        | _ =>
          some (ValEncoder.errorEncoder (GoError.leaf
            ("avro: schema type " ++ schemaTypeName schema.Type ++ " is unsupported")), seen) := by
  rfl

theorem encoderOfType_scalar (C : Collaborators) (cfg : frozenConfig) (fuel : Nat)
    (schema : Schema) (typ : GoType) (seen : seenEncoderStructCache)
    (hm : C.createEncoderOfMarshaler cfg schema typ = none) (hk : typ.Kind ≠ Kind.Interface)
    (hs : schema.Type ∈ [SchemaType.Null, SchemaType.Boolean, SchemaType.Int, SchemaType.Long,
      SchemaType.Float, SchemaType.Double, SchemaType.Bytes, SchemaType.String]) :
    encoderOfType C cfg (fuel + 1) schema typ seen
      = some (C.createEncoderOfNative schema typ, seen) := by
  rw [encoderOfType_succ]
  simp only [hm, hk, if_false]
  simp only [List.mem_cons, List.mem_singleton, List.not_mem_nil, or_false] at hs
  rcases hs with h | h | h | h | h | h | h | h <;> rw [h]

theorem decoderOfType_scalar (C : Collaborators) (cfg : frozenConfig) (fuel : Nat)
    (schema : Schema) (typ : GoType) (seen : seenDecoderStructCache)
    (hm : C.createDecoderOfMarshaler cfg schema typ = none) (hk : typ.Kind ≠ Kind.Interface)
    (hs : schema.Type ∈ [SchemaType.Boolean, SchemaType.Int, SchemaType.Long,
      SchemaType.Float, SchemaType.Double, SchemaType.Bytes, SchemaType.String]) :
    decoderOfType C cfg (fuel + 1) schema typ seen
      = some (C.createDecoderOfNative schema typ, seen) := by
  have hne : typ ≠ GoType.eface ∨ schema.Type = SchemaType.Union :=
    Or.inl (fun h => hk (by rw [h]; rfl))
  apply (decoderOfType_switch C cfg fuel schema typ seen hm hne).1
  simp only [List.mem_cons, List.mem_singleton, List.not_mem_nil, or_false] at hs ⊢
  tauto

theorem decoderOfType_Null (C : Collaborators) (cfg : frozenConfig) (fuel : Nat)
    (typ : GoType) (seen : seenDecoderStructCache)
    (hm : C.createDecoderOfMarshaler cfg Schema.Null typ = none)
    (hk : typ.Kind ≠ Kind.Interface) :
    decoderOfType C cfg (fuel + 1) Schema.Null typ seen
      = some (ValDecoder.errorDecoder
          (GoError.leaf "avro: schema type null is unsupported"), seen) := by
  have hne : typ ≠ GoType.eface ∨ Schema.Null.Type = SchemaType.Union :=
    Or.inl (fun h => hk (by rw [h]; rfl))
  have := (decoderOfType_switch C cfg fuel Schema.Null typ seen hm hne).2.2.2.2.2.2.2.2
    (Or.inl rfl)
  rw [this]
  rfl

/-- Claim C7, at the failing input: for the Null schema and the struct type `avro.null` (no
custom marshal capability, not an interface) `decoderOfType` returns the error codec
"avro: schema type null is unsupported" and not what `createDecoderOfNative` builds, while
`encoderOfType` on the same input returns what `createEncoderOfNative` builds. -/
theorem decoderOfType_Null_unsupported :
    decoderOfType stubCollaborators { BlockLength := 0 } 1 Schema.Null nullStructType []
      = some (ValDecoder.errorDecoder (GoError.leaf "avro: schema type null is unsupported"), []) ∧
    decoderOfType stubCollaborators { BlockLength := 0 } 1 Schema.Null nullStructType []
      ≠ some (stubCollaborators.createDecoderOfNative Schema.Null nullStructType, []) ∧
    encoderOfType stubCollaborators { BlockLength := 0 } 1 Schema.Null nullStructType []
      = some (stubCollaborators.createEncoderOfNative Schema.Null nullStructType, []) := by
  decide

/-! ## Array builders: deferred failure -/

theorem encoderOfType_returns (C : Collaborators) (cfg : frozenConfig) :
    ∀ (fuel : Nat) (schema : Schema) (typ : GoType) (seen : seenEncoderStructCache),
      schema.depth < fuel → ∃ res, encoderOfType C cfg fuel schema typ seen = some res := by
  intro fuel
  induction fuel with
  | zero => intro schema typ seen h; omega
  | succ fuel ih =>
    intro schema typ seen hfuel
    rw [encoderOfType_succ]
    cases hm : C.createEncoderOfMarshaler cfg schema typ with
    | some enc => exact ⟨_, rfl⟩
    | none =>
      simp only
      split_ifs with hk
      · exact ⟨_, rfl⟩
      · cases schema with
        | Primitive k => cases k <;> exact ⟨_, rfl⟩
        | Ref actual =>
          simp only [Schema.Type]
          exact ih actual typ seen (by simp only [Schema.depth] at hfuel; omega)
        | Array items =>
          simp only [Schema.Type]
          unfold createEncoderOfArray
          split_ifs with hs
          · obtain ⟨str, elem, rfl⟩ := GoType.Kind_Slice typ hs
            obtain ⟨⟨enc, seen1⟩, hres⟩ := ih items elem seen (by
              simp only [Schema.depth] at hfuel; omega)
            exact ⟨(ValEncoder.arrayEncoder (C.getBlockLength cfg) (GoType.slice str elem) enc,
              seen1), by simp [encoderOfArray, hres]⟩
          · exact ⟨_, rfl⟩
        | _ => exact ⟨_, rfl⟩

/-- Claim C8: the array builders for an Array schema.  For a native type that is not a
slice both return an error codec with the message
"avro: <type> is unsupported for Avro array", and only for a slice type is the result a
block container codec.  For a slice type `createEncoderOfArray` returns the block container
codec, and so does `createDecoderOfArray` when every schema node reached below has a generic
receiver (once the fuel covers the item schema); but for a slice of empty interfaces over an
item schema without generic receiver, `createDecoderOfArray` returns nothing, whatever the
fuel: the nil receiver type is dereferenced in the build of the item decoder.  An error
codec's `Decode` / `Encode` puts its error on an empty channel, keeps an error already
there, and leaves the memory, the unread input and the bytes written as they were. -/
theorem createOfArray_deferred_failure (C : Collaborators) (cfg : frozenConfig)
    (fuel : Nat) (items : Schema) (typ : GoType)
    (seenD : seenDecoderStructCache) (seenE : seenEncoderStructCache)
    (hfuel : 2 * items.depth + 1 < fuel) :
    (typ.Kind = Kind.Slice →
      (∃ enc seen2,
        createEncoderOfArray C cfg (encoderOfType C cfg fuel) (Schema.Array items) typ seenE
          = some (ValEncoder.arrayEncoder (C.getBlockLength cfg) typ enc, seen2)) ∧
      (ReceiverDefined C items →
        ∃ dec seen1,
          createDecoderOfArray (decoderOfType C cfg fuel) (Schema.Array items) typ seenD
            = some (ValDecoder.arrayDecoder typ dec, seen1))) ∧
    (typ.Kind ≠ Kind.Slice →
      createDecoderOfArray (decoderOfType C cfg fuel) (Schema.Array items) typ seenD
        = some (ValDecoder.errorDecoder (GoError.leaf
            ("avro: " ++ typ.String ++ " is unsupported for Avro array")), seenD) ∧
      createEncoderOfArray C cfg (encoderOfType C cfg fuel) (Schema.Array items) typ seenE
        = some (ValEncoder.errorEncoder (GoError.leaf
            ("avro: " ++ typ.String ++ " is unsupported for Avro array")), seenE)) ∧
    ((∃ dec seen1, createDecoderOfArray (decoderOfType C cfg fuel) (Schema.Array items) typ seenD
        = some (ValDecoder.arrayDecoder typ dec, seen1)) → typ.Kind = Kind.Slice) ∧
    ((∃ enc seen2,
        createEncoderOfArray C cfg (encoderOfType C cfg fuel) (Schema.Array items) typ seenE
          = some (ValEncoder.arrayEncoder (C.getBlockLength cfg) typ enc, seen2))
      ↔ typ.Kind = Kind.Slice) ∧
    (C.createDecoderOfMarshaler cfg items GoType.eface = none →
      items.Type ≠ SchemaType.Union → C.genericReceiver items = none →
      ∀ (fuel2 : Nat) (str : String),
        createDecoderOfArray (decoderOfType C cfg fuel2) (Schema.Array items)
          (GoType.slice str GoType.eface) seenD = none) ∧
    (∀ (μ : Type) (err : GoError) (ptr : μ) (r : Reader),
      (r.Error = none →
        errorDecoder.Decode err ptr r = (ptr, { buf := r.buf, Error := some err })) ∧
      (∀ e0, r.Error = some e0 → errorDecoder.Decode err ptr r = (ptr, r))) ∧
    (∀ (μ : Type) (err : GoError) (ptr : μ) (w : Writer),
      (w.Error = none →
        errorEncoder.Encode err ptr w = (ptr, { buf := w.buf, Error := some err })) ∧
      (∀ e0, w.Error = some e0 → errorEncoder.Encode err ptr w = (ptr, w))) := by
  have hsliceE : typ.Kind = Kind.Slice →
      ∃ enc seen2,
        createEncoderOfArray C cfg (encoderOfType C cfg fuel) (Schema.Array items) typ seenE
          = some (ValEncoder.arrayEncoder (C.getBlockLength cfg) typ enc, seen2) := by
    intro hk
    obtain ⟨str, elem, rfl⟩ := GoType.Kind_Slice typ hk
    obtain ⟨⟨enc, seen2⟩, he⟩ := encoderOfType_returns C cfg fuel items elem seenE (by omega)
    exact ⟨enc, seen2, by simp [createEncoderOfArray, encoderOfArray, he, GoType.Kind]⟩
  have hsliceD : typ.Kind = Kind.Slice → ReceiverDefined C items →
      ∃ dec seen1,
        createDecoderOfArray (decoderOfType C cfg fuel) (Schema.Array items) typ seenD
          = some (ValDecoder.arrayDecoder typ dec, seen1) := by
    intro hk hG
    obtain ⟨str, elem, rfl⟩ := GoType.Kind_Slice typ hk
    obtain ⟨⟨dec, seen1⟩, hd⟩ := decoderOfType_returns C cfg fuel items elem seenD hG
      (by split_ifs <;> omega)
    exact ⟨dec, seen1, by simp [createDecoderOfArray, decoderOfArray, hd, GoType.Kind]⟩
  have hother : typ.Kind ≠ Kind.Slice →
      createDecoderOfArray (decoderOfType C cfg fuel) (Schema.Array items) typ seenD
        = some (ValDecoder.errorDecoder (GoError.leaf
            ("avro: " ++ typ.String ++ " is unsupported for Avro array")), seenD) ∧
      createEncoderOfArray C cfg (encoderOfType C cfg fuel) (Schema.Array items) typ seenE
        = some (ValEncoder.errorEncoder (GoError.leaf
            ("avro: " ++ typ.String ++ " is unsupported for Avro array")), seenE) := by
    intro hk
    constructor
    · simp only [createDecoderOfArray, hk, if_false, Schema.Type, schemaTypeName,
        String.append_assoc]
      rfl
    · simp only [createEncoderOfArray, hk, if_false, Schema.Type, schemaTypeName,
        String.append_assoc]
      rfl
  refine ⟨fun hk => ⟨hsliceE hk, hsliceD hk⟩, hother, ?_, ?_, ?_, ?_, ?_⟩
  · rintro ⟨dec, seen1, h⟩
    by_contra hk
    rw [(hother hk).1] at h
    simp at h
  · constructor
    · rintro ⟨enc, seen2, h⟩
      by_contra hk
      rw [(hother hk).2] at h
      simp at h
    · exact hsliceE
  · intro hm hu hg fuel2 str
    simp [createDecoderOfArray, decoderOfArray, GoType.Kind,
      decoderOfType_no_receiver C cfg items seenD hm hu hg fuel2]
  · intro μ err ptr r
    constructor
    · intro h; simp [errorDecoder.Decode, h]
    · intro e0 h; simp [errorDecoder.Decode, h]
  · intro μ err ptr w
    constructor
    · intro h; simp [errorEncoder.Encode, h]
    · intro e0 h; simp [errorEncoder.Encode, h]

/-- Witness of C8: an array of longs built for `[]int64` gives the block container codec,
and built for `int64` gives the error codec; an array of nulls built for a slice of empty
interfaces gives no decoder for any fuel, while its encoder is built. -/
theorem createOfArray_deferred_failure_witness :
    (createDecoderOfArray (decoderOfType stubCollaborators { BlockLength := 0 } 2)
          (Schema.Array (Schema.Primitive PrimitiveKind.Long)) int64Type []
        = some (ValDecoder.errorDecoder (GoError.leaf
            ("avro: " ++ int64Type.String ++ " is unsupported for Avro array")), []) ∧
      createEncoderOfArray stubCollaborators { BlockLength := 0 }
          (encoderOfType stubCollaborators { BlockLength := 0 } 2)
          (Schema.Array (Schema.Primitive PrimitiveKind.Long)) int64Type []
        = some (ValEncoder.errorEncoder (GoError.leaf
            ("avro: " ++ int64Type.String ++ " is unsupported for Avro array")), [])) ∧
    (∀ (fuel2 : Nat) (str : String),
      createDecoderOfArray (decoderOfType stubCollaborators { BlockLength := 0 } fuel2)
        (Schema.Array Schema.Null) (GoType.slice str GoType.eface) [] = none) ∧
    createEncoderOfArray stubCollaborators { BlockLength := 0 }
        (encoderOfType stubCollaborators { BlockLength := 0 } 2)
        (Schema.Array Schema.Null) (GoType.slice "[]interface \x7b\x7d" GoType.eface) []
      = some (ValEncoder.arrayEncoder 100 (GoType.slice "[]interface \x7b\x7d" GoType.eface)
          (ValEncoder.interfaceEncoder Schema.Null GoType.eface), []) ∧
    createDecoderOfArray (decoderOfType stubCollaborators { BlockLength := 0 } 2)
        (Schema.Array (Schema.Primitive PrimitiveKind.Long)) int64SliceType []
      = some (ValDecoder.arrayDecoder int64SliceType (ValDecoder.foreign 1), []) ∧
    createEncoderOfArray stubCollaborators { BlockLength := 0 }
        (encoderOfType stubCollaborators { BlockLength := 0 } 2)
        (Schema.Array (Schema.Primitive PrimitiveKind.Long)) int64SliceType []
      = some (ValEncoder.arrayEncoder 100 int64SliceType (ValEncoder.foreign 1), []) ∧
    createDecoderOfArray (decoderOfType stubCollaborators { BlockLength := 0 } 2)
        (Schema.Array (Schema.Primitive PrimitiveKind.Long)) int64Type []
      = some (ValDecoder.errorDecoder
          (GoError.leaf "avro: int64 is unsupported for Avro array"), []) :=
  ⟨(createOfArray_deferred_failure stubCollaborators { BlockLength := 0 }
      2 (Schema.Primitive PrimitiveKind.Long) int64Type
      [] [] (by decide)).2.1 (by decide),
   (createOfArray_deferred_failure stubCollaborators { BlockLength := 0 }
      2 Schema.Null int64Type [] [] (by decide)).2.2.2.2.1 rfl (by decide) rfl,
   by decide, by decide, by decide, by decide⟩

/-! ## Default value materializer -/

/-- Claim C9: when the field's default encodes to the bytes `d`, `createDefaultDecoder`
returns the `defaultDecoder` holding `d` and the field's ordinary decoder, and its `Decode`
leaves in the destination exactly what the ordinary decoder produces on a fresh reader over
`d`, while the caller's reader comes back unchanged, whatever it holds. -/
theorem defaultDecoder_substitution {μ : Type} (C : Collaborators) (cfg : frozenConfig)
    (run : ValEncoder → Nat → Writer → Writer) (exec : ValDecoder → μ → Reader → μ × Reader)
    (fuel : Nat) (field field1 : Field) (typ : GoType) (seen seen1 : seenDecoderStructCache)
    (d : List Byte) (fieldDec : ValDecoder)
    (henc : field.encodeDefault (createDefaultDecoder.fn C cfg run fuel field)
      = some (Except.ok d, field1))
    (hdec : decoderOfType C cfg fuel field.typ typ seen = some (fieldDec, seen1)) :
    createDefaultDecoder C cfg run fuel field typ seen
      = some (ValDecoder.defaultDecoder d fieldDec, seen1, field1) ∧
    ∀ (ptr : μ) (r : Reader),
      defaultDecoder.Decode { data := d, decoder := exec fieldDec } ptr r
        = ((exec fieldDec ptr { buf := d, Error := none }).1, r) := by
  constructor
  · simp [createDefaultDecoder, henc, hdec]
  · intro ptr r
    rfl

/-- Witness of C9: the long default 7 encodes to the byte 14; decoding the default into a
slot holding 0 gives 7 and the live reader over `[99]` is untouched. -/
theorem defaultDecoder_substitution_witness :
    (createDefaultDecoder stubCollaborators { BlockLength := 0 } stubRun 1 longField int64Type []
        = some (ValDecoder.defaultDecoder [14] (ValDecoder.foreign 1), [],
            { longField with encodedDef := some [14] }) ∧
      ∀ (ptr : Int) (r : Reader),
        defaultDecoder.Decode { data := [14], decoder := stubExec (ValDecoder.foreign 1) } ptr r
          = ((stubExec (ValDecoder.foreign 1) ptr { buf := [14], Error := none }).1, r)) ∧
    defaultDecoder.Decode { data := [14], decoder := stubExec (ValDecoder.foreign 1) } 0
        { buf := [99], Error := none }
      = (7, { buf := [99], Error := none }) :=
  ⟨defaultDecoder_substitution stubCollaborators { BlockLength := 0 } stubRun stubExec 1
    longField { longField with encodedDef := some [14] } int64Type [] [] [14]
    (ValDecoder.foreign 1) (by rfl) (by decide), by decide⟩

theorem createDefaultDecoder_fn_eq (C : Collaborators) (cfg : frozenConfig)
    (run : ValEncoder → Nat → Writer → Writer) (fuel : Nat) (field : Field) (dflt : GoAny)
    (enc : ValEncoder) (seenE : seenEncoderStructCache)
    (h : encoderOfType C cfg fuel field.typ (createDefaultDecoder.defaultType dflt) []
      = some (enc, seenE)) :
    createDefaultDecoder.fn C cfg run fuel field dflt
      = match (defaultScratch run enc dflt).Error with
        | some err => some (Except.error err)
        | none => some (Except.ok (defaultScratch run enc dflt).buf) := by
  simp only [createDefaultDecoder.fn, h, defaultScratch]

/-- Claim C10: `createDefaultDecoder`.  With the default bytes already cached the result is
the `defaultDecoder` over them and the field's decoder.  On first need it runs the encoder
built for the default on a scratch writer: if that leaves an error `e`, the result is the
error codec whose error wraps `e` as "decode default: e", which only its `Decode` puts on the
reader, the destination untouched; if it leaves none, the result is the `defaultDecoder`
holding exactly the bytes written, which are also cached.  The result is an error codec only
in the first of these cases.  A codec is returned (once the fuel covers the field schema)
when every schema node reached has a generic receiver; but for an empty-interface destination
and a field schema without generic receiver, the build of the field's decoder dereferences
the nil receiver type: with the bytes cached or the default encoded without error, nothing is
returned, whatever the fuel. -/
theorem createDefaultDecoder_deferred_failure (C : Collaborators) (cfg : frozenConfig)
    (run : ValEncoder → Nat → Writer → Writer) (fuel : Nat)
    (field : Field) (typ : GoType) (seen : seenDecoderStructCache)
    (hfuel : 2 * field.typ.depth + 1 < fuel) :
    (ReceiverDefined C field.typ →
      ∃ res, createDefaultDecoder C cfg run fuel field typ seen = some res) ∧
    (∀ b, field.encodedDef = some b →
      (∀ dec seen1, decoderOfType C cfg fuel field.typ typ seen = some (dec, seen1) →
        createDefaultDecoder C cfg run fuel field typ seen
          = some (ValDecoder.defaultDecoder b dec, seen1, field)) ∧
      (ReceiverDefined C field.typ →
        ∃ dec seen1, decoderOfType C cfg fuel field.typ typ seen = some (dec, seen1))) ∧
    (field.encodedDef = none →
      ∃ enc seenE,
        encoderOfType C cfg fuel field.typ (createDefaultDecoder.defaultType field.Default) []
          = some (enc, seenE) ∧
        (∀ e, (defaultScratch run enc field.Default).Error
            = some e →
          createDefaultDecoder C cfg run fuel field typ seen
            = some (ValDecoder.errorDecoder (GoError.wrap "decode default" e), seen, field) ∧
          (GoError.wrap "decode default" e).Error = "decode default: " ++ e.Error) ∧
        ((defaultScratch run enc field.Default).Error
            = none →
          (∀ dec seen1, decoderOfType C cfg fuel field.typ typ seen = some (dec, seen1) →
            createDefaultDecoder C cfg run fuel field typ seen
              = some (ValDecoder.defaultDecoder
                  (defaultScratch run enc field.Default).buf dec, seen1,
                  { field with encodedDef := some (defaultScratch run enc field.Default).buf })) ∧
          (ReceiverDefined C field.typ →
            ∃ dec seen1, decoderOfType C cfg fuel field.typ typ seen = some (dec, seen1))) ∧
        ((∃ err seen1 field1, createDefaultDecoder C cfg run fuel field typ seen
            = some (ValDecoder.errorDecoder err, seen1, field1)) ↔
          ∃ e, (defaultScratch run enc field.Default).Error
            = some e)) ∧
    (typ = GoType.eface → C.createDecoderOfMarshaler cfg field.typ GoType.eface = none →
      field.typ.Type ≠ SchemaType.Union → C.genericReceiver field.typ = none →
      ∀ fuel2,
        (∀ b, field.encodedDef = some b →
          createDefaultDecoder C cfg run fuel2 field typ seen = none) ∧
        (∀ enc seenE, field.encodedDef = none →
          encoderOfType C cfg fuel2 field.typ
            (createDefaultDecoder.defaultType field.Default) [] = some (enc, seenE) →
          (defaultScratch run enc field.Default).Error = none →
          createDefaultDecoder C cfg run fuel2 field typ seen = none)) ∧
    (∀ (μ : Type) (e : GoError) (ptr : μ) (r : Reader), r.Error = none →
      errorDecoder.Decode (GoError.wrap "decode default" e) ptr r
        = (ptr, { buf := r.buf, Error := some (GoError.wrap "decode default" e) })) := by
  obtain ⟨⟨enc, seenE⟩, henc⟩ := encoderOfType_returns C cfg fuel field.typ
    (createDefaultDecoder.defaultType field.Default) [] (by omega)
  have hfn := createDefaultDecoder_fn_eq C cfg run fuel field field.Default enc seenE henc
  have hret : ReceiverDefined C field.typ →
      ∃ dec seen1, decoderOfType C cfg fuel field.typ typ seen = some (dec, seen1) := by
    intro hG
    obtain ⟨⟨dec, seen1⟩, hdec⟩ := decoderOfType_returns C cfg fuel field.typ typ seen hG
      (by split_ifs <;> omega)
    exact ⟨dec, seen1, hdec⟩
  have hcached : ∀ b dec seen1, field.encodedDef = some b →
      decoderOfType C cfg fuel field.typ typ seen = some (dec, seen1) →
      createDefaultDecoder C cfg run fuel field typ seen
        = some (ValDecoder.defaultDecoder b dec, seen1, field) := by
    intro b dec seen1 hb hdec
    simp [createDefaultDecoder, Field.encodeDefault, hb, hdec]
  have herr : ∀ e, field.encodedDef = none →
      (defaultScratch run enc field.Default).Error
        = some e →
      createDefaultDecoder C cfg run fuel field typ seen
        = some (ValDecoder.errorDecoder (GoError.wrap "decode default" e), seen, field) := by
    intro e hn he
    rw [he] at hfn
    simp [createDefaultDecoder, Field.encodeDefault, hn, hfn]
  have hokEq : field.encodedDef = none →
      (defaultScratch run enc field.Default).Error = none →
      createDefaultDecoder C cfg run fuel field typ seen
        = match decoderOfType C cfg fuel field.typ typ seen with
          | some (decoder, seen1) =>
            some (ValDecoder.defaultDecoder (defaultScratch run enc field.Default).buf decoder,
              seen1,
              { field with encodedDef := some (defaultScratch run enc field.Default).buf })
          | none => none := by
    intro hn he
    rw [he] at hfn
    simp [createDefaultDecoder, Field.encodeDefault, hn, hfn]
  have hok : ∀ dec seen1, field.encodedDef = none →
      (defaultScratch run enc field.Default).Error = none →
      decoderOfType C cfg fuel field.typ typ seen = some (dec, seen1) →
      createDefaultDecoder C cfg run fuel field typ seen
        = some (ValDecoder.defaultDecoder
            (defaultScratch run enc field.Default).buf dec, seen1,
            { field with encodedDef := some (defaultScratch run enc field.Default).buf }) := by
    intro dec seen1 hn he hdec
    rw [hokEq hn he, hdec]
  refine ⟨?_, fun b hb => ⟨fun dec seen1 hdec => hcached b dec seen1 hb hdec, hret⟩, ?_, ?_, ?_⟩
  · intro hG
    obtain ⟨dec, seen1, hdec⟩ := hret hG
    cases hc : field.encodedDef with
    | some b => exact ⟨_, hcached b dec seen1 hc hdec⟩
    | none =>
      cases he : (defaultScratch run enc field.Default).Error with
      | some e => exact ⟨_, herr e hc he⟩
      | none => exact ⟨_, hok dec seen1 hc he hdec⟩
  · intro hn
    refine ⟨enc, seenE, henc, fun e he => ⟨herr e hn he, rfl⟩,
      fun he => ⟨fun dec seen1 hdec => hok dec seen1 hn he hdec, hret⟩, ?_⟩
    constructor
    · rintro ⟨err, s1, f1, h⟩
      cases he : (defaultScratch run enc field.Default).Error with
      | some e => exact ⟨e, rfl⟩
      | none =>
        rw [hokEq hn he] at h
        cases hd : decoderOfType C cfg fuel field.typ typ seen with
        | none => rw [hd] at h; simp at h
        | some p => rw [hd] at h; simp at h
    · rintro ⟨e, he⟩
      exact ⟨_, _, _, herr e hn he⟩
  · intro ht hm hu hg fuel2
    subst ht
    have hnone := decoderOfType_no_receiver C cfg field.typ seen hm hu hg fuel2
    constructor
    · intro b hb
      simp [createDefaultDecoder, Field.encodeDefault, hb, hnone]
    · intro enc2 seenE2 hn henc2 he
      have hfn2 := createDefaultDecoder_fn_eq C cfg run fuel2 field field.Default enc2 seenE2
        henc2
      rw [he] at hfn2
      simp [createDefaultDecoder, Field.encodeDefault, hn, hfn2, hnone]
  · intro μ e ptr r hr
    simp [errorDecoder.Decode, hr]

/-- Witness of C10: the default of `badField` cannot be encoded, so the field's decoder is
the error codec wrapping the encoder's error; the default of `longField` encodes to the byte
14, which the returned codec holds; for the null field and an empty-interface destination
nothing is returned, with the default bytes cached for every fuel, and on first need. -/
theorem createDefaultDecoder_deferred_failure_witness :
    (∃ res, createDefaultDecoder stubCollaborators { BlockLength := 0 } stubRun 2 badField
      int64Type [] = some res) ∧
    (∀ fuel2, createDefaultDecoder stubCollaborators { BlockLength := 0 } quietRun fuel2
      { nullField with encodedDef := some [] } GoType.eface [] = none) ∧
    createDefaultDecoder stubCollaborators { BlockLength := 0 } quietRun 2 nullField
      GoType.eface [] = none ∧
    createDefaultDecoder stubCollaborators { BlockLength := 0 } stubRun 2 badField int64Type []
      = some (ValDecoder.errorDecoder
          (GoError.wrap "decode default" (GoError.leaf "avro: cannot encode")), [], badField) ∧
    (GoError.wrap "decode default" (GoError.leaf "avro: cannot encode")).Error
      = "decode default: avro: cannot encode" ∧
    createDefaultDecoder stubCollaborators { BlockLength := 0 } stubRun 2 longField int64Type []
      = some (ValDecoder.defaultDecoder [14] (ValDecoder.foreign 1), [],
          { longField with encodedDef := some [14] }) :=
  ⟨(createDefaultDecoder_deferred_failure stubCollaborators { BlockLength := 0 } stubRun
      2 badField int64Type [] (by decide)).1
      (by intro s hs hu; simp [Schema.reached, badField] at hs; subst hs; exact ⟨_, rfl, by decide⟩),
   fun fuel2 => ((createDefaultDecoder_deferred_failure stubCollaborators { BlockLength := 0 }
      quietRun 2 { nullField with encodedDef := some [] } GoType.eface [] (by decide)).2.2.2.1
      rfl rfl (by decide) rfl fuel2).1 [] rfl,
   ((createDefaultDecoder_deferred_failure stubCollaborators { BlockLength := 0 }
      quietRun 2 nullField GoType.eface [] (by decide)).2.2.2.1
      rfl rfl (by decide) rfl 2).2 _ _ rfl rfl rfl,
   by decide, by decide, by decide⟩

/-! ## Build scope registration -/

theorem seenCache_lookup_cons (m : List (String × Nat)) (name s : String) (c : Nat) :
    ((name, c) :: m).lookup s = if s = name then some c else m.lookup s := by
  by_cases h : s = name
  · subst h; simp [List.lookup]
  · have hb : (s == name) = false := by simpa using h
    simp [List.lookup, hb, h]

/-- Claim C20: `seenDecoderStructCache.Add` and `seenEncoderStructCache.Add`, for every map
`m`, name `s` and codec `c`.  If `s` is absent, `Add` returns nil and the map then holds `c`
under `s` and every other name as before; if `s` is present with `c0`, `Add` returns `c0` and
the map is unchanged.  Hence a codec registered under a name is never overwritten, and every
later `Add` for that name returns the codec registered first. -/
theorem seenStructCache_Add_registers (m : List (String × Nat)) (s : String) (c : Nat) :
    (m.lookup s = none →
      (seenDecoderStructCache.Add m s c).1 = none ∧
      (seenDecoderStructCache.Add m s c).2.lookup s = some c ∧
      (∀ s', s' ≠ s → (seenDecoderStructCache.Add m s c).2.lookup s' = m.lookup s') ∧
      (seenEncoderStructCache.Add m s c).1 = none ∧
      (seenEncoderStructCache.Add m s c).2.lookup s = some c ∧
      (∀ s', s' ≠ s → (seenEncoderStructCache.Add m s c).2.lookup s' = m.lookup s') ∧
      (∀ c2, seenDecoderStructCache.Add (seenDecoderStructCache.Add m s c).2 s c2
        = (some c, (seenDecoderStructCache.Add m s c).2)) ∧
      (∀ c2, seenEncoderStructCache.Add (seenEncoderStructCache.Add m s c).2 s c2
        = (some c, (seenEncoderStructCache.Add m s c).2))) ∧
    (∀ c0, m.lookup s = some c0 →
      seenDecoderStructCache.Add m s c = (some c0, m) ∧
      seenEncoderStructCache.Add m s c = (some c0, m) ∧
      (∀ s' c', (seenDecoderStructCache.Add m s' c').2.lookup s = some c0) ∧
      (∀ s' c', (seenEncoderStructCache.Add m s' c').2.lookup s = some c0)) := by
  constructor
  · intro h
    have hd : seenDecoderStructCache.Add m s c = (none, (s, c) :: m) := by
      simp [seenDecoderStructCache.Add, h]
    have he : seenEncoderStructCache.Add m s c = (none, (s, c) :: m) := by
      simp [seenEncoderStructCache.Add, h]
    have hl : ((s, c) :: m).lookup s = some c := by rw [seenCache_lookup_cons]; simp
    have ho : ∀ s', s' ≠ s → ((s, c) :: m).lookup s' = m.lookup s' := by
      intro s' hs; rw [seenCache_lookup_cons]; simp [hs]
    rw [hd, he]
    refine ⟨rfl, hl, ho, rfl, hl, ho, ?_, ?_⟩
    · intro c2; simp only [seenDecoderStructCache.Add, hl]
    · intro c2; simp only [seenEncoderStructCache.Add, hl]
  · intro c0 h
    refine ⟨by simp [seenDecoderStructCache.Add, h], by simp [seenEncoderStructCache.Add, h],
      ?_, ?_⟩
    · intro s' c'
      unfold seenDecoderStructCache.Add
      cases hs : m.lookup s' with
      | some f => exact h
      | none =>
        simp only
        rw [seenCache_lookup_cons]
        have : s ≠ s' := by intro e; rw [e, hs] at h; exact absurd h (by simp)
        simp [this, h]
    · intro s' c'
      unfold seenEncoderStructCache.Add
      cases hs : m.lookup s' with
      | some f => exact h
      | none =>
        simp only
        rw [seenCache_lookup_cons]
        have : s ≠ s' := by intro e; rw [e, hs] at h; exact absurd h (by simp)
        simp [this, h]

/-! ## First error wins -/

/-- Claim C14, at the failing input: on a slot holding nil and a writer that already holds
the error "first", `dereferenceEncoder.Encode` replaces that error by
"avro: cannot encode nil pointer".  `errorEncoder.Encode` and `errorDecoder.Decode` keep an
error already held, and on a slot holding an address `dereferenceEncoder.Encode` is the inner
encoder alone. -/
theorem dereferenceEncoder_Encode_overwrites_error :
    (longPtrEncoder.Encode none [] { buf := [7], Error := some (GoError.leaf "first") }).1
      = { buf := [7], Error := some (GoError.leaf "avro: cannot encode nil pointer") } ∧
    (∀ (μ : Type) (err e0 : GoError) (ptr : μ) (w : Writer), w.Error = some e0 →
      (errorEncoder.Encode err ptr w).2.Error = some e0) ∧
    (∀ (μ : Type) (err e0 : GoError) (ptr : μ) (r : Reader), r.Error = some e0 →
      (errorDecoder.Decode err ptr r).2.Error = some e0) ∧
    (∀ (d : dereferenceEncoder Int) (p : Nat) (heap : Heap Int) (w : Writer),
      (d.Encode (some p) heap w).1 = d.encoder (heap.getD p default) w) := by
  refine ⟨by decide, ?_, ?_, fun _ _ _ _ => rfl⟩
  · intro μ err e0 ptr w h
    simp [errorEncoder.Encode, h]
  · intro μ err e0 ptr r h
    simp [errorDecoder.Decode, h]

/-! ## Default value materializer: errors of the field decoder -/

/-- Claim C15, at the failing input: the field decoder is the error codec built for an
unsupported native type, which reports its error on the scratch reader over the default
bytes; after `defaultDecoder.Decode` the caller's reader holds no error.  For every field
decoder the caller's reader comes back as it was. -/
theorem defaultDecoder_Decode_drops_error :
    (errorDecoder.Decode unsupportedError (0 : Int) (borrowReader [14])).2.Error
      = some unsupportedError ∧
    defaultDecoder.Decode { data := [14], decoder := errorDecoder.Decode unsupportedError }
        (0 : Int) { buf := [1], Error := none }
      = (0, { buf := [1], Error := none }) ∧
    (∀ (μ : Type) (d : defaultDecoder μ) (ptr : μ) (r : Reader),
      (defaultDecoder.Decode d ptr r).2 = r) := by
  refine ⟨by decide, by decide, fun _ _ _ _ => rfl⟩

/-! ## Block container codec: after a failing item -/

/-- Claim C16, at the failing input: with block length 1 and the items `[-1, 5]`, the item at
index 0 leaves a hard error; `arrayEncoder.Encode` still hands the item at index 1 to the item
encoder (whose bytes reach the buffer, in a block of declared count 0) and the writer ends
with the item's error wrapped three times.  With one chunk, `[1, -1]` and block length 3,
the error is wrapped twice. -/
theorem arrayEncoder_Encode_continues_after_error :
    refusingArrayEncoder1.Encode 3 (Slice.ofList [-1, 5]) { buf := [], Error := none }
      = some ({ buf := [0, 0, 10, 0],
                Error := some (GoError.wrap "[]int64" (GoError.wrap "[]int64"
                  (GoError.wrap "[]int64" (GoError.leaf "avro: negative item")))) },
              [0, 1], [0, 0]) ∧
    (refusingItemEncoder (-1) { buf := [], Error := none }).Error
      = some (GoError.leaf "avro: negative item") ∧
    refusingArrayEncoder.Encode 2 (Slice.ofList [1, -1]) { buf := [], Error := none }
      = some ({ buf := [2, 2, 0],
                Error := some (GoError.wrap "[]int64" (GoError.wrap "[]int64"
                  (GoError.leaf "avro: negative item"))) },
              [0, 1], [1]) := by
  decide

/-! ## Block container codec: prior contents of the destination -/

theorem arrayDecoder_Decode_overwrites_prior {α : Type} [Inhabited α] (d : arrayDecoder α)
    (bytes : α → List Byte) (hD : DecodesFrom d.decoder bytes) (rest : List Byte)
    (blocks : List (List α)) (hne : blocks ≠ []) (hc : ∀ c ∈ blocks, 1 ≤ c.length)
    (dst : Slice α) (hdst : dst.WF) (fuel : Nat) (hfuel : blocks.length < fuel) :
    ∃ dst' : Slice α,
      d.Decode fuel dst
          { buf := blocks.flatMap (blockBytes bytes) ++ (longBytes 0 ++ rest), Error := none }
        = some (dst', { buf := rest, Error := none },
            (List.range blocks.flatten.length).map Int.ofNat) ∧
      dst'.toList = blocks.flatten ∧ dst'.Len = (blocks.map List.length).sum := by
  obtain ⟨dst', hrun, _, hcons⟩ := blocks_ok d bytes hD rest blocks hc fuel 0 dst [] hdst
    (Nat.zero_le _) hfuel
  obtain ⟨_, hl, ht⟩ := hcons hne
  refine ⟨dst', ?_, by simpa using ht, ?_⟩
  · simpa [arrayDecoder.Decode, List.range_eq_range'] using hrun
  · rw [hl, List.length_flatten]; simp

/-- Claim C19, at the failing input: the encoded empty array is the single byte 0, and
decoding it into a slice that holds `[9, 9, 9]` leaves the slice as it was, three elements
long, not empty.  (For a stream with at least one block the destination does end up as the
decoded items, whatever it held: `arrayDecoder_Decode_overwrites_prior`.) -/
theorem arrayDecoder_Decode_empty_keeps_prior :
    longArrayEncoder.Encode 1 (Slice.ofList []) { buf := [], Error := none }
      = some ({ buf := [0], Error := none }, [], []) ∧
    longArrayDecoder.Decode 1 { Data := [9, 9, 9], Len := 3 } { buf := [0], Error := none }
      = some ({ Data := [9, 9, 9], Len := 3 }, { buf := [], Error := none }, []) ∧
    (Slice.toList ({ Data := [9, 9, 9], Len := 3 } : Slice Int)) = [9, 9, 9] ∧
    longArrayDecoder.Decode 2 { Data := [9, 9, 9], Len := 3 } { buf := [2, 14, 0], Error := none }
      = some ({ Data := [7, 9, 9], Len := 1 }, { buf := [], Error := none }, [0]) := by
  decide

/-! ## Block container codec: failing items and end of input while decoding -/

theorem items_first_failure {α : Type} [Inhabited α] (d : arrayDecoder α) :
    ∀ (k n j : Nat) (s : Slice α) (r : Reader) (calls : List Int), k < n →
      (∀ t, t < k → hardError (decodeRun d.decoder (t + 1) j s r).2.Error = false) →
      hardError (decodeRun d.decoder (k + 1) j s r).2.Error = true →
      arrayDecoder.items d n j s r calls
        = { slice := (decodeRun d.decoder (k + 1) j s r).1,
            r := { buf := (decodeRun d.decoder (k + 1) j s r).2.buf,
                   Error := wrapError d.typ (decodeRun d.decoder (k + 1) j s r).2.Error },
            calls := calls ++ (List.range' j (k + 1)).map Int.ofNat,
            returned := true } := by
  intro k
  induction k with
  | zero =>
    intro n j s r calls hn _ hfail
    obtain ⟨n', rfl⟩ : ∃ n', n = n' + 1 := ⟨n - 1, by omega⟩
    simp only [decodeRun, Nat.zero_add] at hfail ⊢
    rw [arrayDecoder.items]
    simp [hfail]
  | succ k ih =>
    intro n j s r calls hn hok hfail
    obtain ⟨n', rfl⟩ : ∃ n', n = n' + 1 := ⟨n - 1, by omega⟩
    have h0 := hok 0 (by omega)
    simp only [decodeRun, Nat.zero_add] at h0
    rw [decodeRun] at hfail ⊢
    have := ih n' (j + 1) (s.setIndex j (d.decoder (s.UnsafeGetIndex j) r).1)
      (d.decoder (s.UnsafeGetIndex j) r).2 (calls ++ [(j : Int)]) (by omega)
      (fun t ht => by
        have := hok (t + 1) (by omega)
        rw [decodeRun] at this
        exact this) hfail
    rw [arrayDecoder.items]
    simp only [h0, Bool.false_eq_true, if_false]
    rw [Nat.cast_succ] at this
    rw [this]
    simp [List.range'_succ]

theorem items_no_failure {α : Type} [Inhabited α] (d : arrayDecoder α) :
    ∀ (n j : Nat) (s : Slice α) (r : Reader) (calls : List Int),
      (∀ t, t < n → hardError (decodeRun d.decoder (t + 1) j s r).2.Error = false) →
      arrayDecoder.items d n j s r calls
        = { slice := (decodeRun d.decoder n j s r).1,
            r := (decodeRun d.decoder n j s r).2,
            calls := calls ++ (List.range' j n).map Int.ofNat,
            returned := false } := by
  intro n
  induction n with
  | zero =>
    intro j s r calls _
    simp [arrayDecoder.items, decodeRun]
  | succ n ih =>
    intro j s r calls hok
    have h0 := hok 0 (by omega)
    simp only [decodeRun, Nat.zero_add] at h0
    rw [decodeRun]
    have := ih (j + 1) (s.setIndex j (d.decoder (s.UnsafeGetIndex j) r).1)
      (d.decoder (s.UnsafeGetIndex j) r).2 (calls ++ [(j : Int)])
      (fun t ht => by
        have := hok (t + 1) (by omega)
        rw [decodeRun] at this
        exact this)
    rw [arrayDecoder.items]
    simp only [h0, Bool.false_eq_true, if_false]
    rw [Nat.cast_succ] at this
    rw [this]
    simp [List.range'_succ]

/-- Claim C17: in `arrayDecoder.Decode`, at any turn of the block loop (`size` items done),
if the block header read gives the count `l` and the item at offset `k` of that block, index
`size + k`, is the first to leave a hard error `e`, then `Decode` returns in this turn: the
items handed to the item decoder are those of index `size .. size + k` and no later one, the
reader is left where that item left it (no further header is read), and its error is `e`
wrapped once with the slice type's description. -/
theorem arrayDecoder_item_failure {α : Type} [Inhabited α] (d : arrayDecoder α)
    (fuel size : Nat) (s : Slice α) (r r1 : Reader) (calls : List Int) (l sz : Int) (k : Nat)
    (hhead : r.ReadBlockHeader = ((l, sz), r1)) (hk : (k : Int) < l)
    (hok : ∀ t, t < k → hardError (decodeRun d.decoder (t + 1) size
      (s.UnsafeGrow ((size : Int) + l).toNat) r1).2.Error = false)
    (hfail : hardError (decodeRun d.decoder (k + 1) size
      (s.UnsafeGrow ((size : Int) + l).toNat) r1).2.Error = true) :
    ∃ e, (decodeRun d.decoder (k + 1) size (s.UnsafeGrow ((size : Int) + l).toNat) r1).2.Error
        = some e ∧
      arrayDecoder.blocks d (fuel + 1) size s r calls
        = some ((decodeRun d.decoder (k + 1) size (s.UnsafeGrow ((size : Int) + l).toNat) r1).1,
            { buf := (decodeRun d.decoder (k + 1) size
                (s.UnsafeGrow ((size : Int) + l).toNat) r1).2.buf,
              Error := some (GoError.wrap d.typ e) },
            calls ++ (List.range' size (k + 1)).map Int.ofNat) := by
  have hit := items_first_failure d k l.toNat size (s.UnsafeGrow ((size : Int) + l).toNat) r1
    calls (by omega) hok hfail
  cases he : (decodeRun d.decoder (k + 1) size
      (s.UnsafeGrow ((size : Int) + l).toNat) r1).2.Error with
  | none => rw [he] at hfail; simp [hardError] at hfail
  | some e =>
    refine ⟨e, rfl, ?_⟩
    have hl : l ≠ 0 := by omega
    have hn : ((size : Int) + l - (size : Int)).toNat = l.toNat := by omega
    rw [he] at hit
    rw [arrayDecoder.blocks]
    simp only [hhead, hl, if_false, hn, hit, wrapError, if_true]

/-- Witness of C17: the stream holds one block of three longs `1, -1, 3`; the item at index 1
leaves a hard error, the item at index 2 is never decoded and its byte stays unread. -/
theorem arrayDecoder_item_failure_witness :
    (∃ e, (decodeRun refusingArrayDecoder.decoder (1 + 1) (0 : Nat)
        (Slice.UnsafeGrow { Data := [], Len := 0 } (((0 : Nat) : Int) + 3).toNat)
        { buf := [2, 1, 6, 0], Error := none }).2.Error = some e ∧
      arrayDecoder.blocks refusingArrayDecoder (0 + 1) (0 : Nat) { Data := [], Len := 0 }
          { buf := [6, 2, 1, 6, 0], Error := none } []
        = some ((decodeRun refusingArrayDecoder.decoder (1 + 1) (0 : Nat)
              (Slice.UnsafeGrow { Data := [], Len := 0 } (((0 : Nat) : Int) + 3).toNat)
              { buf := [2, 1, 6, 0], Error := none }).1,
            { buf := (decodeRun refusingArrayDecoder.decoder (1 + 1) (0 : Nat)
                (Slice.UnsafeGrow { Data := [], Len := 0 } (((0 : Nat) : Int) + 3).toNat)
                { buf := [2, 1, 6, 0], Error := none }).2.buf,
              Error := some (GoError.wrap refusingArrayDecoder.typ e) },
            [] ++ (List.range' 0 (1 + 1)).map Int.ofNat)) ∧
    refusingArrayDecoder.Decode 1 { Data := [], Len := 0 }
        { buf := [6, 2, 1, 6, 0], Error := none }
      = some ({ Data := [1, -1, 0], Len := 3 },
          { buf := [6, 0],
            Error := some (GoError.wrap "[]int64" (GoError.leaf "avro: negative item")) },
          [0, 1]) :=
  ⟨arrayDecoder_item_failure refusingArrayDecoder 0 0 { Data := [], Len := 0 }
    { buf := [6, 2, 1, 6, 0], Error := none } { buf := [2, 1, 6, 0], Error := none } [] 3 0 1
    (by decide) (by decide) (by decide) (by decide), by decide⟩

/-! ## Block container codec: end of input -/

/-- Counterexample to C13: the stream declares a block of three longs and ends inside the
second item.  The reader ends with the bare end-of-input signal, which is no hard error, and
the item at index 2 is still handed to the item decoder after the signal arose at index 1. -/
theorem arrayDecoder_eof_mid_item_counterexample :
    longArrayDecoder.Decode 2 { Data := [], Len := 0 } { buf := [6, 2], Error := none }
      = some ({ Data := [1, 0, 0], Len := 3 }, { buf := [], Error := some GoError.EOF },
          [0, 1, 2]) ∧
    (longItemDecoder 0 { buf := [], Error := none }).2.Error = some GoError.EOF ∧
    hardError (some GoError.EOF) = false := by
  decide

/-- Claim C13, amended: in `arrayDecoder.Decode`, input that ends at a block-header read stops
the decoding as a normal stream end, the reader holding the bare end-of-input signal and no
hard error.  When the signal arises while an item of a block is decoded, no hard error is
reported either: as long as no item leaves a hard error, every item of the block is handed to
the item decoder, and with an error then pending (the signal, unwrapped) the decoding stops
at the next header read, which reads nothing. -/
theorem arrayDecoder_end_of_input {α : Type} [Inhabited α] (d : arrayDecoder α)
    (fuel size : Nat) (s : Slice α) (r r1 : Reader) (calls : List Int) (l sz : Int) (e : GoError)
    (hhead : r.ReadBlockHeader = ((l, sz), r1)) (hl : 0 < l)
    (hok : ∀ t, t < l.toNat → hardError (decodeRun d.decoder (t + 1) size
      (s.UnsafeGrow ((size : Int) + l).toNat) r1).2.Error = false)
    (hend : (decodeRun d.decoder l.toNat size
      (s.UnsafeGrow ((size : Int) + l).toNat) r1).2.Error = some e) :
    (∀ (s0 : Slice α) (r0 : Reader), r0.Error = none → decodeInt r0.buf = none →
      arrayDecoder.blocks d (fuel + 1) size s0 r0 calls
        = some (s0, { buf := [], Error := some GoError.EOF }, calls) ∧
      hardError (some GoError.EOF) = false) ∧
    arrayDecoder.blocks d (fuel + 2) size s r calls
      = some ((decodeRun d.decoder l.toNat size (s.UnsafeGrow ((size : Int) + l).toNat) r1).1,
          (decodeRun d.decoder l.toNat size (s.UnsafeGrow ((size : Int) + l).toNat) r1).2,
          calls ++ (List.range' size l.toNat).map Int.ofNat) ∧
    e.isEOF = true ∧ hardError (some e) = false := by
  have hit := items_no_failure d l.toNat size (s.UnsafeGrow ((size : Int) + l).toNat) r1
    calls hok
  have hlast := hok (l.toNat - 1) (by omega)
  have hsucc : l.toNat - 1 + 1 = l.toNat := by omega
  rw [hsucc, hend] at hlast
  have hl0 : l ≠ 0 := by omega
  have hn : ((size : Int) + l - (size : Int)).toNat = l.toNat := by omega
  refine ⟨?_, ?_, by simpa [hardError] using hlast, hlast⟩
  · intro s0 r0 h0 hdec
    refine ⟨?_, rfl⟩
    have hh : r0.ReadBlockHeader = ((0, 0), { buf := [], Error := some GoError.EOF }) := by
      simp [Reader.ReadBlockHeader, Reader.ReadLong, h0, hdec]
    rw [arrayDecoder.blocks]
    simp [hh, hardError, GoError.isEOF]
  · generalize hres : decodeRun d.decoder l.toNat size
      (s.UnsafeGrow ((size : Int) + l).toNat) r1 = res at hit hend
    have hh2 : res.2.ReadBlockHeader = ((0, 0), res.2) := by
      simp [Reader.ReadBlockHeader, Reader.ReadLong, hend]
    rw [arrayDecoder.blocks]
    simp only [hhead, hl0, if_false, hn, hit, Bool.false_eq_true]
    rw [arrayDecoder.blocks]
    simp [hh2, hend, hlast]

/-- Witness of C13 amended: the stream of the counterexample, one block of three longs that
ends inside the second item. -/
theorem arrayDecoder_end_of_input_witness :
    arrayDecoder.blocks longArrayDecoder (0 + 2) (0 : Nat) { Data := [], Len := 0 }
        { buf := [6, 2], Error := none } []
      = some ((decodeRun longArrayDecoder.decoder (3 : Int).toNat (0 : Nat)
            (Slice.UnsafeGrow { Data := [], Len := 0 } (((0 : Nat) : Int) + 3).toNat)
            { buf := [2], Error := none }).1,
          (decodeRun longArrayDecoder.decoder (3 : Int).toNat (0 : Nat)
            (Slice.UnsafeGrow { Data := [], Len := 0 } (((0 : Nat) : Int) + 3).toNat)
            { buf := [2], Error := none }).2,
          [] ++ (List.range' 0 (3 : Int).toNat).map Int.ofNat) ∧
    ((GoError.EOF).isEOF = true ∧ hardError (some GoError.EOF) = false) ∧
    longArrayDecoder.Decode 1 { Data := [], Len := 0 } { buf := [], Error := none }
      = some ({ Data := [], Len := 0 }, { buf := [], Error := some GoError.EOF }, []) :=
  ⟨(arrayDecoder_end_of_input longArrayDecoder 0 0 { Data := [], Len := 0 }
    { buf := [6, 2], Error := none } { buf := [2], Error := none } [] 3 0 GoError.EOF
    (by decide) (by decide) (by decide) (by decide)).2.1,
   (arrayDecoder_end_of_input longArrayDecoder 0 0 { Data := [], Len := 0 }
    { buf := [6, 2], Error := none } { buf := [2], Error := none } [] 3 0 GoError.EOF
    (by decide) (by decide) (by decide) (by decide)).2.2, by decide⟩

/-! ## Block container codec: the chunk loop -/

theorem chunks_iterations {α : Type} [Inhabited α] (e : arrayEncoder α) (ptr : Slice α)
    (b : Nat) (hb : 1 ≤ b) (heb : e.blockLength = (b : Int)) :
    ∀ (fuel i : Nat) (calls counts : List Int) (w : Writer),
      ((ptr.Len - i + b - 1) / b < fuel →
        ∃ w' calls' counts',
          arrayEncoder.chunks e ptr (ptr.Len : Int) fuel (i : Int) calls counts w
            = some (w', calls', counts') ∧
          counts'.length = counts.length + (ptr.Len - i + b - 1) / b) ∧
      (fuel ≤ (ptr.Len - i + b - 1) / b →
        arrayEncoder.chunks e ptr (ptr.Len : Int) fuel (i : Int) calls counts w = none) := by
  intro fuel
  induction fuel with
  | zero =>
    intro i calls counts w
    exact ⟨fun h => absurd h (Nat.not_lt_zero _), fun _ => rfl⟩
  | succ fuel ih =>
    intro i calls counts w
    by_cases hi : (i : Int) < (ptr.Len : Int)
    · have hstep := ceil_step (ptr.Len - i) b hb (by omega)
      have h2 : ptr.Len - i - b = ptr.Len - (i + b) := by omega
      rw [h2] at hstep
      rcases hcb : w.WriteBlockCB (arrayEncoder.callback e ptr i ptr.Len
        ((ptr.Len : Int) - i).toNat i 0 calls) with ⟨res, w1⟩
      have hunf : arrayEncoder.chunks e ptr (ptr.Len : Int) (fuel + 1) (i : Int) calls counts w
          = arrayEncoder.chunks e ptr (ptr.Len : Int) fuel ((i + b : Nat) : Int) res.2
              (counts ++ [res.1]) w1 := by
        rw [arrayEncoder.chunks, if_pos hi, hcb, heb, Nat.cast_add]
      rw [hunf]
      obtain ⟨h1, h3⟩ := ih (i + b) res.2 (counts ++ [res.1]) w1
      constructor
      · intro hf
        obtain ⟨w', calls', counts', hrun, hlen⟩ := h1 (by omega)
        refine ⟨w', calls', counts', hrun, ?_⟩
        rw [hlen, List.length_append, List.length_singleton]
        omega
      · intro hf
        exact h3 (by omega)
    · have h0 : (ptr.Len - i + b - 1) / b = 0 := by
        have : ptr.Len - i = 0 := by omega
        rw [this]
        exact Nat.div_eq_of_lt (by omega)
      rw [h0]
      constructor
      · intro _
        exact ⟨w, calls, counts, by rw [arrayEncoder.chunks, if_neg hi], by simp⟩
      · intro hf
        omega

theorem chunks_never_ends {α : Type} [Inhabited α] (e : arrayEncoder α) (ptr : Slice α)
    (hb : e.blockLength ≤ 0) (hn : 1 ≤ ptr.Len) :
    ∀ (fuel : Nat) (i : Int) (calls counts : List Int) (w : Writer), i ≤ 0 →
      arrayEncoder.chunks e ptr (ptr.Len : Int) fuel i calls counts w = none := by
  intro fuel
  induction fuel with
  | zero => intro i calls counts w _; rfl
  | succ fuel ih =>
    intro i calls counts w hi
    have hlt : i < (ptr.Len : Int) := by omega
    rcases hcb : w.WriteBlockCB (arrayEncoder.callback e ptr i ptr.Len
      ((ptr.Len : Int) - i).toNat i 0 calls) with ⟨res, w1⟩
    rw [arrayEncoder.chunks, if_pos hlt, hcb]
    exact ih (i + e.blockLength) res.2 (counts ++ [res.1]) w1 (by omega)

/-- Claim C18: for a block length `b ≥ 1` and a sequence of length `n`, the chunk loop of
`arrayEncoder.Encode` ends after exactly `ceil(n/b)` turns: the encoder returns as soon as
the fuel allows `ceil(n/b) + 1` tests of the loop condition and not before, and one count is
returned a turn, `ceil(n/b)` in all; with items that encode without error the indices handed
to the item encoder are `0, 1, .., n-1`, each once, in this order.  For a block length of 0
or less and `n ≥ 1` the loop never ends (integers being unbounded): no fuel is enough. -/
theorem arrayEncoder_chunk_loop {α : Type} [Inhabited α] (e : arrayEncoder α) (ptr : Slice α)
    (w : Writer) (fuel : Nat) :
    (∀ b : Nat, 1 ≤ b → e.blockLength = (b : Int) →
      ((e.Encode fuel ptr w).isSome ↔ (ptr.Len + b - 1) / b < fuel) ∧
      (∀ w' calls counts, e.Encode fuel ptr w = some (w', calls, counts) →
        counts.length = (ptr.Len + b - 1) / b) ∧
      (∀ bytes, EncodesAs e.encoder bytes → ptr.WF → w.Error = none →
        ∀ w' calls counts, e.Encode fuel ptr w = some (w', calls, counts) →
          calls = (List.range ptr.Len).map Int.ofNat)) ∧
    (e.blockLength ≤ 0 → 1 ≤ ptr.Len → e.Encode fuel ptr w = none) := by
  constructor
  · intro b hb heb
    obtain ⟨hsome, hnone⟩ := chunks_iterations e ptr b hb heb fuel 0 [] [] w
    simp only [Nat.sub_zero, Nat.cast_zero, List.length_nil, Nat.zero_add] at hsome hnone
    refine ⟨?_, ?_, ?_⟩
    · constructor
      · intro h
        by_contra hlt
        have := hnone (by omega)
        simp [arrayEncoder.Encode, Slice.UnsafeLengthOf, this] at h
      · intro h
        obtain ⟨w', calls', counts', hrun, _⟩ := hsome h
        simp only [arrayEncoder.Encode, Slice.UnsafeLengthOf, hrun]
        split_ifs <;> rfl
    · intro w' calls counts hE
      by_cases hlt : (ptr.Len + b - 1) / b < fuel
      · obtain ⟨w1, calls1, counts1, hrun, hlen⟩ := hsome hlt
        simp only [arrayEncoder.Encode, Slice.UnsafeLengthOf, hrun] at hE
        split_ifs at hE <;> simp only [Option.some.injEq, Prod.mk.injEq] at hE <;>
          (rw [← hE.2.2]; exact hlen)
      · have := hnone (by omega)
        simp [arrayEncoder.Encode, Slice.UnsafeLengthOf, this] at hE
    · intro bytes hEnc hwf hw w' calls counts hE
      by_cases hlt : (ptr.Len + b - 1) / b < fuel
      · obtain ⟨blocks, _, hrun⟩ := Encode_ok e bytes hEnc b hb heb ptr hwf w hw fuel hlt
        rw [hrun] at hE
        simp only [Option.some.injEq, Prod.mk.injEq] at hE
        exact hE.2.1.symm
      · have := hnone (by omega)
        simp [arrayEncoder.Encode, Slice.UnsafeLengthOf, this] at hE
  · intro hb hn
    have := chunks_never_ends e ptr hb hn fuel 0 [] [] w (le_refl _)
    simp [arrayEncoder.Encode, Slice.UnsafeLengthOf, this]

/-- Witness of C18: three items with block length 2 need two turns, so the fuel 2 is not
enough and the fuel 3 is; with block length 0 even the fuel 50 is not enough. -/
theorem arrayEncoder_chunk_loop_witness :
    (((longArrayEncoder.Encode 3 (Slice.ofList [1, 2, 3]) { buf := [], Error := none }).isSome
        ↔ (3 + 2 - 1) / 2 < 3) ∧
      (∀ w' calls counts,
        longArrayEncoder.Encode 3 (Slice.ofList [1, 2, 3]) { buf := [], Error := none }
          = some (w', calls, counts) → counts.length = (3 + 2 - 1) / 2)) ∧
    longArrayEncoder.Encode 2 (Slice.ofList [1, 2, 3]) { buf := [], Error := none } = none ∧
    longArrayEncoder.Encode 3 (Slice.ofList [1, 2, 3]) { buf := [], Error := none }
      = some ({ buf := [4, 2, 4, 2, 6, 0], Error := none }, [0, 1, 2], [2, 1]) ∧
    zeroBlockEncoder.Encode 50 (Slice.ofList [1, 2, 3]) { buf := [], Error := none } = none :=
  ⟨⟨((arrayEncoder_chunk_loop longArrayEncoder (Slice.ofList [1, 2, 3])
        { buf := [], Error := none } 3).1 2 (by decide) rfl).1,
    ((arrayEncoder_chunk_loop longArrayEncoder (Slice.ofList [1, 2, 3])
        { buf := [], Error := none } 3).1 2 (by decide) rfl).2.1⟩,
    by decide, by decide,
    (arrayEncoder_chunk_loop zeroBlockEncoder (Slice.ofList [1, 2, 3])
      { buf := [], Error := none } 50).2 (by decide) (by decide)⟩

/-! ## Codec cache -/

theorem codecCache_lookup_cons {κ : Type} (m : List ((List Byte × GoType) × κ))
    (k k' : List Byte × GoType) (c : κ) :
    ((k, c) :: m).lookup k' = if k' = k then some c else m.lookup k' := by
  by_cases h : k' = k
  · subst h; simp [List.lookup]
  · have hb : (k' == k) = false := by simpa using h
    simp [List.lookup, hb, h]

theorem getDecoderFromCache_add (cache : CodecCache) (fp fp' : List Byte) (t t' : GoType)
    (dec : ValDecoder) :
    (cache.addDecoderToCache fp t dec).getDecoderFromCache fp' t'
      = if (fp', t') = (fp, t) then some dec else cache.getDecoderFromCache fp' t' := by
  simp only [CodecCache.getDecoderFromCache, CodecCache.addDecoderToCache]
  exact codecCache_lookup_cons _ _ _ _

theorem getEncoderFromCache_add (cache : CodecCache) (fp fp' : List Byte) (t t' : GoType)
    (enc : ValEncoder) :
    (cache.addEncoderToCache fp t enc).getEncoderFromCache fp' t'
      = if (fp', t') = (fp, t) then some enc else cache.getEncoderFromCache fp' t' := by
  simp only [CodecCache.getEncoderFromCache, CodecCache.addEncoderToCache]
  exact codecCache_lookup_cons _ _ _ _

theorem DecoderOf_hit (C : Collaborators) (F : SchemaIdentity) (cfg : frozenConfig)
    (fuel : Nat) (cache : CodecCache) (schema : Schema) (typ : GoType)
    (seen : seenDecoderStructCache) (dec : ValDecoder)
    (h : cache.getDecoderFromCache (F.CacheFingerprint schema) typ = some dec) :
    frozenConfig.DecoderOf C F cfg fuel cache schema typ seen
      = some { codec := dec, cache := cache, seen := seen, builds := 0 } := by
  simp only [frozenConfig.DecoderOf, h]

theorem DecoderOf_miss (C : Collaborators) (F : SchemaIdentity) (cfg : frozenConfig)
    (fuel : Nat) (cache : CodecCache) (schema : Schema) (str : String) (elem : GoType)
    (seen : seenDecoderStructCache)
    (h : cache.getDecoderFromCache (F.CacheFingerprint schema) (GoType.ptr str elem) = none) :
    frozenConfig.DecoderOf C F cfg fuel cache schema (GoType.ptr str elem) seen
      = (decoderOfType C cfg fuel schema elem seen).map (fun b =>
          { codec := b.1,
            cache := cache.addDecoderToCache (F.CacheFingerprint schema) (GoType.ptr str elem) b.1,
            seen := b.2, builds := 1 }) := by
  simp only [frozenConfig.DecoderOf, h]
  cases decoderOfType C cfg fuel schema elem seen with
  | none => rfl
  | some b => rfl

theorem EncoderOf_hit (C : Collaborators) (F : SchemaIdentity) (cfg : frozenConfig)
    (fuel : Nat) (cache : CodecCache) (schema : Schema) (typ : GoType)
    (seen : seenEncoderStructCache) (enc : ValEncoder)
    (h : cache.getEncoderFromCache (F.Fingerprint schema) typ = some enc) :
    frozenConfig.EncoderOf C F cfg fuel cache schema (some typ) seen
      = some { codec := enc, cache := cache, seen := seen, builds := 0 } := by
  simp only [frozenConfig.EncoderOf, h]

theorem EncoderOf_miss (C : Collaborators) (F : SchemaIdentity) (cfg : frozenConfig)
    (fuel : Nat) (cache : CodecCache) (schema : Schema) (typ : GoType)
    (seen : seenEncoderStructCache)
    (h : cache.getEncoderFromCache (F.Fingerprint schema) typ = none) :
    frozenConfig.EncoderOf C F cfg fuel cache schema (some typ) seen
      = (encoderOfType C cfg fuel schema typ seen).map (fun b =>
          { codec := if typ.LikePtr then ValEncoder.onePtrEncoder b.1 else b.1,
            cache := cache.addEncoderToCache (F.Fingerprint schema) typ
              (if typ.LikePtr then ValEncoder.onePtrEncoder b.1 else b.1),
            seen := b.2, builds := 1 }) := by
  simp only [frozenConfig.EncoderOf, h]
  cases encoderOfType C cfg fuel schema typ seen with
  | none => rfl
  | some b => rfl

/-- Claim C11: cache identity of `frozenConfig.DecoderOf` and `frozenConfig.EncoderOf`, the
codec cache being a map from (fingerprint, native type) to codec that only these calls write.
For every schema and pointer type `*elem` (for `EncoderOf` every type `typ`; a nil type is
`*avro.null`): when the pair is present the cached codec is returned, nothing is built and
the cache is unchanged; on a miss the builder runs once and the codec it returns is inserted
under the pair and returned; hence a second call for the pair on the cache the first call
left returns the same codec and builds nothing, and every pair cached before the call holds
the same codec after it.  The encoder is built as soon as the fuel covers the depth of the
schema, and so is the decoder when every schema node reached has a generic receiver; but on a
miss for a pointer to an empty interface and a schema without generic receiver, the build
dereferences the nil receiver type and `DecoderOf` returns nothing, whatever the fuel. -/
theorem codec_cache_identity (C : Collaborators) (F : SchemaIdentity) (cfg : frozenConfig)
    (cache : CodecCache) (schema : Schema) (str : String) (elem typ : GoType) :
    ((∀ fuel seen dec,
        cache.getDecoderFromCache (F.CacheFingerprint schema) (GoType.ptr str elem) = some dec →
        frozenConfig.DecoderOf C F cfg fuel cache schema (GoType.ptr str elem) seen
          = some { codec := dec, cache := cache, seen := seen, builds := 0 }) ∧
      (∀ fuel seen dec seen1,
        cache.getDecoderFromCache (F.CacheFingerprint schema) (GoType.ptr str elem) = none →
        decoderOfType C cfg fuel schema elem seen = some (dec, seen1) →
        frozenConfig.DecoderOf C F cfg fuel cache schema (GoType.ptr str elem) seen
          = some { codec := dec,
                   cache := cache.addDecoderToCache (F.CacheFingerprint schema)
                     (GoType.ptr str elem) dec,
                   seen := seen1, builds := 1 }) ∧
      (∀ fuel seen res,
        frozenConfig.DecoderOf C F cfg fuel cache schema (GoType.ptr str elem) seen = some res →
        res.builds ≤ 1 ∧
        res.cache.getDecoderFromCache (F.CacheFingerprint schema) (GoType.ptr str elem)
          = some res.codec ∧
        (∀ fuel2 seen2,
          frozenConfig.DecoderOf C F cfg fuel2 res.cache schema (GoType.ptr str elem) seen2
            = some { codec := res.codec, cache := res.cache, seen := seen2, builds := 0 }) ∧
        (∀ fp t d, cache.getDecoderFromCache fp t = some d →
          res.cache.getDecoderFromCache fp t = some d) ∧
        res.cache.encoderCache = cache.encoderCache) ∧
      (ReceiverDefined C schema → ∀ fuel seen, 2 * schema.depth + 1 < fuel →
        ∃ res, frozenConfig.DecoderOf C F cfg fuel cache schema (GoType.ptr str elem) seen
          = some res) ∧
      (elem = GoType.eface → C.createDecoderOfMarshaler cfg schema GoType.eface = none →
        schema.Type ≠ SchemaType.Union → C.genericReceiver schema = none →
        cache.getDecoderFromCache (F.CacheFingerprint schema) (GoType.ptr str elem) = none →
        ∀ fuel seen,
          frozenConfig.DecoderOf C F cfg fuel cache schema (GoType.ptr str elem) seen = none)) ∧
    ((∀ fuel seen enc,
        cache.getEncoderFromCache (F.Fingerprint schema) typ = some enc →
        frozenConfig.EncoderOf C F cfg fuel cache schema (some typ) seen
          = some { codec := enc, cache := cache, seen := seen, builds := 0 }) ∧
      (∀ fuel seen enc seen1,
        cache.getEncoderFromCache (F.Fingerprint schema) typ = none →
        encoderOfType C cfg fuel schema typ seen = some (enc, seen1) →
        frozenConfig.EncoderOf C F cfg fuel cache schema (some typ) seen
          = some { codec := if typ.LikePtr then ValEncoder.onePtrEncoder enc else enc,
                   cache := cache.addEncoderToCache (F.Fingerprint schema) typ
                     (if typ.LikePtr then ValEncoder.onePtrEncoder enc else enc),
                   seen := seen1, builds := 1 }) ∧
      (∀ fuel seen res,
        frozenConfig.EncoderOf C F cfg fuel cache schema (some typ) seen = some res →
        res.builds ≤ 1 ∧
        res.cache.getEncoderFromCache (F.Fingerprint schema) typ = some res.codec ∧
        (∀ fuel2 seen2,
          frozenConfig.EncoderOf C F cfg fuel2 res.cache schema (some typ) seen2
            = some { codec := res.codec, cache := res.cache, seen := seen2, builds := 0 }) ∧
        (∀ fp t e, cache.getEncoderFromCache fp t = some e →
          res.cache.getEncoderFromCache fp t = some e) ∧
        res.cache.decoderCache = cache.decoderCache) ∧
      (∀ fuel seen, schema.depth < fuel →
        ∃ res, frozenConfig.EncoderOf C F cfg fuel cache schema (some typ) seen = some res) ∧
      (∀ fuel seen, frozenConfig.EncoderOf C F cfg fuel cache schema none seen
        = frozenConfig.EncoderOf C F cfg fuel cache schema (some nullPtrType) seen)) := by
  refine ⟨⟨?_, ?_, ?_, ?_, ?_⟩, ⟨?_, ?_, ?_, ?_, ?_⟩⟩
  · intro fuel seen dec h
    exact DecoderOf_hit C F cfg fuel cache schema _ seen dec h
  · intro fuel seen dec seen1 h hb
    rw [DecoderOf_miss C F cfg fuel cache schema str elem seen h, hb]
    rfl
  · intro fuel seen res hres
    cases hget : cache.getDecoderFromCache (F.CacheFingerprint schema) (GoType.ptr str elem) with
    | some dec =>
      rw [DecoderOf_hit C F cfg fuel cache schema _ seen dec hget] at hres
      simp only [Option.some.injEq] at hres
      subst hres
      refine ⟨Nat.zero_le _, hget, ?_, fun _ _ _ h => h, rfl⟩
      intro fuel2 seen2
      exact DecoderOf_hit C F cfg fuel2 cache schema _ seen2 dec hget
    | none =>
      rw [DecoderOf_miss C F cfg fuel cache schema str elem seen hget] at hres
      cases hb : decoderOfType C cfg fuel schema elem seen with
      | none => rw [hb] at hres; simp at hres
      | some b =>
        rw [hb] at hres
        simp only [Option.map_some', Option.some.injEq] at hres
        subst hres
        have hnew : (cache.addDecoderToCache (F.CacheFingerprint schema) (GoType.ptr str elem)
            b.1).getDecoderFromCache (F.CacheFingerprint schema) (GoType.ptr str elem)
              = some b.1 := by
          rw [getDecoderFromCache_add]; simp
        refine ⟨le_refl _, hnew, ?_, ?_, rfl⟩
        · intro fuel2 seen2
          exact DecoderOf_hit C F cfg fuel2 _ schema _ seen2 b.1 hnew
        · intro fp t d hd
          rw [getDecoderFromCache_add]
          split_ifs with hk
          · simp only [Prod.mk.injEq] at hk
            rw [hk.1, hk.2, hget] at hd
            simp at hd
          · exact hd
  · intro hG fuel seen hfuel
    cases hget : cache.getDecoderFromCache (F.CacheFingerprint schema) (GoType.ptr str elem) with
    | some dec => exact ⟨_, DecoderOf_hit C F cfg fuel cache schema _ seen dec hget⟩
    | none =>
      obtain ⟨b, hb⟩ := decoderOfType_returns C cfg fuel schema elem seen hG
        (by split_ifs <;> omega)
      rw [DecoderOf_miss C F cfg fuel cache schema str elem seen hget, hb]
      exact ⟨_, rfl⟩
  · intro he hm hu hg hget fuel seen
    subst he
    rw [DecoderOf_miss C F cfg fuel cache schema str GoType.eface seen hget,
      decoderOfType_no_receiver C cfg schema seen hm hu hg fuel]
    rfl
  · intro fuel seen enc h
    exact EncoderOf_hit C F cfg fuel cache schema typ seen enc h
  · intro fuel seen enc seen1 h hb
    rw [EncoderOf_miss C F cfg fuel cache schema typ seen h, hb]
    rfl
  · intro fuel seen res hres
    cases hget : cache.getEncoderFromCache (F.Fingerprint schema) typ with
    | some enc =>
      rw [EncoderOf_hit C F cfg fuel cache schema typ seen enc hget] at hres
      simp only [Option.some.injEq] at hres
      subst hres
      refine ⟨Nat.zero_le _, hget, ?_, fun _ _ _ h => h, rfl⟩
      intro fuel2 seen2
      exact EncoderOf_hit C F cfg fuel2 cache schema typ seen2 enc hget
    | none =>
      rw [EncoderOf_miss C F cfg fuel cache schema typ seen hget] at hres
      cases hb : encoderOfType C cfg fuel schema typ seen with
      | none => rw [hb] at hres; simp at hres
      | some b =>
        rw [hb] at hres
        simp only [Option.map_some', Option.some.injEq] at hres
        subst hres
        have hnew : (cache.addEncoderToCache (F.Fingerprint schema) typ
            (if typ.LikePtr then ValEncoder.onePtrEncoder b.1 else b.1)).getEncoderFromCache
              (F.Fingerprint schema) typ
              = some (if typ.LikePtr then ValEncoder.onePtrEncoder b.1 else b.1) := by
          rw [getEncoderFromCache_add]; simp
        refine ⟨le_refl _, hnew, ?_, ?_, rfl⟩
        · intro fuel2 seen2
          exact EncoderOf_hit C F cfg fuel2 _ schema typ seen2 _ hnew
        · intro fp t e he
          rw [getEncoderFromCache_add]
          by_cases hk : (fp, t) = (F.Fingerprint schema, typ)
          · simp only [Prod.mk.injEq] at hk
            rw [hk.1, hk.2, hget] at he
            simp at he
          · rw [if_neg hk]
            exact he
  · intro fuel seen hfuel
    cases hget : cache.getEncoderFromCache (F.Fingerprint schema) typ with
    | some enc => exact ⟨_, EncoderOf_hit C F cfg fuel cache schema typ seen enc hget⟩
    | none =>
      obtain ⟨b, hb⟩ := encoderOfType_returns C cfg fuel schema typ seen hfuel
      rw [EncoderOf_miss C F cfg fuel cache schema typ seen hget, hb]
      exact ⟨_, rfl⟩
  · intro fuel seen
    rfl

/-- Worked example of C11: with empty caches, `DecoderOf` for an array of longs and `*[]int64`
builds the array decoder and caches it; the second call returns it with no build; the same
for `EncoderOf` and `[]int64`.  For the null schema and a pointer to an empty interface
`DecoderOf` returns nothing, for every fuel. -/
theorem codec_cache_identity_witness :
    (∀ fuel seen, frozenConfig.DecoderOf stubCollaborators stubIdentity { BlockLength := 0 } fuel
        emptyCache Schema.Null (GoType.ptr "*interface \x7b\x7d" GoType.eface) seen = none) ∧
    frozenConfig.DecoderOf stubCollaborators stubIdentity { BlockLength := 0 } 5 emptyCache
        (Schema.Array (Schema.Primitive PrimitiveKind.Long))
        (GoType.ptr "*[]int64" int64SliceType) []
      = some { codec := ValDecoder.arrayDecoder int64SliceType (ValDecoder.foreign 1),
               cache := emptyCache.addDecoderToCache [5, 1]
                 (GoType.ptr "*[]int64" int64SliceType)
                 (ValDecoder.arrayDecoder int64SliceType (ValDecoder.foreign 1)),
               seen := [], builds := 1 } ∧
    frozenConfig.DecoderOf stubCollaborators stubIdentity { BlockLength := 0 } 5
        (emptyCache.addDecoderToCache [5, 1] (GoType.ptr "*[]int64" int64SliceType)
          (ValDecoder.arrayDecoder int64SliceType (ValDecoder.foreign 1)))
        (Schema.Array (Schema.Primitive PrimitiveKind.Long))
        (GoType.ptr "*[]int64" int64SliceType) []
      = some { codec := ValDecoder.arrayDecoder int64SliceType (ValDecoder.foreign 1),
               cache := emptyCache.addDecoderToCache [5, 1]
                 (GoType.ptr "*[]int64" int64SliceType)
                 (ValDecoder.arrayDecoder int64SliceType (ValDecoder.foreign 1)),
               seen := [], builds := 0 } ∧
    frozenConfig.EncoderOf stubCollaborators stubIdentity { BlockLength := 0 } 5 emptyCache
        (Schema.Array (Schema.Primitive PrimitiveKind.Long)) (some int64SliceType) []
      = some { codec := ValEncoder.arrayEncoder 100 int64SliceType (ValEncoder.foreign 1),
               cache := emptyCache.addEncoderToCache [5, 1] int64SliceType
                 (ValEncoder.arrayEncoder 100 int64SliceType (ValEncoder.foreign 1)),
               seen := [], builds := 1 } :=
  ⟨(codec_cache_identity stubCollaborators stubIdentity { BlockLength := 0 } emptyCache
      Schema.Null "*interface \x7b\x7d" GoType.eface int64Type).1.2.2.2.2
      rfl rfl (by decide) rfl rfl,
   (codec_cache_identity stubCollaborators stubIdentity { BlockLength := 0 } emptyCache
      (Schema.Array (Schema.Primitive PrimitiveKind.Long)) "*[]int64" int64SliceType
      int64SliceType).1.2.1 5 [] _ _ rfl rfl,
   (codec_cache_identity stubCollaborators stubIdentity { BlockLength := 0 }
      (emptyCache.addDecoderToCache [5, 1] (GoType.ptr "*[]int64" int64SliceType)
        (ValDecoder.arrayDecoder int64SliceType (ValDecoder.foreign 1)))
      (Schema.Array (Schema.Primitive PrimitiveKind.Long)) "*[]int64" int64SliceType
      int64SliceType).1.1 5 [] _ (by decide),
   (codec_cache_identity stubCollaborators stubIdentity { BlockLength := 0 } emptyCache
      (Schema.Array (Schema.Primitive PrimitiveKind.Long)) "*[]int64" int64SliceType
      int64SliceType).2.2.1 5 [] _ _ rfl rfl⟩

/-! ## Dynamic value codec -/

theorem ReadVal_run_ptr {μ : Type} (RT : Runtime μ) (decoder : ValDecoder) (typ : GoType)
    (p : Nat) (hp : p ≠ 0) (seen : seenDecoderStructCache) (w : World μ) :
    Reader.ReadVal.run RT decoder (GoAny.val typ p) seen w = RT.Decode decoder p seen w := by
  simp only [Reader.ReadVal.run, GoAny.PtrOf, if_neg hp]

theorem ReadVal_hit {μ : Type} (C : Collaborators) (F : SchemaIdentity) (cfg : frozenConfig)
    (RT : Runtime μ) (fuel : Nat) (schema : Schema) (typ : GoType) (p : Nat) (hp : p ≠ 0)
    (w : World μ) (dec : ValDecoder)
    (h : w.cache.getDecoderFromCache (F.CacheFingerprint schema) typ = some dec) :
    Reader.ReadVal C F cfg RT fuel schema (GoAny.val typ p) w = some (RT.Decode dec p [] w) := by
  simp only [Reader.ReadVal, GoAny.TypeOf, h, ReadVal_run_ptr RT dec typ p hp]

theorem ReadVal_miss {μ : Type} (C : Collaborators) (F : SchemaIdentity) (cfg : frozenConfig)
    (RT : Runtime μ) (fuel : Nat) (schema : Schema) (str : String) (elem : GoType) (p : Nat)
    (hp : p ≠ 0) (w : World μ)
    (h : w.cache.getDecoderFromCache (F.CacheFingerprint schema) (GoType.ptr str elem) = none) :
    Reader.ReadVal C F cfg RT fuel schema (GoAny.val (GoType.ptr str elem) p) w
      = (frozenConfig.DecoderOf C F cfg fuel w.cache schema (GoType.ptr str elem) []).map
          (fun res => RT.Decode res.codec p res.seen { w with cache := res.cache }) := by
  have hk : ¬ (GoType.ptr str elem).Kind ≠ Kind.Ptr := by simp [GoType.Kind]
  simp only [Reader.ReadVal, GoAny.TypeOf, h, if_neg hk]
  cases frozenConfig.DecoderOf C F cfg fuel w.cache schema (GoType.ptr str elem) [] with
  | none => rfl
  | some res => simp only [Option.map_some', ReadVal_run_ptr RT res.codec _ p hp]

theorem ReadVal_returns {μ : Type} (C : Collaborators) (F : SchemaIdentity) (cfg : frozenConfig)
    (RT : Runtime μ) (fuel : Nat) (schema : Schema) (hG : ReceiverDefined C schema)
    (str : String)
    (elem : GoType) (p : Nat) (hp : p ≠ 0) (w : World μ) (hfuel : 2 * schema.depth + 1 < fuel) :
    ∃ w1, Reader.ReadVal C F cfg RT fuel schema (GoAny.val (GoType.ptr str elem) p) w
      = some w1 := by
  cases h : w.cache.getDecoderFromCache (F.CacheFingerprint schema) (GoType.ptr str elem) with
  | some dec => exact ⟨_, ReadVal_hit C F cfg RT fuel schema _ p hp w dec h⟩
  | none =>
    obtain ⟨b, hb⟩ := decoderOfType_returns C cfg fuel schema elem [] hG
      (by split_ifs <;> omega)
    rw [ReadVal_miss C F cfg RT fuel schema str elem p hp w h,
      DecoderOf_miss C F cfg fuel w.cache schema str elem [] h, hb]
    exact ⟨_, rfl⟩

theorem efaceDecoder_Decode_ptr {μ : Type} (C : Collaborators) (F : SchemaIdentity)
    (cfg : frozenConfig) (RT : Runtime μ) (fuel : Nat) (d : efaceDecoder) (str : String)
    (elem : GoType) (p : Nat) (hp : p ≠ 0) (seen : seenDecoderStructCache) (w : World μ) :
    efaceDecoder.Decode C F cfg RT fuel d (GoAny.val (GoType.ptr str elem) p) seen w
      = (Reader.ReadVal C F cfg RT fuel d.schema (GoAny.val (GoType.ptr str elem) p) w).map
          (fun w1 => (GoAny.val (GoType.ptr str elem) p, w1)) := by
  have hk : ¬ (GoType.ptr str elem).Kind ≠ Kind.Ptr := by simp [GoType.Kind]
  have hnil : (GoAny.val (GoType.ptr str elem) p).IsNil = false := by simp [GoAny.IsNil, hp]
  simp only [efaceDecoder.Decode, if_neg hk, hnil]
  cases Reader.ReadVal C F cfg RT fuel d.schema (GoAny.val (GoType.ptr str elem) p) w with
  | none => rfl
  | some w1 => rfl

theorem efaceDecoder_Decode_nilptr {μ : Type} (C : Collaborators) (F : SchemaIdentity)
    (cfg : frozenConfig) (RT : Runtime μ) (fuel : Nat) (d : efaceDecoder) (str : String)
    (elem : GoType) (seen : seenDecoderStructCache) (w : World μ) :
    efaceDecoder.Decode C F cfg RT fuel d (GoAny.val (GoType.ptr str elem) 0) seen w
      = (Reader.ReadVal C F cfg RT fuel d.schema
          (GoAny.val (GoType.PtrTo elem) (RT.New elem w.mem).1)
          { w with mem := (RT.New elem w.mem).2 }).map
          (fun w1 => (GoAny.val (GoType.PtrTo elem) (RT.New elem w.mem).1, w1)) := by
  have hk : ¬ (GoType.ptr str elem).Kind ≠ Kind.Ptr := by simp [GoType.Kind]
  have hnil : (GoAny.val (GoType.ptr str elem) 0).IsNil = true := by simp [GoAny.IsNil]
  simp only [efaceDecoder.Decode, if_neg hk, hnil]
  cases Reader.ReadVal C F cfg RT fuel d.schema
      (GoAny.val (GoType.PtrTo elem) (RT.New elem w.mem).1)
      { w with mem := (RT.New elem w.mem).2 } with
  | none => rfl
  | some w1 => rfl

/-- Counterexample to C12 (c): the slot holds the null pointer of the defined pointer type
`main.P` (`type P *int64`); after the decode of the long 7 the slot holds a pointer to the
fresh cell, of type `*int64`, which is not the type `main.P` the slot held. -/
theorem efaceDecoder_Decode_defined_pointer_counterexample :
    efaceDecoder.Decode stubCollaborators stubIdentity { BlockLength := 0 } stubRuntime 5
        longEfaceDecoder (GoAny.val definedPtrType 0) []
        { mem := [], r := { buf := [14], Error := none }, cache := emptyCache }
      = some (GoAny.val int64PtrType 1,
          { mem := [7], r := { buf := [], Error := none },
            cache := emptyCache.addDecoderToCache [4, 0] int64PtrType (ValDecoder.foreign 1) }) ∧
    (GoAny.val definedPtrType 0).IsNil = true ∧
    definedPtrType.Kind = Kind.Ptr ∧
    (GoAny.val int64PtrType 1).TypeOf ≠ some definedPtrType :=
  ⟨rfl, rfl, rfl, by decide⟩

/-- Claim C12, amended: the decode policy of `efaceDecoder.Decode` for every state of the
slot.  (a) The slot holds no value: it afterwards holds what `genericDecode` returns for the
receiver type and decoder of the codec, which `newEfaceDecoder` takes from the generic
receiver of the schema.  (b) The slot holds a non-null pointer `p`: the decoder of the schema
for the pointer's type (cached, or built and cached) decodes at `p`, and the slot holds the
same pointer of the same type.  (c) The slot holds a null pointer of a pointer type with
pointed-to type `T`: a fresh zero `T` is allocated, the decoder of the schema for `*T`
decodes at its address, and the slot then holds that address with type `*T`; this is the
type the slot held when that is the plain pointer type `*T`, not when it is a defined
pointer type.  In (b) and (c) the call returns once the fuel covers the depth of the schema.
A value that is not a pointer is replaced as in (a). -/
theorem efaceDecoder_Decode_policy {μ : Type} (C : Collaborators) (F : SchemaIdentity)
    (cfg : frozenConfig) (RT : Runtime μ) (fuel : Nat) (d : efaceDecoder)
    (seen : seenDecoderStructCache) (w : World μ) :
    (efaceDecoder.Decode C F cfg RT fuel d GoAny.nil seen w
        = some (RT.genericDecode d.typ d.dec seen w) ∧
      (∀ recur schema seen0 s t dc seen1,
        newEfaceDecoder C recur schema seen0 = some (ValDecoder.efaceDecoder s t dc, seen1) →
        s = schema ∧ C.genericReceiver schema = some t ∧
          recur schema t seen0 = some (dc, seen1))) ∧
    (∀ str elem p, p ≠ 0 →
      (∀ dec,
        w.cache.getDecoderFromCache (F.CacheFingerprint d.schema) (GoType.ptr str elem)
          = some dec →
        efaceDecoder.Decode C F cfg RT fuel d (GoAny.val (GoType.ptr str elem) p) seen w
          = some (GoAny.val (GoType.ptr str elem) p, RT.Decode dec p [] w)) ∧
      (∀ res,
        w.cache.getDecoderFromCache (F.CacheFingerprint d.schema) (GoType.ptr str elem) = none →
        frozenConfig.DecoderOf C F cfg fuel w.cache d.schema (GoType.ptr str elem) []
          = some res →
        efaceDecoder.Decode C F cfg RT fuel d (GoAny.val (GoType.ptr str elem) p) seen w
          = some (GoAny.val (GoType.ptr str elem) p,
              RT.Decode res.codec p res.seen { w with cache := res.cache })) ∧
      (ReceiverDefined C d.schema → 2 * d.schema.depth + 1 < fuel →
        ∃ w1, efaceDecoder.Decode C F cfg RT fuel d (GoAny.val (GoType.ptr str elem) p) seen w
          = some (GoAny.val (GoType.ptr str elem) p, w1))) ∧
    (∀ str elem, (RT.New elem w.mem).1 ≠ 0 →
      (∀ dec,
        w.cache.getDecoderFromCache (F.CacheFingerprint d.schema) (GoType.PtrTo elem)
          = some dec →
        efaceDecoder.Decode C F cfg RT fuel d (GoAny.val (GoType.ptr str elem) 0) seen w
          = some (GoAny.val (GoType.PtrTo elem) (RT.New elem w.mem).1,
              RT.Decode dec (RT.New elem w.mem).1 []
                { w with mem := (RT.New elem w.mem).2 })) ∧
      (∀ res,
        w.cache.getDecoderFromCache (F.CacheFingerprint d.schema) (GoType.PtrTo elem) = none →
        frozenConfig.DecoderOf C F cfg fuel w.cache d.schema (GoType.PtrTo elem) []
          = some res →
        efaceDecoder.Decode C F cfg RT fuel d (GoAny.val (GoType.ptr str elem) 0) seen w
          = some (GoAny.val (GoType.PtrTo elem) (RT.New elem w.mem).1,
              RT.Decode res.codec (RT.New elem w.mem).1 res.seen
                { mem := (RT.New elem w.mem).2, r := w.r, cache := res.cache })) ∧
      (ReceiverDefined C d.schema → 2 * d.schema.depth + 1 < fuel →
        ∃ w1, efaceDecoder.Decode C F cfg RT fuel d (GoAny.val (GoType.ptr str elem) 0) seen w
          = some (GoAny.val (GoType.PtrTo elem) (RT.New elem w.mem).1, w1)) ∧
      (GoType.PtrTo elem = GoType.ptr str elem ↔ str = "*" ++ elem.String)) ∧
    (∀ typ p, typ.Kind ≠ Kind.Ptr →
      efaceDecoder.Decode C F cfg RT fuel d (GoAny.val typ p) seen w
        = some (RT.genericDecode d.typ d.dec seen w)) := by
  refine ⟨⟨rfl, ?_⟩, ?_, ?_, ?_⟩
  · intro recur schema seen0 s t dc seen1 h
    simp only [newEfaceDecoder] at h
    cases hg : C.genericReceiver schema with
    | none => rw [hg] at h; simp at h
    | some t0 =>
      rw [hg] at h
      simp only at h
      cases hr : recur schema t0 seen0 with
      | none => rw [hr] at h; simp at h
      | some b =>
        rw [hr] at h
        simp only [Option.some.injEq, Prod.mk.injEq, ValDecoder.efaceDecoder.injEq] at h
        obtain ⟨⟨h1, h2, h3⟩, h4⟩ := h
        subst h1 h2
        exact ⟨rfl, rfl, by rw [hr, ← h3, ← h4]⟩
  · intro str elem p hp
    refine ⟨?_, ?_, ?_⟩
    · intro dec h
      rw [efaceDecoder_Decode_ptr C F cfg RT fuel d str elem p hp,
        ReadVal_hit C F cfg RT fuel d.schema _ p hp w dec h]
      rfl
    · intro res h hres
      rw [efaceDecoder_Decode_ptr C F cfg RT fuel d str elem p hp,
        ReadVal_miss C F cfg RT fuel d.schema str elem p hp w h, hres]
      rfl
    · intro hG hfuel
      obtain ⟨w1, hw1⟩ := ReadVal_returns C F cfg RT fuel d.schema hG str elem p hp w hfuel
      rw [efaceDecoder_Decode_ptr C F cfg RT fuel d str elem p hp, hw1]
      exact ⟨w1, rfl⟩
  · intro str elem ha
    refine ⟨?_, ?_, ?_, ?_⟩
    · intro dec h
      rw [efaceDecoder_Decode_nilptr,
        ReadVal_hit C F cfg RT fuel d.schema _ _ ha
          { mem := (RT.New elem w.mem).2, r := w.r, cache := w.cache } dec h]
      rfl
    · intro res h hres
      rw [GoType.PtrTo] at h hres
      rw [efaceDecoder_Decode_nilptr, GoType.PtrTo,
        ReadVal_miss C F cfg RT fuel d.schema _ elem _ ha
          { mem := (RT.New elem w.mem).2, r := w.r, cache := w.cache } h]
      simp only [hres, Option.map_some']
    · intro hG hfuel
      obtain ⟨w1, hw1⟩ := ReadVal_returns C F cfg RT fuel d.schema hG ("*" ++ elem.String) elem
        _ ha { w with mem := (RT.New elem w.mem).2 } hfuel
      rw [efaceDecoder_Decode_nilptr]
      rw [GoType.PtrTo, hw1]
      exact ⟨w1, rfl⟩
    · simp only [GoType.PtrTo, GoType.ptr.injEq, and_true]
      exact eq_comm
  · intro typ p hk
    cases typ <;> simp_all [efaceDecoder.Decode, GoType.Kind]

/-- Worked example of C12 with the long 7 on the input: an empty slot receives the generic
`int64` receiver holding 7; a slot holding the pointer 1 of type `*int64` keeps it and the
cell behind it becomes 7; a slot holding the null `*int64` receives a pointer to a fresh cell
holding 7, of type `*int64`. -/
theorem efaceDecoder_Decode_policy_witness :
    efaceDecoder.Decode stubCollaborators stubIdentity { BlockLength := 0 } stubRuntime 5
        longEfaceDecoder GoAny.nil []
        { mem := [3], r := { buf := [14], Error := none }, cache := emptyCache }
      = some (GoAny.val int64Type 2,
          { mem := [3, 7], r := { buf := [], Error := none }, cache := emptyCache }) ∧
    efaceDecoder.Decode stubCollaborators stubIdentity { BlockLength := 0 } stubRuntime 5
        longEfaceDecoder (GoAny.val int64PtrType 1) []
        { mem := [3], r := { buf := [14], Error := none }, cache := emptyCache }
      = some (GoAny.val int64PtrType 1,
          { mem := [7], r := { buf := [], Error := none },
            cache := emptyCache.addDecoderToCache [4, 0] int64PtrType (ValDecoder.foreign 1) }) ∧
    efaceDecoder.Decode stubCollaborators stubIdentity { BlockLength := 0 } stubRuntime 5
        longEfaceDecoder (GoAny.val int64PtrType 0) []
        { mem := [3], r := { buf := [14], Error := none }, cache := emptyCache }
      = some (GoAny.val int64PtrType 2,
          { mem := [3, 7], r := { buf := [], Error := none },
            cache := emptyCache.addDecoderToCache [4, 0] int64PtrType (ValDecoder.foreign 1) }) :=
  ⟨(efaceDecoder_Decode_policy stubCollaborators stubIdentity { BlockLength := 0 } stubRuntime
      5 longEfaceDecoder []
      { mem := [3], r := { buf := [14], Error := none }, cache := emptyCache }).1.1,
   ((efaceDecoder_Decode_policy stubCollaborators stubIdentity { BlockLength := 0 } stubRuntime
      5 longEfaceDecoder []
      { mem := [3], r := { buf := [14], Error := none }, cache := emptyCache }).2.1
      "*int64" int64Type 1 (by decide)).2.1 _ rfl rfl,
   ((efaceDecoder_Decode_policy stubCollaborators stubIdentity { BlockLength := 0 } stubRuntime
      5 longEfaceDecoder []
      { mem := [3], r := { buf := [14], Error := none }, cache := emptyCache }).2.2.1
      "*int64" int64Type (by decide)).2.1 _ rfl rfl⟩

end Avro
